import Mathlib

/-!
# CS-Node API handler: a shallow embedding of `api/src/APIHandler.cpp`

The handler answers read queries over the block chain (`TransactionsGet`,
`PoolListGet`, ...), maintains the smart-contract index
(`update_smart_caches`) and orchestrates transaction submission
(`TransactionFlow`).

Conventions of the embedding.

* Opaque identifiers of the `csdb` library (pool hashes, addresses, currencies)
  are carried by `String`; the empty string is the default-constructed (empty)
  value.  Library functions whose bodies are not part of `APIHandler.cpp` are
  fields of `Lib` (pure functions) and `BlockChain` (the ledger accessor).
* `int64_t` arguments are `Int`; conversions to `uint64_t` are explicit
  (`toUInt64`).  Container sizes are far below `2^63`, so `size() == limit`
  is the comparison of the length with `limit` in `Int`.
* Loops that follow previous-hash links take a fuel argument and return
  `none` when the fuel runs out.
* `std::map` is a partial function; `operator[]` is `Map.index`, which
  default-constructs and stores a missing entry.
-/

set_option autoImplicit false

/-! ## Data model -/

namespace csdb

/-- The type `csdb::PoolHash`; `""` is the empty hash. -/
abbrev PoolHash := String

/-- The type `csdb::Address`. -/
abbrev Address := String

/-- The type `csdb::Currency`, built from its name. -/
structure Currency where
  name : String
deriving DecidableEq, Inhabited

/-- The type `csdb::Amount`, kept as the constructor call that built it:
`csdb::Amount(value)` or `csdb::Amount(integral, fraction, denom)`. -/
inductive Amount where
  | ofInt (value : Int)
  | ofParts (integral : Int) (fraction : Int) (denom : Nat)
deriving DecidableEq

instance : Inhabited Amount := ⟨Amount.ofInt 0⟩

/-- The type `csdb::TransactionID`: the containing pool and the index in it.
The default-constructed id has the empty pool hash. -/
structure TransactionID where
  pool_hash : PoolHash
  index : Nat
deriving DecidableEq

instance : Inhabited TransactionID := ⟨⟨"", 0⟩⟩

/-- The type `csdb::UserField` with its `Type` tag. -/
inductive UserField where
  | unknown
  | integer (value : Int)
  | string (value : String)
  | amount (value : Amount)
deriving DecidableEq

instance : Inhabited UserField := ⟨UserField.unknown⟩

/-- The call `uf.type() == csdb::UserField::Type::String`. -/
def UserField.isString : UserField → Bool
  | UserField.string _ => true
  | _ => false

/-- The call `uf.value<std::string>()`: the payload of a string field, the
empty string for any other field. -/
def UserField.valueString : UserField → String
  | UserField.string s => s
  | _ => ""

/-- The type `csdb::Transaction`; `user_field0` is `user_field(0)`. -/
structure Transaction where
  id : TransactionID
  source : Address
  target : Address
  amount : Amount
  balance : Amount
  currency : Currency
  user_field0 : UserField
deriving DecidableEq

instance : Inhabited Transaction :=
  ⟨⟨default, "", "", default, default, default, default⟩⟩

/-- The type `csdb::Pool`; `user_field0` is `user_field(0)` (the time stamp). -/
structure Pool where
  is_valid : Bool
  hash : PoolHash
  sequence : Nat
  previous_hash : PoolHash
  transactions : List Transaction
  user_field0 : UserField
deriving DecidableEq

instance : Inhabited Pool := ⟨⟨false, "", 0, "", [], default⟩⟩

/-- The call `pool.transactions_count()`. -/
def Pool.transactions_count (p : Pool) : Nat := p.transactions.length

/-- The call `pool.transaction(idx)`. -/
def Pool.transaction (p : Pool) (idx : Nat) : Transaction := p.transactions.getD idx default

end csdb

namespace api

/-- The type `api::Address` (a `std::string`). -/
abbrev Address := String

/-- The type `api::Amount`. -/
structure Amount where
  integral : Int
  fraction : Int
deriving DecidableEq, Inhabited

/-- The type `api::SmartContract`, the metadata carried in user field 0. -/
structure SmartContract where
  address : Address
  sourceCode : String
  byteCode : String
  hashState : String
  method : String
  params : List String
  contractState : String
deriving DecidableEq

instance : Inhabited SmartContract := ⟨⟨"", "", "", "", "", [], ""⟩⟩

/-- The type `api::Transaction`. -/
structure Transaction where
  innerId : String
  source : Address
  target : Address
  amount : Amount
  currency : String
  smartContract : SmartContract
deriving DecidableEq

instance : Inhabited Transaction := ⟨⟨"", "", "", default, "", default⟩⟩

/-- The type `api::Pool`. -/
structure Pool where
  hash : String
  prevHash : String
  time : Int
  transactionsCount : Int
  poolNumber : Int
deriving DecidableEq

instance : Inhabited Pool := ⟨⟨"", "", 0, 0, 0⟩⟩

/-- The type `api::APIResponse`. -/
structure APIResponse where
  code : Nat
  message : String
deriving DecidableEq

instance : Inhabited APIResponse := ⟨⟨0, ""⟩⟩

/-- The type `api::TransactionsGetResult`. -/
structure TransactionsGetResult where
  status : APIResponse
  transactions : List Transaction
deriving DecidableEq

/-- The type `api::PoolListGetResult`. -/
structure PoolListGetResult where
  status : APIResponse
  pools : List Pool
deriving DecidableEq

/-- The type `api::TransactionFlowResult`. -/
structure TransactionFlowResult where
  status : APIResponse
deriving DecidableEq

instance : Inhabited TransactionFlowResult := ⟨⟨default⟩⟩

end api

namespace executor

/-- The response record filled in by `executor.executeByteCode`; the handler
reads `contractState` only. -/
structure APIResponse where
  code : Nat
  message : String
  contractState : String
deriving DecidableEq, Inhabited

end executor

/-! ## External collaborators -/

/-- Pure library functions called by the handler whose bodies are outside
`APIHandler.cpp`. -/
structure Lib where
  /-- The call `Credits::BlockChain::getAddressFromKey`. -/
  getAddressFromKey : String → csdb.Address
  /-- The call `csdb::Address::from_string`. -/
  address_from_string : String → csdb.Address
  /-- The call `csdb::Address::to_string`. -/
  address_to_string : csdb.Address → String
  /-- The call `csdb::PoolHash::to_string`. -/
  poolhash_to_string : csdb.PoolHash → String
  /-- The call `csdb::PoolHash::from_string`. -/
  poolhash_from_string : String → csdb.PoolHash
  /-- The call `csdb::Currency::to_string`. -/
  currency_to_string : csdb.Currency → String
  /-- The call `csdb::TransactionID::to_string`. -/
  transactionid_to_string : csdb.TransactionID → String
  /-- The call `csdb::Amount::integral`. -/
  amount_integral : csdb.Amount → Int
  /-- The call `csdb::Amount::fraction`. -/
  amount_fraction : csdb.Amount → Int
  /-- The call `csdb::Transaction::is_valid`. -/
  transaction_is_valid : csdb.Transaction → Bool
  /-- The Thrift writer `api::SmartContract::write` into a memory buffer. -/
  sc_write : api.SmartContract → String
  /-- The Thrift reader `api::SmartContract::read` from a memory buffer. -/
  sc_read : String → api.SmartContract
  /-- The C function `atoll`. -/
  atoll : String → Int

namespace Credits

/-- The ledger accessor `Credits::BlockChain`, as the handler sees it. -/
structure BlockChain where
  loadBlock : csdb.PoolHash → csdb.Pool
  loadTransaction : csdb.TransactionID → csdb.Transaction
  getLastHash : csdb.PoolHash
  getSize : Nat
  getBalance : csdb.Address → csdb.Amount

/-- The consensus submitter `Credits::ISolver`.  `send_wallet_transaction`
is called as a statement, so whatever it reports is dropped by the handler; the
outcome is kept here to state what happens when a submission fails. -/
structure ISolver where
  send_wallet_transaction : csdb.Transaction → Bool

end Credits

/-! ## Status codes -/

/-- The enumeration `APIHandlerBase::APIRequestStatusType`. -/
inductive APIRequestStatusType where
  | SUCCESS
  | FAILURE
  | NOT_IMPLEMENTED
deriving DecidableEq

/-- `APIHandlerBase::SetResponseStatus(response, status, details)`: the code and
message of the `statuses` table, with `details` appended. -/
def SetResponseStatus (status : APIRequestStatusType) (details : String) : api.APIResponse :=
  match status with
  | APIRequestStatusType.SUCCESS => ⟨0, "Success" ++ details⟩
  | APIRequestStatusType.FAILURE => ⟨1, "Failure" ++ details⟩
  | APIRequestStatusType.NOT_IMPLEMENTED => ⟨2, "Not Implemented" ++ details⟩

/-! ## Conversions to the API representation -/

/-- The function `convertAmount`. -/
def convertAmount (lib : Lib) (amount : csdb.Amount) : api.Amount :=
  { integral := lib.amount_integral amount, fraction := lib.amount_fraction amount }

/-- The function `convertTransaction`. -/
def convertTransaction (lib : Lib) (transaction : csdb.Transaction) : api.Transaction :=
  { (default : api.Transaction) with
    amount := convertAmount lib transaction.amount
    currency := lib.currency_to_string transaction.currency
    innerId := lib.transactionid_to_string transaction.id
    source := lib.address_to_string transaction.source
    target := lib.address_to_string transaction.target }

/-- The function `convertTransactions`. -/
def convertTransactions (lib : Lib) (transactions : List csdb.Transaction) :
    List api.Transaction :=
  transactions.map (convertTransaction lib)

/-! ## `APIHandler::TransactionsGet` -/

/-- The address resolution at the head of `TransactionsGet` and `BalanceGet`;
`address.size()` is the length in bytes. -/
def resolveAddress (lib : Lib) (address : api.Address) : csdb.Address :=
  if address.utf8ByteSize ≠ 64 then lib.getAddressFromKey address
  else lib.address_from_string address

/-- Lines 274-280 of `TransactionsGet`: one transaction is examined; a match
is appended when `offset == 0` and consumes one unit of `offset` otherwise.
The state is the pair `(offset, transactions)`. -/
def TransactionsGet.visit (addr : csdb.Address) (trans : csdb.Transaction)
    (st : Int × List csdb.Transaction) : Int × List csdb.Transaction :=
  if trans.target = addr ∨ trans.source = addr then
    if st.1 = 0 then (st.1, st.2 ++ [trans]) else (st.1 - 1, st.2)
  else st

/-- The inner `while (true)` loop of `TransactionsGet`, entered at index
`curIdx` and counting down to index 0. -/
def TransactionsGet.inner (addr : csdb.Address) (limit : Int) (curr : csdb.Pool) :
    Nat → Int × List csdb.Transaction → Int × List csdb.Transaction
  | 0, st => TransactionsGet.visit addr (curr.transaction 0) st
  | curIdx + 1, st =>
    let st1 := TransactionsGet.visit addr (curr.transaction (curIdx + 1)) st
    if (st1.2.length : Int) = limit then st1
    else TransactionsGet.inner addr limit curr curIdx st1

/-- The outer `while (curr.is_valid())` loop of `TransactionsGet`. -/
def TransactionsGet.outer (bc : Credits.BlockChain) (addr : csdb.Address) (limit : Int) :
    Nat → csdb.Pool → Int × List csdb.Transaction → Option (Int × List csdb.Transaction)
  | 0, _, _ => none
  | fuel + 1, curr, st =>
    if curr.is_valid then
      let st1 :=
        if curr.transactions_count ≠ 0 then
          TransactionsGet.inner addr limit curr (curr.transactions_count - 1) st
        else st
      if (st1.2.length : Int) = limit then some st1
      else TransactionsGet.outer bc addr limit fuel (bc.loadBlock curr.previous_hash) st1
    else some st

/-- The method `APIHandler::TransactionsGet`. -/
def APIHandler.TransactionsGet (lib : Lib) (bc : Credits.BlockChain) (fuel : Nat)
    (address : api.Address) (offset limit : Int) : Option api.TransactionsGetResult :=
  let addr := resolveAddress lib address
  match TransactionsGet.outer bc addr limit fuel (bc.loadBlock bc.getLastHash) (offset, []) with
  | none => none
  | some st =>
    some { transactions := convertTransactions lib st.2
           status := SetResponseStatus APIRequestStatusType.SUCCESS "" }

/-! ## Handler state -/

/-- A `std::map`: a partial function from keys to values. -/
abbrev Map (K V : Type) := K → Option V

/-- The empty map. -/
def Map.empty {K V : Type} : Map K V := fun _ => none

/-- The assignment `m[k] = v`. -/
def Map.insert {K V : Type} [DecidableEq K] (m : Map K V) (k : K) (v : V) : Map K V :=
  fun x => if x = k then some v else m x

/-- The read `m[k]` through `operator[]`: a missing key is first stored with a
default-constructed value.  Returns the value and the map afterwards. -/
def Map.index {K V : Type} [DecidableEq K] [Inhabited V] (m : Map K V) (k : K) :
    V × Map K V :=
  match m k with
  | some v => (v, m)
  | none => (default, Map.insert m k default)

/-- The mutable members of `APIHandler` together with the function-local
static `transport_opened` of `TransactionFlow`. -/
structure APIHandler where
  smart_origin : Map api.Address csdb.TransactionID
  smart_state : Map api.Address csdb.TransactionID
  deployed_by_creator : Map csdb.Address (List csdb.TransactionID)
  last_seen_contract_block : csdb.PoolHash
  poolCache : Map csdb.PoolHash api.Pool
  transport_opened : Bool

/-- The handler before any call: empty index, unset checkpoint, empty pool
cache, executor transport not opened. -/
def APIHandler.fresh : APIHandler :=
  { smart_origin := Map.empty, smart_state := Map.empty, deployed_by_creator := Map.empty,
    last_seen_contract_block := "", poolCache := Map.empty, transport_opened := false }

/-! ## Smart-contract metadata -/

/-- The function `serialize`. -/
def serialize (lib : Lib) (sc : api.SmartContract) : String := lib.sc_write sc

/-- The function `deserialize`. -/
def deserialize (lib : Lib) (s : String) : api.SmartContract := lib.sc_read s

/-- The function `fetch_smart`. -/
def fetch_smart (lib : Lib) (tr : csdb.Transaction) : api.SmartContract :=
  if lib.transaction_is_valid tr then deserialize lib tr.user_field0.valueString
  else default

/-- The function `is_smart`. -/
def is_smart (tr : csdb.Transaction) : Bool := tr.user_field0.isString

/-- The function `is_smart_deploy`. -/
def is_smart_deploy (smart : api.SmartContract) : Bool := decide (smart.byteCode ≠ "")

/-! ## `APIHandler::update_smart_caches` -/

/-- The state threaded through the scan of `update_smart_caches`: the locals
`poss` and `state_updated` and the three index maps.  A list iterator stored in
`poss` is kept as the position it designates in the deployer's list. -/
structure SmartScan where
  poss : Map csdb.Address Nat
  state_updated : api.Address → Bool
  smart_origin : Map api.Address csdb.TransactionID
  smart_state : Map api.Address csdb.TransactionID
  deployed_by_creator : Map csdb.Address (List csdb.TransactionID)

/-- The body of the `for` loop of `update_smart_caches` for one transaction.
`targetList.insert(p->second, tr.id())` inserts before the iterator, which goes
on designating the same element, now one position further. -/
def update_smart_caches.visit (lib : Lib) (s : SmartScan) (tr : csdb.Transaction) :
    SmartScan :=
  if is_smart tr then
    let smart := fetch_smart lib tr
    if is_smart_deploy smart then
      let targetList := Map.index s.deployed_by_creator tr.source
      let p : Nat × Map csdb.Address Nat :=
        match s.poss tr.source with
        | some pos => (pos, s.poss)
        | none => (0, Map.insert s.poss tr.source 0)
      { s with
        smart_origin := Map.insert s.smart_origin smart.address tr.id
        deployed_by_creator :=
          Map.insert targetList.2 tr.source (targetList.1.insertIdx p.1 tr.id)
        poss := Map.insert p.2 tr.source (p.1 + 1) }
    else if s.state_updated smart.address then s
    else
      { s with
        smart_state := Map.insert s.smart_state smart.address tr.id
        state_updated := fun a => decide (a = smart.address) || s.state_updated a }
  else s

/-- The `while (curr_ph != last_seen_contract_block)` loop of
`update_smart_caches`; each pool is scanned from its last transaction to its
first. -/
def update_smart_caches.walk (lib : Lib) (bc : Credits.BlockChain)
    (last_seen_contract_block : csdb.PoolHash) :
    Nat → csdb.PoolHash → SmartScan → Option SmartScan
  | 0, _, _ => none
  | fuel + 1, curr_ph, s =>
    if curr_ph ≠ last_seen_contract_block then
      let p := bc.loadBlock curr_ph
      update_smart_caches.walk lib bc last_seen_contract_block fuel p.previous_hash
        (p.transactions.reverse.foldl (update_smart_caches.visit lib) s)
    else some s

/-- The method `APIHandler::update_smart_caches`. -/
def APIHandler.update_smart_caches (lib : Lib) (bc : Credits.BlockChain) (fuel : Nat)
    (h : APIHandler) : Option APIHandler :=
  let last_ph := bc.getLastHash
  match update_smart_caches.walk lib bc h.last_seen_contract_block fuel last_ph
      { poss := Map.empty, state_updated := fun _ => false, smart_origin := h.smart_origin,
        smart_state := h.smart_state, deployed_by_creator := h.deployed_by_creator } with
  | none => none
  | some s =>
    some { h with
      smart_origin := s.smart_origin
      smart_state := s.smart_state
      deployed_by_creator := s.deployed_by_creator
      last_seen_contract_block := last_ph }

/-! ## `APIHandler::TransactionFlow` -/

namespace executor

/-- The Thrift client of the contract executor: `executeByteCode(address,
byteCode, contractState, method, params)` fills in a response. -/
structure ContractExecutor where
  executeByteCode : api.Address → String → String → String → List String → APIResponse

end executor

/-- A call made by `TransactionFlow` to an external collaborator, with what
the collaborator answered. -/
inductive Effect where
  | send_wallet_transaction (tr : csdb.Transaction) (accepted : Bool)
  | open_transport
  | executeByteCode (address : api.Address) (byteCode contractState method : String)
      (params : List String) (api_resp : executor.APIResponse)
deriving DecidableEq

/-- The transactions handed to `solver.send_wallet_transaction`, in order. -/
def submissions : List Effect → List csdb.Transaction
  | [] => []
  | Effect.send_wallet_transaction tr _ :: es => tr :: submissions es
  | _ :: es => submissions es

/-- The number of `executor.executeByteCode` calls. -/
def executorCalls : List Effect → Nat
  | [] => 0
  | Effect.executeByteCode _ _ _ _ _ _ :: es => executorCalls es + 1
  | _ :: es => executorCalls es

/-- The calls to the solver and to the executor, without transport management. -/
def dispatches (es : List Effect) : List Effect :=
  es.filter (fun e => decide (e ≠ Effect.open_transport))

/-- What a `TransactionFlow` call leaves behind: the result record, the external
calls in the order they were made, and the handler state. -/
structure FlowOutcome where
  result : api.TransactionFlowResult
  effects : List Effect
  handler : APIHandler

/-- The target for which `TransactionFlow` returns at once. -/
def excludedTarget : String := "accXpfvxnZa8txuxpjyPqzBaqYPHqYu2rwn34lL8rjI="

/-- The constant `WALLET_DENOM`. -/
def WALLET_DENOM : Nat := 1000000000000000000

/-- The method `APIHandler::TransactionFlow`.  `solver` is a C++ reference, so
the `&solver == nullptr` branch is never taken.  The ledger is not read after
the first submission.  Every call to the solver and to the executor returns
here; `APIHandler.TransactionFlow.raising` is the flow when one of them ends in
an exception. -/
def APIHandler.TransactionFlow (lib : Lib) (bc : Credits.BlockChain)
    (solver : Credits.ISolver) (exec : executor.ContractExecutor) (fuel : Nat)
    (h : APIHandler) (transaction : api.Transaction) : Option FlowOutcome :=
  if transaction.target = excludedTarget then
    some { result := default, effects := [], handler := h }
  else
    let source := lib.getAddressFromKey transaction.source
    let send_transaction : csdb.Transaction :=
      { (default : csdb.Transaction) with
        amount := csdb.Amount.ofParts transaction.amount.integral
          transaction.amount.fraction WALLET_DENOM
        balance := bc.getBalance source
        currency := ⟨"CS"⟩
        source := source
        target := lib.getAddressFromKey transaction.target }
    let smart : Bool := decide (transaction.smartContract.address ≠ "")
    if smart then
      match APIHandler.update_smart_caches lib bc fuel h with
      | none => none
      | some h1 =>
        let origin := Map.index h1.smart_origin transaction.target
        let smart_for_executor := fetch_smart lib (bc.loadTransaction origin.1)
        let state := Map.index h1.smart_state transaction.target
        let smart_for_net0 := fetch_smart lib (bc.loadTransaction state.1)
        let h2 := { h1 with smart_origin := origin.2, smart_state := state.2 }
        let input_smart :=
          if transaction.smartContract.method ≠ "" then
            { transaction.smartContract with byteCode := "", sourceCode := "" }
          else transaction.smartContract
        let deploy := is_smart_deploy input_smart
        if decide (smart_for_executor.address = "") = deploy then
          let smart_for_net1 :=
            if deploy then
              { smart_for_net0 with
                byteCode := input_smart.byteCode, sourceCode := input_smart.sourceCode }
            else smart_for_net0
          let smart_for_net :=
            { smart_for_net1 with
              address := transaction.target
              hashState := input_smart.hashState
              method := input_smart.method
              params := input_smart.params }
          let send_transaction1 :=
            { send_transaction with
              user_field0 := csdb.UserField.string (serialize lib smart_for_net)
              amount := csdb.Amount.ofInt 1 }
          let method := if smart_for_net.method = "" then "initialize" else smart_for_net.method
          let api_resp := exec.executeByteCode smart_for_net.address
            smart_for_executor.byteCode smart_for_net.contractState method smart_for_net.params
          let new_smart :=
            { (default : api.SmartContract) with
              contractState := api_resp.contractState
              method := smart_for_net.method
              params := smart_for_net.params
              address := smart_for_net.address }
          let contract_redeploy_tr :=
            { send_transaction1 with
              user_field0 := csdb.UserField.string (serialize lib new_smart) }
          some {
            result := ⟨SetResponseStatus APIRequestStatusType.SUCCESS ""⟩
            effects :=
              [Effect.send_wallet_transaction send_transaction1
                (solver.send_wallet_transaction send_transaction1)]
              ++ (if h2.transport_opened then [] else [Effect.open_transport])
              ++ [Effect.executeByteCode smart_for_net.address smart_for_executor.byteCode
                    smart_for_net.contractState method smart_for_net.params api_resp,
                  Effect.send_wallet_transaction contract_redeploy_tr
                    (solver.send_wallet_transaction contract_redeploy_tr)]
            handler := { h2 with transport_opened := true } }
        else
          some { result := ⟨SetResponseStatus APIRequestStatusType.FAILURE ""⟩
                 effects := [], handler := h2 }
    else
      some { result := ⟨SetResponseStatus APIRequestStatusType.SUCCESS ""⟩
             effects := [Effect.send_wallet_transaction send_transaction
               (solver.send_wallet_transaction send_transaction)]
             handler := h }

/-- The request is a deploy: its method is empty and its byte-code is not. -/
def requestIsDeploy (transaction : api.Transaction) : Prop :=
  transaction.smartContract.method = "" ∧ transaction.smartContract.byteCode ≠ ""

instance (transaction : api.Transaction) : Decidable (requestIsDeploy transaction) := by
  unfold requestIsDeploy
  infer_instance

/-- The metadata fetched from the origin entry of `target` in the index of `h`. -/
def originMetadata (lib : Lib) (bc : Credits.BlockChain) (h : APIHandler)
    (target : api.Address) : api.SmartContract :=
  fetch_smart lib (bc.loadTransaction (Map.index h.smart_origin target).1)

/-- The metadata fetched from the state entry of `target` in the index of `h`. -/
def stateMetadata (lib : Lib) (bc : Credits.BlockChain) (h : APIHandler)
    (target : api.Address) : api.SmartContract :=
  fetch_smart lib (bc.loadTransaction (Map.index h.smart_state target).1)

/-! ## `APIHandler::PoolListGet` -/

/-- The conversion `(uint64_t)x` of an `int64_t`. -/
def toUInt64 (x : Int) : Nat := (x % 2 ^ 64).toNat

/-- The conversion `(int32_t)n` of an unsigned count. -/
def toInt32 (n : Nat) : Int := ((n : Int) + 2 ^ 31) % 2 ^ 32 - 2 ^ 31

/-- The assignment of an unsigned 64-bit value to a signed 64-bit field: values
from `2^63` on wrap to negative numbers. -/
def toInt64 (n : Nat) : Int := ((n : Int) + 2 ^ 63) % 2 ^ 64 - 2 ^ 63

/-- The condition of `assert(result.poolNumber >= 0)` in `convertPool`, which
is checked for a valid pool only.  A build with assertions enabled aborts
when it fails. -/
def convertPool.assertion (pool : csdb.Pool) : Bool :=
  !pool.is_valid || decide (0 ≤ toInt64 pool.sequence)

/-- The function `APIHandler::convertPool(const csdb::Pool&)`.  The unsigned
`pool.sequence()` is assigned to the signed 64-bit field `poolNumber`; the
value returned is that of a run in which `convertPool.assertion` holds or
assertions are compiled out. -/
def convertPool (lib : Lib) (pool : csdb.Pool) : api.Pool :=
  if pool.is_valid then
    { hash := lib.poolhash_to_string pool.hash
      poolNumber := toInt64 pool.sequence
      prevHash := lib.poolhash_to_string pool.previous_hash
      time := lib.atoll pool.user_field0.valueString
      transactionsCount := toInt32 pool.transactions_count }
  else default

/-- The `for (it = sequence; it > lower; --it)` loop of `PoolListGet` with
`n = it - lower` iterations to go.  The state is the current hash, the pool
cache and the pools returned so far. -/
def PoolListGet.loop (lib : Lib) (bc : Credits.BlockChain) (offset : Int)
    (sequence lower : Nat) :
    Nat → csdb.PoolHash × Map csdb.PoolHash api.Pool × List api.Pool →
      csdb.PoolHash × Map csdb.PoolHash api.Pool × List api.Pool
  | 0, st => st
  | n + 1, (hash, poolCache, pools) =>
    let it := lower + (n + 1)
    match poolCache hash with
    | none =>
      let pool := bc.loadBlock hash
      let apiPool := convertPool lib pool
      let pools1 :=
        if it ≤ sequence - min sequence (toUInt64 offset) then pools ++ [apiPool] else pools
      PoolListGet.loop lib bc offset sequence lower n
        (pool.previous_hash, Map.insert poolCache hash apiPool, pools1)
    | some cached =>
      PoolListGet.loop lib bc offset sequence lower n
        (lib.poolhash_from_string cached.prevHash, poolCache, pools ++ [cached])

/-- The method `APIHandler::PoolListGet`; it returns the result record and the
handler with the pool cache as the call leaves it. -/
def APIHandler.PoolListGet (lib : Lib) (bc : Credits.BlockChain) (h : APIHandler)
    (offset const_limit : Int) : api.PoolListGetResult × APIHandler :=
  let offset := if offset > 100 then 100 else offset
  let const_limit := if const_limit > 100 then 100 else const_limit
  let hash := bc.getLastHash
  let sequence := bc.getSize
  let lower := sequence - min sequence (toUInt64 (offset + const_limit))
  let st := PoolListGet.loop lib bc offset sequence lower (sequence - lower)
    (hash, h.poolCache, [])
  ({ status := default, pools := st.2.2 }, { h with poolCache := st.2.1 })

/-! ## Reference notions for the address history -/

/-- The transactions of a list of pools given newest-first: pools in the given
order, within a pool from the last index to the first. -/
def newestFirst (pools : List csdb.Pool) : List csdb.Transaction :=
  pools.flatMap (fun p => p.transactions.reverse)

/-- Whether a transaction has `addr` as its source or its target. -/
def touches (addr : csdb.Address) (t : csdb.Transaction) : Bool :=
  decide (t.target = addr ∨ t.source = addr)

/-- All transactions of the pools that touch `addr`, newest-first. -/
def addressHistory (addr : csdb.Address) (pools : List csdb.Pool) : List csdb.Transaction :=
  (newestFirst pools).filter (touches addr)

/-- The pools met by `while (curr.is_valid())` from `curr` along previous-hash
links: `pools` is that walk, ending at the first pool that is not valid. -/
def ValidWalk (bc : Credits.BlockChain) : csdb.Pool → List csdb.Pool → Prop
  | curr, [] => curr.is_valid = false
  | curr, p :: ps =>
    curr = p ∧ p.is_valid = true ∧ ValidWalk bc (bc.loadBlock p.previous_hash) ps

instance ValidWalk.decidable (bc : Credits.BlockChain) :
    ∀ (curr : csdb.Pool) (pools : List csdb.Pool), Decidable (ValidWalk bc curr pools)
  | curr, [] => inferInstanceAs (Decidable (curr.is_valid = false))
  | curr, p :: ps =>
    have := ValidWalk.decidable bc (bc.loadBlock p.previous_hash) ps
    inferInstanceAs (Decidable (curr = p ∧ p.is_valid = true ∧
      ValidWalk bc (bc.loadBlock p.previous_hash) ps))

/-- The scan of `TransactionsGet` over an explicit list of transactions: each
one is visited, and the scan stops after a visit that leaves `limit`
collected transactions. -/
def TransactionsGet.scan (addr : csdb.Address) (limit : Int) :
    List csdb.Transaction → Int × List csdb.Transaction → Int × List csdb.Transaction
  | [], st => st
  | t :: ts, st =>
    let st1 := TransactionsGet.visit addr t st
    if (st1.2.length : Int) = limit then st1 else TransactionsGet.scan addr limit ts st1

/-! ## Reference notions for the smart-contract index -/

/-- The pools met by `while (curr_ph != last_seen_contract_block)` from hash
`h`: `pools` is that walk, which ends when the hash equals `stop`. -/
def IndexWalk (bc : Credits.BlockChain) (stop : csdb.PoolHash) :
    csdb.PoolHash → List csdb.Pool → Prop
  | h, [] => h = stop
  | h, p :: ps => h ≠ stop ∧ bc.loadBlock h = p ∧ IndexWalk bc stop p.previous_hash ps

instance IndexWalk.decidable (bc : Credits.BlockChain) (stop : csdb.PoolHash) :
    ∀ (h : csdb.PoolHash) (pools : List csdb.Pool), Decidable (IndexWalk bc stop h pools)
  | h, [] => inferInstanceAs (Decidable (h = stop))
  | h, p :: ps =>
    have := IndexWalk.decidable bc stop p.previous_hash ps
    inferInstanceAs (Decidable (h ≠ stop ∧ bc.loadBlock h = p ∧
      IndexWalk bc stop p.previous_hash ps))

/-- The transaction is a deploy transaction whose metadata address is `A`: its
user field 0 is a string whose metadata has byte-code and address `A`. -/
def isDeployFor (lib : Lib) (A : api.Address) (tr : csdb.Transaction) : Bool :=
  is_smart tr && is_smart_deploy (fetch_smart lib tr) &&
    decide ((fetch_smart lib tr).address = A)

/-- The chain `pools` holds a deploy transaction whose metadata address is `A`. -/
def hasDeploy (lib : Lib) (pools : List csdb.Pool) (A : api.Address) : Prop :=
  ∃ p ∈ pools, ∃ t ∈ p.transactions, isDeployFor lib A t = true

instance (lib : Lib) (pools : List csdb.Pool) (A : api.Address) :
    Decidable (hasDeploy lib pools A) := by
  unfold hasDeploy
  infer_instance

/-! ## A small concrete ledger -/

/-- A library instance with identity string conversions and a table-driven
metadata codec. -/
def demoLib : Lib where
  getAddressFromKey := fun s => s
  address_from_string := fun s => s
  address_to_string := fun s => s
  poolhash_to_string := fun s => s
  poolhash_from_string := fun s => s
  currency_to_string := fun c => c.name
  transactionid_to_string := fun i => i.pool_hash
  amount_integral := fun a =>
    match a with
    | csdb.Amount.ofInt v => v
    | csdb.Amount.ofParts i _ _ => i
  amount_fraction := fun a =>
    match a with
    | csdb.Amount.ofInt _ => 0
    | csdb.Amount.ofParts _ f _ => f
  transaction_is_valid := fun t => decide (t.source ≠ "")
  sc_write := fun sc =>
    (if sc.byteCode = "" then "call:" else "deploy:") ++ sc.address ++ "/" ++ sc.contractState
  sc_read := fun s =>
    if s = "deploy:vault" then
      { (default : api.SmartContract) with address := "vault", byteCode := "cafe" }
    else if s = "call:vault" then
      { (default : api.SmartContract) with address := "vault", method := "put" }
    else if s = "deploy:safe" then
      { (default : api.SmartContract) with address := "safe", byteCode := "beef" }
    else if s = "deploy:reserved" then
      { (default : api.SmartContract) with
        address := "accXpfvxnZa8txuxpjyPqzBaqYPHqYu2rwn34lL8rjI=", byteCode := "cafe" }
    else default
  atoll := fun _ => 0

/-- A transfer from alice to bob, the only transaction of the genesis pool. -/
def demoTx1 : csdb.Transaction :=
  { id := ⟨"h1", 0⟩, source := "alice", target := "bob", amount := csdb.Amount.ofInt 2,
    balance := csdb.Amount.ofInt 5, currency := ⟨"CS"⟩, user_field0 := csdb.UserField.unknown }

/-- A transfer from carol to alice, first transaction of the head pool. -/
def demoTx2 : csdb.Transaction :=
  { id := ⟨"h2", 0⟩, source := "carol", target := "alice", amount := csdb.Amount.ofInt 1,
    balance := csdb.Amount.ofInt 9, currency := ⟨"CS"⟩, user_field0 := csdb.UserField.unknown }

/-- A transfer from bob to alice, last transaction of the head pool. -/
def demoTx3 : csdb.Transaction :=
  { id := ⟨"h2", 1⟩, source := "bob", target := "alice", amount := csdb.Amount.ofInt 1,
    balance := csdb.Amount.ofInt 2, currency := ⟨"CS"⟩, user_field0 := csdb.UserField.unknown }

/-- The genesis pool. -/
def demoPool1 : csdb.Pool :=
  { is_valid := true, hash := "h1", sequence := 0, previous_hash := "",
    transactions := [demoTx1], user_field0 := csdb.UserField.string "1000" }

/-- The head pool. -/
def demoPool2 : csdb.Pool :=
  { is_valid := true, hash := "h2", sequence := 1, previous_hash := "h1",
    transactions := [demoTx2, demoTx3], user_field0 := csdb.UserField.string "2000" }

/-- A ledger of two pools, `h2` on top of the genesis pool `h1`. -/
def demoChain : Credits.BlockChain where
  loadBlock := fun h => if h = "h2" then demoPool2 else if h = "h1" then demoPool1 else default
  loadTransaction := fun i =>
    (if i.pool_hash = "h2" then demoPool2 else if i.pool_hash = "h1" then demoPool1
      else default).transaction i.index
  getLastHash := "h2"
  getSize := 2
  getBalance := fun _ => csdb.Amount.ofInt 5

/-! ## A small ledger with a deployed contract -/

/-- Alice deploys the contract `vault` in the genesis pool. -/
def vaultTx1 : csdb.Transaction :=
  { id := ⟨"v1", 0⟩, source := "alice", target := "vault", amount := csdb.Amount.ofInt 1,
    balance := csdb.Amount.ofInt 5, currency := ⟨"CS"⟩,
    user_field0 := csdb.UserField.string "deploy:vault" }

/-- Bob calls the contract `vault` in the head pool. -/
def vaultTx2 : csdb.Transaction :=
  { id := ⟨"v2", 0⟩, source := "bob", target := "vault", amount := csdb.Amount.ofInt 1,
    balance := csdb.Amount.ofInt 3, currency := ⟨"CS"⟩,
    user_field0 := csdb.UserField.string "call:vault" }

/-- The genesis pool of the vault ledger. -/
def vaultPool1 : csdb.Pool :=
  { is_valid := true, hash := "v1", sequence := 0, previous_hash := "",
    transactions := [vaultTx1], user_field0 := csdb.UserField.string "1000" }

/-- The head pool of the vault ledger. -/
def vaultPool2 : csdb.Pool :=
  { is_valid := true, hash := "v2", sequence := 1, previous_hash := "v1",
    transactions := [vaultTx2], user_field0 := csdb.UserField.string "2000" }

/-- A ledger of two pools in which `vault` is deployed and then called. -/
def vaultChain : Credits.BlockChain where
  loadBlock := fun h =>
    if h = "v2" then vaultPool2 else if h = "v1" then vaultPool1 else default
  loadTransaction := fun i =>
    (if i.pool_hash = "v2" then vaultPool2 else if i.pool_hash = "v1" then vaultPool1
      else default).transaction i.index
  getLastHash := "v2"
  getSize := 2
  getBalance := fun _ => csdb.Amount.ofInt 5

/-- The handler after a refresh over the vault ledger from the fresh state. -/
def vaultIndexed : APIHandler :=
  { APIHandler.fresh with
    smart_origin := Map.insert Map.empty "vault" ⟨"v1", 0⟩
    smart_state := Map.insert Map.empty "vault" ⟨"v2", 0⟩
    deployed_by_creator :=
      Map.insert (Map.insert Map.empty "alice" []) "alice" [⟨"v1", 0⟩]
    last_seen_contract_block := "v2" }

/-- A solver that refuses every transaction. -/
def refusingSolver : Credits.ISolver := ⟨fun _ => false⟩

/-- A solver that accepts every transaction. -/
def acceptingSolver : Credits.ISolver := ⟨fun _ => true⟩

/-- An executor that reports an error for every call. -/
def failingExecutor : executor.ContractExecutor :=
  ⟨fun _ _ _ _ _ => ⟨1, "execution failed", "x"⟩⟩

/-- An executor that answers every call with the state blob `"s1"`. -/
def demoExecutor : executor.ContractExecutor :=
  ⟨fun _ _ _ _ _ => ⟨0, "", "s1"⟩⟩

/-- A request that calls method `put` of `vault`. -/
def invokeVault : api.Transaction :=
  { (default : api.Transaction) with
    source := "bob", target := "vault", amount := ⟨2, 0⟩
    smartContract := { (default : api.SmartContract) with address := "vault", method := "put" } }

/-- A request that deploys byte-code at `vault`. -/
def deployVault : api.Transaction :=
  { (default : api.Transaction) with
    source := "alice", target := "vault", amount := ⟨2, 0⟩
    smartContract := { (default : api.SmartContract) with address := "vault", byteCode := "cafe" } }

/-- A plain transfer of (2, 0) from alice to bob. -/
def plainTransfer : api.Transaction :=
  { (default : api.Transaction) with source := "alice", target := "bob", amount := ⟨2, 0⟩ }

/-- The transaction the flow submits first for `invokeVault`. -/
def invokeVaultIntent : csdb.Transaction :=
  { id := default, source := "bob", target := "vault", amount := csdb.Amount.ofInt 1,
    balance := csdb.Amount.ofInt 5, currency := ⟨"CS"⟩,
    user_field0 := csdb.UserField.string "call:vault/" }

/-- The state-commit transaction for `invokeVault` when the executor returns
the blob `"s1"`. -/
def invokeVaultCommit : csdb.Transaction :=
  { invokeVaultIntent with user_field0 := csdb.UserField.string "call:vault/s1" }

/-- What `TransactionFlow` leaves behind for `invokeVault` on the vault ledger
with the accepting solver and the demo executor. -/
def invokeVaultOutcome : FlowOutcome :=
  { result := ⟨SetResponseStatus APIRequestStatusType.SUCCESS ""⟩
    effects :=
      [Effect.send_wallet_transaction invokeVaultIntent true,
       Effect.open_transport,
       Effect.executeByteCode "vault" "cafe" "" "put" [] ⟨0, "", "s1"⟩,
       Effect.send_wallet_transaction invokeVaultCommit true]
    handler := { vaultIndexed with transport_opened := true } }

/-- The hash of the `i`-th pool of the long ledger: the letter `a` repeated
`i` times; the genesis pool has `i = 1` and the empty hash before it. -/
def longHash (i : Nat) : csdb.PoolHash := String.mk (List.replicate i 'a')

/-- The `i`-th pool of the long ledger, without transactions. -/
def longPool (i : Nat) : csdb.Pool :=
  { is_valid := true, hash := longHash i, sequence := i - 1, previous_hash := longHash (i - 1),
    transactions := [], user_field0 := csdb.UserField.string "0" }

/-- A ledger of 101 pools, `longPool 101` at the head. -/
def longChain : Credits.BlockChain where
  loadBlock := fun h =>
    if h = longHash h.length ∧ 1 ≤ h.length ∧ h.length ≤ 101 then longPool h.length
    else default
  loadTransaction := fun _ => default
  getLastHash := longHash 101
  getSize := 101
  getBalance := fun _ => csdb.Amount.ofInt 0

/-! ## Reference notions for sequences of refreshes -/

/-- The transaction carries state for `A`: its user field 0 is a string whose
metadata has no byte-code and has address `A`. -/
def isStateFor (lib : Lib) (A : api.Address) (tr : csdb.Transaction) : Bool :=
  is_smart tr && !is_smart_deploy (fetch_smart lib tr) &&
    decide ((fetch_smart lib tr).address = A)

/-- The transaction is a deploy transaction sent by `D`. -/
def isDeployBy (lib : Lib) (D : csdb.Address) (tr : csdb.Transaction) : Bool :=
  is_smart tr && is_smart_deploy (fetch_smart lib tr) && decide (tr.source = D)

/-- The handler states reached from an empty index with unset checkpoint by
calls of `update_smart_caches` interleaved with block appends.  In
`Refreshed lib pools h` the list `pools` is the chain, newest-first, at the
last call.  At a call the ledger has grown by the pools `new`: the walk from
its head reaches the checkpoint through them. -/
inductive Refreshed (lib : Lib) : List csdb.Pool → APIHandler → Prop where
  | start (h : APIHandler) (horigin : h.smart_origin = Map.empty)
      (hstate : h.smart_state = Map.empty) (hdeployed : h.deployed_by_creator = Map.empty)
      (hcheckpoint : h.last_seen_contract_block = "") : Refreshed lib [] h
  | call (old new : List csdb.Pool) (bc : Credits.BlockChain) (fuel : Nat)
      (h h1 : APIHandler) (hreached : Refreshed lib old h)
      (hwalk : IndexWalk bc h.last_seen_contract_block bc.getLastHash new)
      (hcall : APIHandler.update_smart_caches lib bc fuel h = some h1) :
      Refreshed lib (new ++ old) h1

/-! ## Contract lookups -/

namespace api

/-- The type `api::SmartContractGetResult`. -/
structure SmartContractGetResult where
  status : APIResponse
  smartContract : SmartContract
deriving DecidableEq

/-- The type `api::SmartContractsListGetResult`. -/
structure SmartContractsListGetResult where
  status : APIResponse
  smartContractsList : List SmartContract
deriving DecidableEq

/-- The type `api::SmartContractAddressesListGetResult`. -/
structure SmartContractAddressesListGetResult where
  status : APIResponse
  addressesList : List Address
deriving DecidableEq

end api

/-- The method `APIHandler::SmartContractGet`; it returns the result record and
the handler as the call leaves it. -/
def APIHandler.SmartContractGet (lib : Lib) (bc : Credits.BlockChain) (fuel : Nat)
    (h : APIHandler) (address : api.Address) :
    Option (api.SmartContractGetResult × APIHandler) :=
  match APIHandler.update_smart_caches lib bc fuel h with
  | none => none
  | some h1 =>
    let trid := Map.index h1.smart_origin address
    let tr := bc.loadTransaction trid.1
    let smartContract := fetch_smart lib tr
    some ({ smartContract := smartContract
            status := SetResponseStatus
              (if smartContract.address ≠ "" then APIRequestStatusType.SUCCESS
               else APIRequestStatusType.FAILURE) "" },
          { h1 with smart_origin := trid.2 })

/-- The method template `APIHandler::get_mapped_deployer_smart`; `out` is the
vector the mapped contracts are pushed to. -/
def APIHandler.get_mapped_deployer_smart {β : Type} (lib : Lib) (bc : Credits.BlockChain)
    (fuel : Nat) (h : APIHandler) (deployer : csdb.Address) (mapper : api.SmartContract → β)
    (out : List β) : Option (List β × APIHandler) :=
  match APIHandler.update_smart_caches lib bc fuel h with
  | none => none
  | some h1 =>
    let trids := Map.index h1.deployed_by_creator deployer
    some (out ++ trids.1.map (fun trid => mapper (fetch_smart lib (bc.loadTransaction trid))),
          { h1 with deployed_by_creator := trids.2 })

/-- The method `APIHandler::SmartContractsListGet`. -/
def APIHandler.SmartContractsListGet (lib : Lib) (bc : Credits.BlockChain) (fuel : Nat)
    (h : APIHandler) (deployer : api.Address) :
    Option (api.SmartContractsListGetResult × APIHandler) :=
  let addr := lib.getAddressFromKey deployer
  match APIHandler.get_mapped_deployer_smart lib bc fuel h addr (fun smart => smart) [] with
  | none => none
  | some r =>
    some ({ smartContractsList := r.1
            status := SetResponseStatus APIRequestStatusType.SUCCESS "" }, r.2)

/-- The method `APIHandler::SmartContractAddressesListGet`. -/
def APIHandler.SmartContractAddressesListGet (lib : Lib) (bc : Credits.BlockChain)
    (fuel : Nat) (h : APIHandler) (deployer : api.Address) :
    Option (api.SmartContractAddressesListGetResult × APIHandler) :=
  let addr := lib.getAddressFromKey deployer
  match APIHandler.get_mapped_deployer_smart lib bc fuel h addr (fun sc => sc.address) [] with
  | none => none
  | some r =>
    some ({ addressesList := r.1
            status := SetResponseStatus APIRequestStatusType.SUCCESS "" }, r.2)

/-! ## More small ledgers -/

/-- The handler after a refresh over the genesis pool of the vault ledger. -/
def vaultGenesisIndexed : APIHandler :=
  { APIHandler.fresh with
    smart_origin := Map.insert Map.empty "vault" ⟨"v1", 0⟩
    deployed_by_creator :=
      Map.insert (Map.insert Map.empty "alice" []) "alice" [⟨"v1", 0⟩]
    last_seen_contract_block := "v1" }

/-- Alice deploys the contract `vault` in the genesis pool of the safe ledger. -/
def safeTx1 : csdb.Transaction :=
  { id := ⟨"s1", 0⟩, source := "alice", target := "vault", amount := csdb.Amount.ofInt 1,
    balance := csdb.Amount.ofInt 5, currency := ⟨"CS"⟩,
    user_field0 := csdb.UserField.string "deploy:vault" }

/-- Alice deploys the contract `safe` in the head pool of the safe ledger. -/
def safeTx2 : csdb.Transaction :=
  { id := ⟨"s2", 0⟩, source := "alice", target := "safe", amount := csdb.Amount.ofInt 1,
    balance := csdb.Amount.ofInt 4, currency := ⟨"CS"⟩,
    user_field0 := csdb.UserField.string "deploy:safe" }

/-- The genesis pool of the safe ledger. -/
def safePool1 : csdb.Pool :=
  { is_valid := true, hash := "s1", sequence := 0, previous_hash := "",
    transactions := [safeTx1], user_field0 := csdb.UserField.string "1000" }

/-- The head pool of the safe ledger. -/
def safePool2 : csdb.Pool :=
  { is_valid := true, hash := "s2", sequence := 1, previous_hash := "s1",
    transactions := [safeTx2], user_field0 := csdb.UserField.string "2000" }

/-- A ledger of two pools in which alice deploys `vault` and later `safe`. -/
def safeChain : Credits.BlockChain where
  loadBlock := fun h => if h = "s2" then safePool2 else if h = "s1" then safePool1 else default
  loadTransaction := fun i =>
    (if i.pool_hash = "s2" then safePool2 else if i.pool_hash = "s1" then safePool1
      else default).transaction i.index
  getLastHash := "s2"
  getSize := 2
  getBalance := fun _ => csdb.Amount.ofInt 5

/-- Alice deploys the contract `vault` in the head pool of the broken ledger. -/
def brokenTx : csdb.Transaction :=
  { id := ⟨"b2", 0⟩, source := "alice", target := "vault", amount := csdb.Amount.ofInt 1,
    balance := csdb.Amount.ofInt 5, currency := ⟨"CS"⟩,
    user_field0 := csdb.UserField.string "deploy:vault" }

/-- The head pool of the broken ledger; the pool `b1` before it is missing. -/
def brokenPool : csdb.Pool :=
  { is_valid := true, hash := "b2", sequence := 2, previous_hash := "b1",
    transactions := [brokenTx], user_field0 := csdb.UserField.string "3000" }

/-- A ledger whose head `b2` can be loaded and whose pool `b1` cannot: every
hash but `b2` yields the default-constructed, invalid pool. -/
def brokenChain : Credits.BlockChain where
  loadBlock := fun h => if h = "b2" then brokenPool else default
  loadTransaction := fun i =>
    (if i.pool_hash = "b2" then brokenPool else default).transaction i.index
  getLastHash := "b2"
  getSize := 3
  getBalance := fun _ => csdb.Amount.ofInt 5

/-! ## Reference notions for the refresh walk -/

/-- The hashes under which the pools of a walk from hash `h` are loaded: `h`,
then the previous hash of each pool but the last. -/
def chainHashes : csdb.PoolHash → List csdb.Pool → List csdb.PoolHash
  | _, [] => []
  | h, p :: ps => h :: chainHashes p.previous_hash ps

/-- The pools loaded by the `while (curr_ph != last_seen_contract_block)` loop
of `update_smart_caches`, in the order they are loaded. -/
def update_smart_caches.visits (bc : Credits.BlockChain)
    (last_seen_contract_block : csdb.PoolHash) :
    Nat → csdb.PoolHash → Option (List csdb.Pool)
  | 0, _ => none
  | fuel + 1, curr_ph =>
    if curr_ph ≠ last_seen_contract_block then
      let p := bc.loadBlock curr_ph
      (update_smart_caches.visits bc last_seen_contract_block fuel p.previous_hash).map
        (fun ps => p :: ps)
    else some []

/-! ## `APIHandler::TransactionFlow` when a collaborator raises -/

/-- The calls of `TransactionFlow` to the solver and to the executor, in source
order: `solver.send_wallet_transaction(send_transaction)` (line 450),
`executor_transport->open()` (line 468), `executor.executeByteCode(...)`
(line 473) and `solver.send_wallet_transaction(contract_redeploy_tr)`
(line 491). -/
inductive FlowCall where
  | send_transaction
  | transport_open
  | executeByteCode
  | send_contract_redeploy_tr
deriving DecidableEq

/-- What a `TransactionFlow` call leaves behind when a collaborator may raise a
C++ exception.  `TransactionFlow` has no `try` block, so an exception leaves it
at the call that raised: `raised` is that call, `outcome.result` is the record
`_return` as the call left it, `outcome.effects` are the calls that returned. -/
structure FlowRun where
  outcome : FlowOutcome
  raised : Option FlowCall

/-- The method `APIHandler::TransactionFlow` with the exceptions of the solver
and of the executor.  `raises c` tells whether the call `c` ends in an
exception; a run makes each call at most once.  `transport_opened` is set
before `executor_transport->open()` is called. -/
def APIHandler.TransactionFlow.raising (lib : Lib) (bc : Credits.BlockChain)
    (solver : Credits.ISolver) (exec : executor.ContractExecutor) (raises : FlowCall → Bool)
    (fuel : Nat) (h : APIHandler) (transaction : api.Transaction) : Option FlowRun :=
  if transaction.target = excludedTarget then
    some { outcome := { result := default, effects := [], handler := h }, raised := none }
  else
    let source := lib.getAddressFromKey transaction.source
    let send_transaction : csdb.Transaction :=
      { (default : csdb.Transaction) with
        amount := csdb.Amount.ofParts transaction.amount.integral
          transaction.amount.fraction WALLET_DENOM
        balance := bc.getBalance source
        currency := ⟨"CS"⟩
        source := source
        target := lib.getAddressFromKey transaction.target }
    let smart : Bool := decide (transaction.smartContract.address ≠ "")
    if smart then
      match APIHandler.update_smart_caches lib bc fuel h with
      | none => none
      | some h1 =>
        let origin := Map.index h1.smart_origin transaction.target
        let smart_for_executor := fetch_smart lib (bc.loadTransaction origin.1)
        let state := Map.index h1.smart_state transaction.target
        let smart_for_net0 := fetch_smart lib (bc.loadTransaction state.1)
        let h2 := { h1 with smart_origin := origin.2, smart_state := state.2 }
        let input_smart :=
          if transaction.smartContract.method ≠ "" then
            { transaction.smartContract with byteCode := "", sourceCode := "" }
          else transaction.smartContract
        let deploy := is_smart_deploy input_smart
        if decide (smart_for_executor.address = "") = deploy then
          let smart_for_net1 :=
            if deploy then
              { smart_for_net0 with
                byteCode := input_smart.byteCode, sourceCode := input_smart.sourceCode }
            else smart_for_net0
          let smart_for_net :=
            { smart_for_net1 with
              address := transaction.target
              hashState := input_smart.hashState
              method := input_smart.method
              params := input_smart.params }
          let send_transaction1 :=
            { send_transaction with
              user_field0 := csdb.UserField.string (serialize lib smart_for_net)
              amount := csdb.Amount.ofInt 1 }
          let method := if smart_for_net.method = "" then "initialize" else smart_for_net.method
          let api_resp := exec.executeByteCode smart_for_net.address
            smart_for_executor.byteCode smart_for_net.contractState method smart_for_net.params
          let new_smart :=
            { (default : api.SmartContract) with
              contractState := api_resp.contractState
              method := smart_for_net.method
              params := smart_for_net.params
              address := smart_for_net.address }
          let contract_redeploy_tr :=
            { send_transaction1 with
              user_field0 := csdb.UserField.string (serialize lib new_smart) }
          let sent := Effect.send_wallet_transaction send_transaction1
            (solver.send_wallet_transaction send_transaction1)
          let opened := if h2.transport_opened then [] else [Effect.open_transport]
          let executed := Effect.executeByteCode smart_for_net.address
            smart_for_executor.byteCode smart_for_net.contractState method smart_for_net.params
            api_resp
          if raises FlowCall.send_transaction then
            some { outcome := { result := default, effects := [], handler := h2 }
                   raised := some FlowCall.send_transaction }
          else if (!h2.transport_opened && raises FlowCall.transport_open) then
            some { outcome := { result := default, effects := [sent]
                                handler := { h2 with transport_opened := true } }
                   raised := some FlowCall.transport_open }
          else if raises FlowCall.executeByteCode then
            some { outcome := { result := default, effects := [sent] ++ opened
                                handler := { h2 with transport_opened := true } }
                   raised := some FlowCall.executeByteCode }
          else if raises FlowCall.send_contract_redeploy_tr then
            some { outcome := { result := default, effects := [sent] ++ opened ++ [executed]
                                handler := { h2 with transport_opened := true } }
                   raised := some FlowCall.send_contract_redeploy_tr }
          else
            some { outcome :=
                     { result := ⟨SetResponseStatus APIRequestStatusType.SUCCESS ""⟩
                       effects := [sent] ++ opened ++
                         [executed,
                          Effect.send_wallet_transaction contract_redeploy_tr
                            (solver.send_wallet_transaction contract_redeploy_tr)]
                       handler := { h2 with transport_opened := true } }
                   raised := none }
        else
          some { outcome := { result := ⟨SetResponseStatus APIRequestStatusType.FAILURE ""⟩
                              effects := [], handler := h2 }
                 raised := none }
    else if raises FlowCall.send_transaction then
      some { outcome := { result := default, effects := [], handler := h }
             raised := some FlowCall.send_transaction }
    else
      some { outcome := { result := ⟨SetResponseStatus APIRequestStatusType.SUCCESS ""⟩
                          effects := [Effect.send_wallet_transaction send_transaction
                            (solver.send_wallet_transaction send_transaction)]
                          handler := h }
             raised := none }

/-- The run in which the phase-1 submission raises. -/
def submissionRaises : FlowCall → Bool := fun c => decide (c = FlowCall.send_transaction)

/-- The run in which the executor call raises. -/
def executorRaises : FlowCall → Bool := fun c => decide (c = FlowCall.executeByteCode)

/-- Alice deploys the contract `vault` in the genesis pool of the estate
ledger. -/
def estateTx1 : csdb.Transaction :=
  { id := ⟨"e1", 0⟩, source := "alice", target := "vault", amount := csdb.Amount.ofInt 1,
    balance := csdb.Amount.ofInt 5, currency := ⟨"CS"⟩,
    user_field0 := csdb.UserField.string "deploy:vault" }

/-- Alice deploys the contract `safe`, first transaction of the head pool. -/
def estateTx2 : csdb.Transaction :=
  { id := ⟨"e2", 0⟩, source := "alice", target := "safe", amount := csdb.Amount.ofInt 1,
    balance := csdb.Amount.ofInt 4, currency := ⟨"CS"⟩,
    user_field0 := csdb.UserField.string "deploy:safe" }

/-- Alice deploys a contract at the reserved key, last transaction of the head
pool. -/
def estateTx3 : csdb.Transaction :=
  { id := ⟨"e2", 1⟩, source := "alice", target := excludedTarget,
    amount := csdb.Amount.ofInt 1, balance := csdb.Amount.ofInt 3, currency := ⟨"CS"⟩,
    user_field0 := csdb.UserField.string "deploy:reserved" }

/-- The genesis pool of the estate ledger. -/
def estatePool1 : csdb.Pool :=
  { is_valid := true, hash := "e1", sequence := 0, previous_hash := "",
    transactions := [estateTx1], user_field0 := csdb.UserField.string "1000" }

/-- The head pool of the estate ledger, with two deploys by alice. -/
def estatePool2 : csdb.Pool :=
  { is_valid := true, hash := "e2", sequence := 1, previous_hash := "e1",
    transactions := [estateTx2, estateTx3], user_field0 := csdb.UserField.string "2000" }

/-- The estate ledger before its second pool was appended. -/
def estateGenesisChain : Credits.BlockChain where
  loadBlock := fun h => if h = "e1" then estatePool1 else default
  loadTransaction := fun i =>
    (if i.pool_hash = "e1" then estatePool1 else default).transaction i.index
  getLastHash := "e1"
  getSize := 1
  getBalance := fun _ => csdb.Amount.ofInt 5

/-- A ledger of two pools in which alice deploys `vault`, then `safe`, then a
contract at the reserved key. -/
def estateChain : Credits.BlockChain where
  loadBlock := fun h =>
    if h = "e2" then estatePool2 else if h = "e1" then estatePool1 else default
  loadTransaction := fun i =>
    (if i.pool_hash = "e2" then estatePool2 else if i.pool_hash = "e1" then estatePool1
      else default).transaction i.index
  getLastHash := "e2"
  getSize := 2
  getBalance := fun _ => csdb.Amount.ofInt 5

/-- The handler after a refresh over the genesis pool of the estate ledger. -/
def estateGenesisIndexed : APIHandler :=
  { APIHandler.fresh with
    smart_origin := Map.insert Map.empty "vault" ⟨"e1", 0⟩
    deployed_by_creator :=
      Map.insert (Map.insert Map.empty "alice" []) "alice" [⟨"e1", 0⟩]
    last_seen_contract_block := "e1" }

/-! # Theorems -/

/-! ## The address-history scan -/

theorem TransactionsGet.inner_eq_scan (addr : csdb.Address) (limit : Int) (curr : csdb.Pool) :
    ∀ (n : Nat) (st : Int × List csdb.Transaction), n < curr.transactions.length →
      TransactionsGet.inner addr limit curr n st =
        TransactionsGet.scan addr limit (curr.transactions.take (n + 1)).reverse st := by
  intro n
  induction n with
  | zero =>
    intro st h
    obtain ⟨t, ts, hts⟩ : ∃ t ts, curr.transactions = t :: ts := by
      cases hc : curr.transactions with
      | nil => simp [hc] at h
      | cons t ts => exact ⟨t, ts, rfl⟩
    simp [TransactionsGet.inner, TransactionsGet.scan, csdb.Pool.transaction, hts]
  | succ n ih =>
    intro st h
    have hlt : n < curr.transactions.length := by omega
    have htake : (curr.transactions.take (n + 1 + 1)).reverse =
        curr.transactions[n + 1] :: (curr.transactions.take (n + 1)).reverse := by
      rw [List.take_succ, List.getElem?_eq_getElem h]
      simp
    rw [htake]
    have hget : curr.transaction (n + 1) = curr.transactions[n + 1] := by
      unfold csdb.Pool.transaction
      exact List.getD_eq_getElem _ _ h
    simp only [TransactionsGet.inner, TransactionsGet.scan, hget]
    rw [ih _ hlt]

theorem TransactionsGet.scan_append_stop (addr : csdb.Address) (limit : Int) :
    ∀ (A B : List csdb.Transaction) (st : Int × List csdb.Transaction), A ≠ [] →
      ((TransactionsGet.scan addr limit A st).2.length : Int) = limit →
      TransactionsGet.scan addr limit (A ++ B) st = TransactionsGet.scan addr limit A st := by
  intro A
  induction A with
  | nil => intro B st h; exact absurd rfl h
  | cons t ts ih =>
    intro B st _ hlen
    simp only [List.cons_append, TransactionsGet.scan] at hlen ⊢
    by_cases hstop : ((TransactionsGet.visit addr t st).2.length : Int) = limit
    · simp [hstop]
    · simp only [hstop, if_false] at hlen ⊢
      cases ts with
      | nil => simp [TransactionsGet.scan] at hlen; exact absurd hlen hstop
      | cons u us => exact ih B _ (by simp) hlen

theorem TransactionsGet.scan_append_continue (addr : csdb.Address) (limit : Int) :
    ∀ (A B : List csdb.Transaction) (st : Int × List csdb.Transaction),
      ((TransactionsGet.scan addr limit A st).2.length : Int) ≠ limit →
      TransactionsGet.scan addr limit (A ++ B) st =
        TransactionsGet.scan addr limit B (TransactionsGet.scan addr limit A st) := by
  intro A
  induction A with
  | nil => intro B st _; rfl
  | cons t ts ih =>
    intro B st hlen
    simp only [List.cons_append, TransactionsGet.scan] at hlen ⊢
    by_cases hstop : ((TransactionsGet.visit addr t st).2.length : Int) = limit
    · simp [hstop] at hlen
    · simp only [hstop, if_false] at hlen ⊢
      exact ih B _ hlen

theorem TransactionsGet.outer_eq_scan (bc : Credits.BlockChain) (addr : csdb.Address)
    (limit : Int) :
    ∀ (pools : List csdb.Pool) (fuel : Nat) (curr : csdb.Pool)
      (st : Int × List csdb.Transaction),
      ValidWalk bc curr pools → pools.length < fuel → (st.2.length : Int) ≠ limit →
      TransactionsGet.outer bc addr limit fuel curr st =
        some (TransactionsGet.scan addr limit (newestFirst pools) st) := by
  intro pools
  induction pools with
  | nil =>
    intro fuel curr st hw hf _
    cases fuel with
    | zero => simp at hf
    | succ fuel =>
      simp only [ValidWalk] at hw
      simp [TransactionsGet.outer, hw, newestFirst, TransactionsGet.scan]
  | cons p ps ih =>
    intro fuel curr st hw hf hst
    cases fuel with
    | zero => simp at hf
    | succ fuel =>
      obtain ⟨rfl, hv, hrest⟩ := hw
      have hf2 : ps.length < fuel := by simpa using hf
      have hnf : newestFirst (curr :: ps) = curr.transactions.reverse ++ newestFirst ps := by
        simp [newestFirst]
      rw [hnf]
      simp only [TransactionsGet.outer, hv, if_true]
      by_cases hcount : curr.transactions_count = 0
      · have hnil : curr.transactions = [] := by
          simpa [csdb.Pool.transactions_count] using hcount
        simp only [hcount, ne_eq, not_true_eq_false, if_false, hst, hnil, List.reverse_nil,
          List.nil_append]
        exact ih fuel _ st hrest hf2 hst
      · have hpos : 0 < curr.transactions.length := by
          simpa [csdb.Pool.transactions_count, Nat.pos_iff_ne_zero] using hcount
        have hinner := TransactionsGet.inner_eq_scan addr limit curr
          (curr.transactions_count - 1) st
          (by simp only [csdb.Pool.transactions_count]; omega)
        have hfull : curr.transactions.take (curr.transactions_count - 1 + 1) =
            curr.transactions := by
          apply List.take_of_length_le
          simp only [csdb.Pool.transactions_count]; omega
        rw [hfull] at hinner
        have hne : curr.transactions.reverse ≠ [] := by
          intro h
          rw [List.reverse_eq_nil_iff] at h
          simp [h] at hpos
        simp only [hcount, ne_eq, not_false_eq_true, if_true, hinner]
        by_cases hstop :
            ((TransactionsGet.scan addr limit curr.transactions.reverse st).2.length : Int)
              = limit
        · simp only [hstop, if_true]
          rw [TransactionsGet.scan_append_stop addr limit _ _ st hne hstop]
        · simp only [hstop, if_false]
          rw [TransactionsGet.scan_append_continue addr limit _ _ st hstop]
          exact ih fuel _ _ hrest hf2 hstop

/-- Closed form of the scan for a positive limit: the matches after the first
`o` ones, up to the room left in the result. -/
theorem TransactionsGet.scan_closed (addr : csdb.Address) (l : Nat) :
    ∀ (ts : List csdb.Transaction) (o : Nat) (acc : List csdb.Transaction),
      acc.length < l →
      TransactionsGet.scan addr (l : Int) ts ((o : Int), acc) =
        (((o - (ts.filter (touches addr)).length : Nat) : Int),
          acc ++ ((ts.filter (touches addr)).drop o).take (l - acc.length)) := by
  intro ts
  induction ts with
  | nil => intro o acc _; simp [TransactionsGet.scan]
  | cons t ts ih =>
    intro o acc hacc
    by_cases ht : t.target = addr ∨ t.source = addr
    · have hf : (t :: ts).filter (touches addr) = t :: ts.filter (touches addr) := by
        simp [touches, ht]
      rw [hf]
      cases o with
      | zero =>
        by_cases hstop : acc.length + 1 = l
        · have h1 : l - acc.length = 1 := by omega
          simp [TransactionsGet.scan, TransactionsGet.visit, ht, hstop.symm]
        · have hne : ((acc.length : Int) + 1 = (l : Int)) ↔ False := by
            constructor
            · intro h; exact hstop (by exact_mod_cast h)
            · exact False.elim
          have hlt : (acc ++ [t]).length < l := by simp; omega
          have hih := ih 0 (acc ++ [t]) hlt
          simp only [Nat.cast_zero] at hih
          simp only [TransactionsGet.scan, TransactionsGet.visit, ht, if_true, Nat.cast_zero,
            List.length_append, List.length_singleton, Nat.cast_add, Nat.cast_one, hne,
            if_false, hih]
          have h2 : l - acc.length = (l - (acc.length + 1)) + 1 := by omega
          rw [h2]
          simp
      | succ o =>
        have hne : ((acc.length : Int) = (l : Int)) ↔ False := by
          constructor
          · intro h
            have : acc.length = l := by exact_mod_cast h
            omega
          · exact False.elim
        have ho : ((o + 1 : Nat) : Int) = 0 ↔ False := by
          constructor
          · intro h; omega
          · exact False.elim
        have hih := ih o acc hacc
        simp only [TransactionsGet.scan, TransactionsGet.visit, ht, if_true, ho, if_false, hne]
        have hsub : ((o + 1 : Nat) : Int) - 1 = (o : Int) := by push_cast; ring
        rw [hsub, hih]
        simp
    · have hf : (t :: ts).filter (touches addr) = ts.filter (touches addr) := by
        simp [touches, ht]
      have hne : ((acc.length : Int) = (l : Int)) ↔ False := by
        constructor
        · intro h
          have : acc.length = l := by exact_mod_cast h
          omega
        · exact False.elim
      rw [hf]
      simp only [TransactionsGet.scan, TransactionsGet.visit, ht, if_false, hne]
      exact ih o acc hacc

/-- With limit 0 and a positive offset nothing is ever collected. -/
theorem TransactionsGet.outer_limit_zero (bc : Credits.BlockChain) (addr : csdb.Address)
    (fuel : Nat) (curr : csdb.Pool) (offset : Int) (hoff : offset ≠ 0) :
    ∃ o, TransactionsGet.outer bc addr 0 (fuel + 1) curr (offset, []) = some (o, []) := by
  have hvisit : ∀ t, (TransactionsGet.visit addr t (offset, [])).2 = [] := by
    intro t
    unfold TransactionsGet.visit
    split_ifs <;> simp_all
  have hinner : ∀ n, (TransactionsGet.inner addr 0 curr n (offset, [])).2 = [] := by
    intro n
    cases n with
    | zero => simp [TransactionsGet.inner, hvisit]
    | succ n => simp [TransactionsGet.inner, hvisit]
  by_cases hv : curr.is_valid = true
  · by_cases hcount : curr.transactions_count = 0
    · exact ⟨offset, by simp [TransactionsGet.outer, hv, hcount]⟩
    · refine ⟨(TransactionsGet.inner addr 0 curr (curr.transactions_count - 1)
        (offset, [])).1, ?_⟩
      simp only [TransactionsGet.outer, hv, if_true, hcount, ne_eq, not_false_eq_true]
      rw [if_pos (by simp [hinner])]
      congr 1
      exact Prod.ext rfl (hinner _)
  · exact ⟨offset, by simp [TransactionsGet.outer, hv]⟩

theorem TransactionsGet.outer_terminates (bc : Credits.BlockChain) (addr : csdb.Address)
    (limit : Int) :
    ∀ (pools : List csdb.Pool) (fuel : Nat) (curr : csdb.Pool)
      (st : Int × List csdb.Transaction),
      ValidWalk bc curr pools → pools.length < fuel →
      ∃ st1, TransactionsGet.outer bc addr limit fuel curr st = some st1 := by
  intro pools
  induction pools with
  | nil =>
    intro fuel curr st hw hf
    cases fuel with
    | zero => simp at hf
    | succ fuel =>
      simp only [ValidWalk] at hw
      exact ⟨st, by simp [TransactionsGet.outer, hw]⟩
  | cons p ps ih =>
    intro fuel curr st hw hf
    cases fuel with
    | zero => simp at hf
    | succ fuel =>
      obtain ⟨rfl, hv, hrest⟩ := hw
      have hf2 : ps.length < fuel := by simpa using hf
      simp only [TransactionsGet.outer, hv, if_true]
      split_ifs
      all_goals first | exact ⟨_, rfl⟩ | exact ih fuel _ _ hrest hf2

/-- For a positive limit `TransactionsGet` returns the window of the address
history that starts after `k` entries and holds at most `l` entries. -/
theorem TransactionsGet_window (lib : Lib) (bc : Credits.BlockChain)
    (pools : List csdb.Pool) (fuel : Nat) (address : api.Address) (k l : Nat)
    (hw : ValidWalk bc (bc.loadBlock bc.getLastHash) pools) (hf : pools.length < fuel)
    (hl : 0 < l) :
    APIHandler.TransactionsGet lib bc fuel address (k : Int) (l : Int) =
      some { transactions := convertTransactions lib
               (((addressHistory (resolveAddress lib address) pools).drop k).take l)
             status := SetResponseStatus APIRequestStatusType.SUCCESS "" } := by
  have hne : (((((k : Int), ([] : List csdb.Transaction))).2.length : Int)) ≠ (l : Int) := by
    simp only [List.length_nil, Nat.cast_zero]
    intro h
    have : 0 = l := by exact_mod_cast h
    omega
  unfold APIHandler.TransactionsGet
  simp only
  rw [TransactionsGet.outer_eq_scan bc _ _ pools fuel _ _ hw hf hne]
  rw [TransactionsGet.scan_closed _ l _ k [] (by simpa using hl)]
  simp [addressHistory]

/-- C1: on every chain, for every address and all offsets `K ≥ 0` and limits
`L ≥ 0`, `TransactionsGet(addr, K, L)` returns the list returned by
`TransactionsGet(addr, 0, K + L)` with its first `K` entries dropped. -/
theorem TransactionsGet_offset_eq_drop (lib : Lib) (bc : Credits.BlockChain)
    (pools : List csdb.Pool) (fuel : Nat) (address : api.Address) (K L : Int)
    (hw : ValidWalk bc (bc.loadBlock bc.getLastHash) pools) (hf : pools.length < fuel)
    (hK : 0 ≤ K) (hL : 0 ≤ L) :
    ∃ r1 r2, APIHandler.TransactionsGet lib bc fuel address K L = some r1 ∧
      APIHandler.TransactionsGet lib bc fuel address 0 (K + L) = some r2 ∧
      r1.transactions = r2.transactions.drop K.toNat := by
  obtain ⟨k, rfl⟩ := Int.eq_ofNat_of_zero_le hK
  obtain ⟨l, rfl⟩ := Int.eq_ofNat_of_zero_le hL
  simp only [Int.toNat_ofNat]
  rcases Nat.eq_zero_or_pos l with hl0 | hlpos
  · subst hl0
    rcases Nat.eq_zero_or_pos k with hk0 | hkpos
    · subst hk0
      obtain ⟨st1, hst1⟩ := TransactionsGet.outer_terminates bc (resolveAddress lib address)
        0 pools fuel _ ((0 : Int), []) hw hf
      have hA : APIHandler.TransactionsGet lib bc fuel address ((0 : Nat) : Int)
          ((0 : Nat) : Int) =
          some { transactions := convertTransactions lib st1.2
                 status := SetResponseStatus APIRequestStatusType.SUCCESS "" } := by
        simp only [APIHandler.TransactionsGet, Nat.cast_zero, hst1]
      have hB : APIHandler.TransactionsGet lib bc fuel address 0
          (((0 : Nat) : Int) + ((0 : Nat) : Int)) =
          some { transactions := convertTransactions lib st1.2
                 status := SetResponseStatus APIRequestStatusType.SUCCESS "" } := by
        simp only [APIHandler.TransactionsGet, Nat.cast_zero, add_zero, hst1]
      exact ⟨_, _, hA, hB, by simp⟩
    · have hwin := TransactionsGet_window lib bc pools fuel address 0 k hw hf hkpos
      obtain ⟨fuel1, rfl⟩ : ∃ f, fuel = f + 1 := ⟨fuel - 1, by omega⟩
      obtain ⟨o, ho⟩ := TransactionsGet.outer_limit_zero bc (resolveAddress lib address)
        fuel1 (bc.loadBlock bc.getLastHash) (k : Int) (by exact_mod_cast (by omega : k ≠ 0))
      have hA : APIHandler.TransactionsGet lib bc (fuel1 + 1) address (k : Int)
          ((0 : Nat) : Int) =
          some { transactions := convertTransactions lib []
                 status := SetResponseStatus APIRequestStatusType.SUCCESS "" } := by
        simp only [APIHandler.TransactionsGet, Nat.cast_zero, ho]
      have hB : APIHandler.TransactionsGet lib bc (fuel1 + 1) address 0
          ((k : Int) + ((0 : Nat) : Int)) =
          some { transactions := convertTransactions lib
                   (((addressHistory (resolveAddress lib address) pools).drop 0).take k)
                 status := SetResponseStatus APIRequestStatusType.SUCCESS "" } := by
        simpa using hwin
      refine ⟨_, _, hA, hB, ?_⟩
      simp only [convertTransactions, List.map_nil, List.drop_zero]
      symm
      apply List.drop_eq_nil_of_le
      simp
  · have h1 := TransactionsGet_window lib bc pools fuel address k l hw hf hlpos
    have h2 := TransactionsGet_window lib bc pools fuel address 0 (k + l) hw hf (by omega)
    refine ⟨_, _, h1, by simpa using h2, ?_⟩
    simp only [convertTransactions, List.drop_zero, ← List.map_drop, List.drop_take]
    congr 2
    omega

theorem demoChain_walk :
    ValidWalk demoChain (demoChain.loadBlock demoChain.getLastHash) [demoPool2, demoPool1] := by
  decide

/-- C1 on the two-pool ledger, for `alice` with offset 1 and limit 1. -/
theorem TransactionsGet_offset_eq_drop_witness :
    ValidWalk demoChain (demoChain.loadBlock demoChain.getLastHash) [demoPool2, demoPool1] ∧
    [demoPool2, demoPool1].length < 3 ∧ (0 : Int) ≤ 1 ∧ (0 : Int) ≤ 1 ∧
    ∃ r1 r2, APIHandler.TransactionsGet demoLib demoChain 3 "alice" 1 1 = some r1 ∧
      APIHandler.TransactionsGet demoLib demoChain 3 "alice" 0 (1 + 1) = some r2 ∧
      r1.transactions = r2.transactions.drop (1 : Int).toNat :=
  ⟨demoChain_walk, by decide, by decide, by decide,
    TransactionsGet_offset_eq_drop demoLib demoChain [demoPool2, demoPool1] 3 "alice" 1 1
      demoChain_walk (by decide) (by decide) (by decide)⟩

/-- C3 (the code at the failing input): with limit 0 and offset 0, when the
newest transaction of the head pool touches the address, `TransactionsGet`
returns every transaction of the history instead of the empty list. -/
theorem TransactionsGet_limit_zero_nonempty :
    APIHandler.TransactionsGet demoLib demoChain 3 "alice" 0 0 =
      some { transactions := convertTransactions demoLib [demoTx3, demoTx2, demoTx1]
             status := SetResponseStatus APIRequestStatusType.SUCCESS "" } := by
  decide

/-! ## The smart-contract index -/

theorem newestFirst_cons (p : csdb.Pool) (ps : List csdb.Pool) :
    newestFirst (p :: ps) = p.transactions.reverse ++ newestFirst ps := by
  simp [newestFirst]

theorem mem_newestFirst (pools : List csdb.Pool) (t : csdb.Transaction) :
    t ∈ newestFirst pools ↔ ∃ p ∈ pools, t ∈ p.transactions := by
  simp [newestFirst]

/-- On a chain the walk of `update_smart_caches` returns, and it has visited
the transactions of the pools newest-first. -/
theorem update_smart_caches.walk_eq_foldl (lib : Lib) (bc : Credits.BlockChain)
    (stop : csdb.PoolHash) :
    ∀ (pools : List csdb.Pool) (fuel : Nat) (curr_ph : csdb.PoolHash) (s : SmartScan),
      IndexWalk bc stop curr_ph pools → pools.length < fuel →
      update_smart_caches.walk lib bc stop fuel curr_ph s =
        some ((newestFirst pools).foldl (update_smart_caches.visit lib) s) := by
  intro pools
  induction pools with
  | nil =>
    intro fuel curr_ph s hw hf
    cases fuel with
    | zero => simp at hf
    | succ fuel =>
      simp only [IndexWalk] at hw
      simp [update_smart_caches.walk, hw, newestFirst]
  | cons p ps ih =>
    intro fuel curr_ph s hw hf
    cases fuel with
    | zero => simp at hf
    | succ fuel =>
      obtain ⟨hne, hload, hrest⟩ := hw
      have hf2 : ps.length < fuel := by simpa using hf
      simp only [update_smart_caches.walk, hne, ne_eq, not_false_eq_true, if_true, hload]
      rw [ih fuel _ _ hrest hf2, newestFirst_cons, List.foldl_append]

theorem update_smart_caches.visit_origin (lib : Lib) (s : SmartScan) (tr : csdb.Transaction)
    (A : api.Address) :
    (update_smart_caches.visit lib s tr).smart_origin A =
      if isDeployFor lib A tr = true then some tr.id else s.smart_origin A := by
  unfold update_smart_caches.visit isDeployFor
  by_cases hs : is_smart tr = true
  · by_cases hd : is_smart_deploy (fetch_smart lib tr) = true
    · by_cases ha : (fetch_smart lib tr).address = A
      · simp [hs, hd, ha, Map.insert]
      · have ha2 : ¬ A = (fetch_smart lib tr).address := fun h => ha h.symm
        simp [hs, hd, ha, ha2, Map.insert]
    · simp only [hs, hd, if_true, Bool.false_eq_true, if_false, Bool.and_false,
        Bool.false_and]
      split_ifs <;> rfl
  · simp [hs]

/-- After a scan the origin entry of `A` is the id of the last deploy
transaction for `A` in scan order, or the entry from before the scan. -/
theorem update_smart_caches.foldl_origin (lib : Lib) (A : api.Address) :
    ∀ (ts : List csdb.Transaction) (s : SmartScan),
      (ts.foldl (update_smart_caches.visit lib) s).smart_origin A =
        match ts.reverse.find? (isDeployFor lib A) with
        | some t => some t.id
        | none => s.smart_origin A := by
  intro ts
  induction ts with
  | nil => intro s; rfl
  | cons t ts ih =>
    intro s
    simp only [List.foldl_cons, List.reverse_cons, List.find?_append]
    rw [ih]
    cases hfind : ts.reverse.find? (isDeployFor lib A) with
    | some u => simp
    | none =>
      simp only [Option.none_or]
      rw [update_smart_caches.visit_origin]
      by_cases hd : isDeployFor lib A t = true
      · simp [List.find?, hd]
      · simp [List.find?, hd]

/-- A refresh from an unset checkpoint over a chain returns, and the origin
entry of every address is the last deploy for it in scan order. -/
theorem update_smart_caches_origin (lib : Lib) (bc : Credits.BlockChain) (fuel : Nat)
    (h : APIHandler) (pools : List csdb.Pool)
    (hwalk : IndexWalk bc h.last_seen_contract_block bc.getLastHash pools)
    (hfuel : pools.length < fuel) :
    ∃ h1, APIHandler.update_smart_caches lib bc fuel h = some h1 ∧
      ∀ A, h1.smart_origin A =
        match (newestFirst pools).reverse.find? (isDeployFor lib A) with
        | some t => some t.id
        | none => h.smart_origin A := by
  unfold APIHandler.update_smart_caches
  simp only []
  rw [update_smart_caches.walk_eq_foldl lib bc _ pools fuel _ _ hwalk hfuel]
  refine ⟨_, rfl, ?_⟩
  intro A
  exact update_smart_caches.foldl_origin lib A _ _

/-! ## The transaction flow -/

/-- C6: a request without smart-contract address (target not the excluded key)
makes exactly one submission and no executor call; the submitted transaction
has source and target derived from the request keys, currency "CS", the
balance of the source, no user field, the amount built from the request's
(integral, fraction) pair with denomination 10^18; the status is SUCCESS. -/
theorem TransactionFlow_plain_transfer (lib : Lib) (bc : Credits.BlockChain)
    (solver : Credits.ISolver) (exec : executor.ContractExecutor) (fuel : Nat)
    (h : APIHandler) (transaction : api.Transaction)
    (htarget : transaction.target ≠ excludedTarget)
    (hplain : transaction.smartContract.address = "") :
    ∃ out tx, APIHandler.TransactionFlow lib bc solver exec fuel h transaction = some out ∧
      out.effects = [Effect.send_wallet_transaction tx (solver.send_wallet_transaction tx)] ∧
      submissions out.effects = [tx] ∧ executorCalls out.effects = 0 ∧
      tx.source = lib.getAddressFromKey transaction.source ∧
      tx.target = lib.getAddressFromKey transaction.target ∧
      tx.currency = ⟨"CS"⟩ ∧
      tx.balance = bc.getBalance (lib.getAddressFromKey transaction.source) ∧
      tx.user_field0 = csdb.UserField.unknown ∧
      tx.amount = csdb.Amount.ofParts transaction.amount.integral
        transaction.amount.fraction (10 ^ 18) ∧
      out.result.status = SetResponseStatus APIRequestStatusType.SUCCESS "" := by
  have key : APIHandler.TransactionFlow lib bc solver exec fuel h transaction =
      some
        { result := ⟨SetResponseStatus APIRequestStatusType.SUCCESS ""⟩
          effects :=
            [Effect.send_wallet_transaction
              { (default : csdb.Transaction) with
                amount := csdb.Amount.ofParts transaction.amount.integral
                  transaction.amount.fraction WALLET_DENOM
                balance := bc.getBalance (lib.getAddressFromKey transaction.source)
                currency := ⟨"CS"⟩
                source := lib.getAddressFromKey transaction.source
                target := lib.getAddressFromKey transaction.target }
              (solver.send_wallet_transaction
                { (default : csdb.Transaction) with
                  amount := csdb.Amount.ofParts transaction.amount.integral
                    transaction.amount.fraction WALLET_DENOM
                  balance := bc.getBalance (lib.getAddressFromKey transaction.source)
                  currency := ⟨"CS"⟩
                  source := lib.getAddressFromKey transaction.source
                  target := lib.getAddressFromKey transaction.target })]
          handler := h } := by
    simp only [APIHandler.TransactionFlow, htarget, hplain, if_false, ne_eq,
      not_true_eq_false, decide_False, Bool.false_eq_true]
  exact ⟨_, _, key, rfl, rfl, rfl, rfl, rfl, rfl, rfl, rfl, rfl, rfl⟩

theorem is_smart_deploy_input (transaction : api.Transaction) :
    is_smart_deploy
      (if transaction.smartContract.method ≠ "" then
        { transaction.smartContract with byteCode := "", sourceCode := "" }
       else transaction.smartContract) = decide (requestIsDeploy transaction) := by
  unfold requestIsDeploy is_smart_deploy
  by_cases hm : transaction.smartContract.method = "" <;>
    by_cases hb : transaction.smartContract.byteCode = "" <;> simp [hm, hb]

/-- A smart request whose classification disagrees with the index is answered
with FAILURE and makes no external call. -/
theorem TransactionFlow_smart_reject (lib : Lib) (bc : Credits.BlockChain)
    (solver : Credits.ISolver) (exec : executor.ContractExecutor) (fuel : Nat)
    (h h1 : APIHandler) (transaction : api.Transaction)
    (htarget : transaction.target ≠ excludedTarget)
    (hsmart : transaction.smartContract.address ≠ "")
    (hrefresh : APIHandler.update_smart_caches lib bc fuel h = some h1)
    (hconflict : ¬ ((originMetadata lib bc h1 transaction.target).address = "" ↔
      requestIsDeploy transaction)) :
    ∃ out, APIHandler.TransactionFlow lib bc solver exec fuel h transaction = some out ∧
      out.result.status = SetResponseStatus APIRequestStatusType.FAILURE "" ∧
      out.effects = [] := by
  have hdec : ¬ (decide ((originMetadata lib bc h1 transaction.target).address = "") =
      decide (requestIsDeploy transaction)) := by
    intro hd
    exact hconflict (by simpa using hd)
  unfold originMetadata at hdec
  simp only [APIHandler.TransactionFlow, htarget, if_false, ne_eq, hsmart, not_false_eq_true,
    decide_True, if_true, hrefresh]
  have hin := is_smart_deploy_input transaction
  simp only [ne_eq] at hin
  rw [hin, if_neg hdec]
  exact ⟨_, rfl, rfl, rfl⟩

/-- A smart request whose classification agrees with the index is answered
with SUCCESS after the intent submission, the executor call and the
state-commit submission, whatever the solver and the executor answer. -/
theorem TransactionFlow_smart_accept (lib : Lib) (bc : Credits.BlockChain)
    (solver : Credits.ISolver) (exec : executor.ContractExecutor) (fuel : Nat)
    (h h1 : APIHandler) (transaction : api.Transaction)
    (htarget : transaction.target ≠ excludedTarget)
    (hsmart : transaction.smartContract.address ≠ "")
    (hrefresh : APIHandler.update_smart_caches lib bc fuel h = some h1)
    (hagree : (originMetadata lib bc h1 transaction.target).address = "" ↔
      requestIsDeploy transaction) :
    ∃ out, APIHandler.TransactionFlow lib bc solver exec fuel h transaction = some out ∧
      out.result.status = SetResponseStatus APIRequestStatusType.SUCCESS "" ∧
      ∃ intent commit address byteCode contractState method params,
      (out.effects =
        [Effect.send_wallet_transaction intent (solver.send_wallet_transaction intent),
         Effect.executeByteCode address byteCode contractState method params
           (exec.executeByteCode address byteCode contractState method params),
         Effect.send_wallet_transaction commit (solver.send_wallet_transaction commit)] ∨
       out.effects =
        [Effect.send_wallet_transaction intent (solver.send_wallet_transaction intent),
         Effect.open_transport,
         Effect.executeByteCode address byteCode contractState method params
           (exec.executeByteCode address byteCode contractState method params),
         Effect.send_wallet_transaction commit (solver.send_wallet_transaction commit)]) ∧
      commit = { intent with user_field0 := csdb.UserField.string (serialize lib
        { (default : api.SmartContract) with
          contractState :=
            (exec.executeByteCode address byteCode contractState method params).contractState
          method := transaction.smartContract.method
          params := params
          address := address }) } := by
  have hdec : decide ((originMetadata lib bc h1 transaction.target).address = "") =
      decide (requestIsDeploy transaction) := by
    simpa using hagree
  unfold originMetadata at hdec
  simp only [APIHandler.TransactionFlow, htarget, if_false, ne_eq, hsmart, not_false_eq_true,
    decide_True, if_true, hrefresh]
  have hin := is_smart_deploy_input transaction
  simp only [ne_eq] at hin
  rw [hin, if_pos hdec]
  refine ⟨_, rfl, rfl, ?_⟩
  simp only []
  by_cases ht : h1.transport_opened = true
  · simp only [ht, if_true, List.append_nil, List.singleton_append]
    refine ⟨_, _, _, _, _, _, _, Or.inl rfl, ?_⟩
    by_cases hm : transaction.smartContract.method = "" <;> simp [hm]
  · simp only [ht, Bool.false_eq_true, if_false, List.singleton_append, List.cons_append,
      List.nil_append]
    refine ⟨_, _, _, _, _, _, _, Or.inr rfl, ?_⟩
    by_cases hm : transaction.smartContract.method = "" <;> simp [hm]

theorem vaultChain_indexWalk :
    IndexWalk vaultChain "" vaultChain.getLastHash [vaultPool2, vaultPool1] := by
  decide

theorem vaultChain_refresh :
    APIHandler.update_smart_caches demoLib vaultChain 3 APIHandler.fresh = some vaultIndexed :=
  rfl

theorem SetResponseStatus_success_ne_failure :
    SetResponseStatus APIRequestStatusType.SUCCESS "" ≠
      SetResponseStatus APIRequestStatusType.FAILURE "" := by
  decide

theorem submissions_dispatches (es : List Effect) :
    submissions (dispatches es) = submissions es := by
  induction es with
  | nil => rfl
  | cons e es ih =>
    cases e <;> simp_all [dispatches, submissions]

theorem dispatches_of_flow (a b c : Effect) (es : List Effect)
    (ha : a ≠ Effect.open_transport) (hb : b ≠ Effect.open_transport)
    (hc : c ≠ Effect.open_transport)
    (hes : es = [a, b, c] ∨ es = [a, Effect.open_transport, b, c]) :
    dispatches es = [a, b, c] := by
  rcases hes with rfl | rfl <;> simp [dispatches, ha, hb, hc]

theorem executorCalls_dispatches (es : List Effect) :
    executorCalls (dispatches es) = executorCalls es := by
  induction es with
  | nil => rfl
  | cons e es ih =>
    cases e <;> simp_all [dispatches, executorCalls]

/-- C4: for a smart request (non-empty smart-contract address, target not the
excluded key), `TransactionFlow` rejects the request (status FAILURE, no
submission, no executor call) if and only if "the origin metadata of the target
has an empty address" differs from "the request is a deploy", a deploy being a
request with empty method and non-empty byte-code. -/
theorem TransactionFlow_conflict_iff (lib : Lib) (bc : Credits.BlockChain)
    (solver : Credits.ISolver) (exec : executor.ContractExecutor) (fuel : Nat)
    (h : APIHandler) (pools : List csdb.Pool) (transaction : api.Transaction)
    (htarget : transaction.target ≠ excludedTarget)
    (hsmart : transaction.smartContract.address ≠ "")
    (hwalk : IndexWalk bc h.last_seen_contract_block bc.getLastHash pools)
    (hfuel : pools.length < fuel) :
    ∃ h1 out, APIHandler.update_smart_caches lib bc fuel h = some h1 ∧
      APIHandler.TransactionFlow lib bc solver exec fuel h transaction = some out ∧
      ((out.result.status = SetResponseStatus APIRequestStatusType.FAILURE "" ∧
          submissions out.effects = [] ∧ executorCalls out.effects = 0) ↔
        ¬ ((originMetadata lib bc h1 transaction.target).address = "" ↔
            (transaction.smartContract.method = "" ∧
              transaction.smartContract.byteCode ≠ ""))) := by
  obtain ⟨h1, hrefresh, -⟩ := update_smart_caches_origin lib bc fuel h pools hwalk hfuel
  refine ⟨h1, ?_⟩
  by_cases hagree : (originMetadata lib bc h1 transaction.target).address = "" ↔
      requestIsDeploy transaction
  · obtain ⟨out, hout, hstatus, -⟩ := TransactionFlow_smart_accept lib bc solver exec fuel
      h h1 transaction htarget hsmart hrefresh hagree
    refine ⟨out, hrefresh, hout, ?_⟩
    constructor
    · rintro ⟨hfail, -, -⟩
      rw [hstatus] at hfail
      exact absurd hfail SetResponseStatus_success_ne_failure
    · intro hne
      exact absurd hagree hne
  · obtain ⟨out, hout, hstatus, heff⟩ := TransactionFlow_smart_reject lib bc solver exec fuel
      h h1 transaction htarget hsmart hrefresh hagree
    refine ⟨out, hrefresh, hout, ?_⟩
    constructor
    · intro _
      exact hagree
    · intro _
      exact ⟨hstatus, by rw [heff]; rfl, by rw [heff]; rfl⟩

/-- C4 on the vault ledger, for a second deploy at `vault`. -/
theorem TransactionFlow_conflict_iff_witness :
    deployVault.target ≠ excludedTarget ∧ deployVault.smartContract.address ≠ "" ∧
    IndexWalk vaultChain APIHandler.fresh.last_seen_contract_block vaultChain.getLastHash
      [vaultPool2, vaultPool1] ∧
    [vaultPool2, vaultPool1].length < 3 ∧
    ∃ h1 out, APIHandler.update_smart_caches demoLib vaultChain 3 APIHandler.fresh = some h1 ∧
      APIHandler.TransactionFlow demoLib vaultChain acceptingSolver demoExecutor 3
        APIHandler.fresh deployVault = some out ∧
      ((out.result.status = SetResponseStatus APIRequestStatusType.FAILURE "" ∧
          submissions out.effects = [] ∧ executorCalls out.effects = 0) ↔
        ¬ ((originMetadata demoLib vaultChain h1 deployVault.target).address = "" ↔
            (deployVault.smartContract.method = "" ∧
              deployVault.smartContract.byteCode ≠ ""))) :=
  ⟨by decide, by decide, vaultChain_indexWalk, by decide,
    TransactionFlow_conflict_iff demoLib vaultChain acceptingSolver demoExecutor 3
      APIHandler.fresh [vaultPool2, vaultPool1] deployVault (by decide) (by decide)
      vaultChain_indexWalk (by decide)⟩

/-- C6 on the two-pool ledger, for a transfer of (2, 0) from alice to bob. -/
theorem TransactionFlow_plain_transfer_witness :
    plainTransfer.target ≠ excludedTarget ∧ plainTransfer.smartContract.address = "" ∧
    ∃ out tx, APIHandler.TransactionFlow demoLib demoChain acceptingSolver demoExecutor 3
        APIHandler.fresh plainTransfer = some out ∧
      out.effects =
        [Effect.send_wallet_transaction tx (acceptingSolver.send_wallet_transaction tx)] ∧
      submissions out.effects = [tx] ∧ executorCalls out.effects = 0 ∧
      tx.source = demoLib.getAddressFromKey plainTransfer.source ∧
      tx.target = demoLib.getAddressFromKey plainTransfer.target ∧
      tx.currency = ⟨"CS"⟩ ∧
      tx.balance = demoChain.getBalance (demoLib.getAddressFromKey plainTransfer.source) ∧
      tx.user_field0 = csdb.UserField.unknown ∧
      tx.amount = csdb.Amount.ofParts plainTransfer.amount.integral
        plainTransfer.amount.fraction (10 ^ 18) ∧
      out.result.status = SetResponseStatus APIRequestStatusType.SUCCESS "" :=
  ⟨by decide, by decide,
    TransactionFlow_plain_transfer demoLib demoChain acceptingSolver demoExecutor 3
      APIHandler.fresh plainTransfer (by decide) (by decide)⟩

/-- C7: for every smart request that `TransactionFlow` answers with SUCCESS,
the calls to the solver and the executor are exactly: the submission of the
intent transaction, then one executor call, then the submission of the
state-commit transaction, which carries the state blob the executor
returned.  The only other external call is the opening of the executor
transport on first use, after the intent submission and before the executor
call. -/
theorem TransactionFlow_two_phase_order (lib : Lib) (bc : Credits.BlockChain)
    (solver : Credits.ISolver) (exec : executor.ContractExecutor) (fuel : Nat)
    (h : APIHandler) (transaction : api.Transaction) (out : FlowOutcome)
    (hsmart : transaction.smartContract.address ≠ "")
    (hflow : APIHandler.TransactionFlow lib bc solver exec fuel h transaction = some out)
    (hsuccess : out.result.status = SetResponseStatus APIRequestStatusType.SUCCESS "") :
    ∃ intent commit address byteCode contractState method params,
      (out.effects =
        [Effect.send_wallet_transaction intent (solver.send_wallet_transaction intent),
         Effect.executeByteCode address byteCode contractState method params
           (exec.executeByteCode address byteCode contractState method params),
         Effect.send_wallet_transaction commit (solver.send_wallet_transaction commit)] ∨
       out.effects =
        [Effect.send_wallet_transaction intent (solver.send_wallet_transaction intent),
         Effect.open_transport,
         Effect.executeByteCode address byteCode contractState method params
           (exec.executeByteCode address byteCode contractState method params),
         Effect.send_wallet_transaction commit (solver.send_wallet_transaction commit)]) ∧
      dispatches out.effects =
        [Effect.send_wallet_transaction intent (solver.send_wallet_transaction intent),
         Effect.executeByteCode address byteCode contractState method params
           (exec.executeByteCode address byteCode contractState method params),
         Effect.send_wallet_transaction commit (solver.send_wallet_transaction commit)] ∧
      commit = { intent with user_field0 := csdb.UserField.string (serialize lib
        { (default : api.SmartContract) with
          contractState :=
            (exec.executeByteCode address byteCode contractState method params).contractState
          method := transaction.smartContract.method
          params := params
          address := address }) } := by
  by_cases htarget : transaction.target = excludedTarget
  · simp only [APIHandler.TransactionFlow, htarget, if_true, Option.some.injEq] at hflow
    subst hflow
    have hne : (default : api.TransactionFlowResult).status ≠
        SetResponseStatus APIRequestStatusType.SUCCESS "" := by decide
    exact absurd hsuccess hne
  · cases hrefresh : APIHandler.update_smart_caches lib bc fuel h with
    | none =>
      simp [APIHandler.TransactionFlow, htarget, hsmart, hrefresh] at hflow
    | some h1 =>
      by_cases hagree : (originMetadata lib bc h1 transaction.target).address = "" ↔
          requestIsDeploy transaction
      · obtain ⟨out1, hout, -, intent, commit, a, b, c, m, ps, heff, hcommit⟩ :=
          TransactionFlow_smart_accept lib bc solver exec fuel h h1 transaction htarget hsmart
            hrefresh hagree
        rw [hflow] at hout
        cases hout
        exact ⟨intent, commit, a, b, c, m, ps, heff,
          dispatches_of_flow _ _ _ _ (by simp) (by simp) (by simp) heff, hcommit⟩
      · obtain ⟨out1, hout, hstatus, -⟩ := TransactionFlow_smart_reject lib bc solver exec
          fuel h h1 transaction htarget hsmart hrefresh hagree
        rw [hflow] at hout
        cases hout
        rw [hsuccess] at hstatus
        exact absurd hstatus SetResponseStatus_success_ne_failure

theorem invokeVault_flow :
    APIHandler.TransactionFlow demoLib vaultChain acceptingSolver demoExecutor 3
      APIHandler.fresh invokeVault = some invokeVaultOutcome :=
  rfl

/-- C7 on the vault ledger, for a call of `put` on `vault`. -/
theorem TransactionFlow_two_phase_order_witness :
    invokeVault.smartContract.address ≠ "" ∧
    APIHandler.TransactionFlow demoLib vaultChain acceptingSolver demoExecutor 3
      APIHandler.fresh invokeVault = some invokeVaultOutcome ∧
    invokeVaultOutcome.result.status = SetResponseStatus APIRequestStatusType.SUCCESS "" ∧
    ∃ intent commit address byteCode contractState method params,
      (invokeVaultOutcome.effects =
        [Effect.send_wallet_transaction intent
           (acceptingSolver.send_wallet_transaction intent),
         Effect.executeByteCode address byteCode contractState method params
           (demoExecutor.executeByteCode address byteCode contractState method params),
         Effect.send_wallet_transaction commit
           (acceptingSolver.send_wallet_transaction commit)] ∨
       invokeVaultOutcome.effects =
        [Effect.send_wallet_transaction intent
           (acceptingSolver.send_wallet_transaction intent),
         Effect.open_transport,
         Effect.executeByteCode address byteCode contractState method params
           (demoExecutor.executeByteCode address byteCode contractState method params),
         Effect.send_wallet_transaction commit
           (acceptingSolver.send_wallet_transaction commit)]) ∧
      dispatches invokeVaultOutcome.effects =
        [Effect.send_wallet_transaction intent
           (acceptingSolver.send_wallet_transaction intent),
         Effect.executeByteCode address byteCode contractState method params
           (demoExecutor.executeByteCode address byteCode contractState method params),
         Effect.send_wallet_transaction commit
           (acceptingSolver.send_wallet_transaction commit)] ∧
      commit = { intent with user_field0 := csdb.UserField.string (serialize demoLib
        { (default : api.SmartContract) with
          contractState :=
            (demoExecutor.executeByteCode address byteCode contractState
              method params).contractState
          method := invokeVault.smartContract.method
          params := params
          address := address }) } :=
  ⟨by decide, invokeVault_flow, rfl,
    TransactionFlow_two_phase_order demoLib vaultChain acceptingSolver demoExecutor 3
      APIHandler.fresh invokeVault invokeVaultOutcome (by decide) invokeVault_flow rfl⟩

set_option maxRecDepth 100000 in
/-- C9 (the code at the failing input): on a ledger of 101 pools, after a
first call `PoolListGet(0, 100)` has filled the pool cache, the call
`PoolListGet(1, 100)` returns 101 pools. -/
theorem PoolListGet_more_than_100 :
    (APIHandler.PoolListGet demoLib longChain
      (APIHandler.PoolListGet demoLib longChain APIHandler.fresh 0 100).2 1 100).1.pools.length
      = 101 := by
  decide

/-- C10 (the code at the failing input): on the two-pool ledger the call
`PoolListGet(1, 1)` from an empty cache returns the genesis pool only, and the
same call repeated on the cache it left returns the head pool as well. -/
theorem PoolListGet_depends_on_cache :
    (APIHandler.PoolListGet demoLib demoChain APIHandler.fresh 1 1).1.pools =
      [convertPool demoLib demoPool1] ∧
    (APIHandler.PoolListGet demoLib demoChain
      (APIHandler.PoolListGet demoLib demoChain APIHandler.fresh 1 1).2 1 1).1.pools =
      [convertPool demoLib demoPool2, convertPool demoLib demoPool1] := by
  decide

/-! ## The pool list from an empty cache -/

theorem ValidWalk_unique (bc : Credits.BlockChain) :
    ∀ (l1 l2 : List csdb.Pool) (curr : csdb.Pool),
      ValidWalk bc curr l1 → ValidWalk bc curr l2 → l1 = l2 := by
  intro l1
  induction l1 with
  | nil =>
    intro l2 curr h1 h2
    cases l2 with
    | nil => rfl
    | cons q qs =>
      obtain ⟨rfl, hv, -⟩ := h2
      simp only [ValidWalk] at h1
      rw [h1] at hv
      exact absurd hv (by decide)
  | cons p ps ih =>
    intro l2 curr h1 h2
    obtain ⟨rfl, hv, hrest⟩ := h1
    cases l2 with
    | nil =>
      simp only [ValidWalk] at h2
      rw [h2] at hv
      exact absurd hv (by decide)
    | cons q qs =>
      obtain ⟨rfl, -, hrest2⟩ := h2
      rw [ih qs _ hrest hrest2]

/-- From a cache that holds no pool of the rest of the chain, the loop of
`PoolListGet` misses at every step and returns the pools of the window. -/
theorem PoolListGet.loop_of_misses (lib : Lib) (bc : Credits.BlockChain) (offset : Int)
    (sequence lower : Nat) :
    ∀ (r : Nat) (hash : csdb.PoolHash) (poolCache : Map csdb.PoolHash api.Pool)
      (acc : List api.Pool) (ps : List csdb.Pool),
      ValidWalk bc (bc.loadBlock hash) ps → r ≤ ps.length →
      (∀ x v, poolCache x = some v → ∀ qs, ValidWalk bc (bc.loadBlock x) qs →
        ps.length < qs.length) →
      (PoolListGet.loop lib bc offset sequence lower r (hash, poolCache, acc)).2.2 =
        acc ++ ((ps.take r).drop
          (lower + r - (sequence - min sequence (toUInt64 offset)))).map (convertPool lib) := by
  intro r
  induction r with
  | zero =>
    intro hash poolCache acc ps _ _ _
    simp [PoolListGet.loop]
  | succ r ih =>
    intro hash poolCache acc ps hw hr hcache
    cases ps with
    | nil => simp at hr
    | cons p ps =>
      obtain ⟨hload, hv, hrest⟩ := hw
      have hr2 : r ≤ ps.length := by simpa using hr
      have hmiss : poolCache hash = none := by
        cases hc : poolCache hash with
        | none => rfl
        | some v =>
          have := hcache hash v hc (p :: ps) ⟨hload, hv, hrest⟩
          simp at this
      have hcache2 : ∀ x v, Map.insert poolCache hash (convertPool lib p) x = some v →
          ∀ qs, ValidWalk bc (bc.loadBlock x) qs → ps.length < qs.length := by
        intro x v hx qs hqs
        by_cases hxe : x = hash
        · subst hxe
          have := ValidWalk_unique bc qs (p :: ps) _ hqs ⟨hload, hv, hrest⟩
          rw [this]
          simp
        · simp only [Map.insert, hxe, if_false] at hx
          have := hcache x v hx qs hqs
          simp only [List.length_cons] at this
          omega
      simp only [PoolListGet.loop, hmiss, hload]
      by_cases hin : lower + (r + 1) ≤ sequence - min sequence (toUInt64 offset)
      · rw [if_pos hin, ih _ _ _ ps hrest hr2 hcache2]
        have h1 : lower + (r + 1) - (sequence - min sequence (toUInt64 offset)) = 0 := by omega
        have h2 : lower + r - (sequence - min sequence (toUInt64 offset)) = 0 := by omega
        simp [h1, h2]
      · rw [if_neg hin, ih _ _ _ ps hrest hr2 hcache2]
        have h1 : lower + (r + 1) - (sequence - min sequence (toUInt64 offset)) =
            (lower + r - (sequence - min sequence (toUInt64 offset))) + 1 := by omega
        simp [h1]

/-- On a pool whose sequence number is below `2^63` the assertion of
`convertPool` holds, and the pool number is the sequence number. -/
theorem convertPool_poolNumber (lib : Lib) (pool : csdb.Pool) (hvalid : pool.is_valid = true)
    (hseq : pool.sequence < 2 ^ 63) :
    convertPool.assertion pool = true ∧ (convertPool lib pool).poolNumber = pool.sequence := by
  have h64 : toInt64 pool.sequence = pool.sequence := by
    unfold toInt64
    omega
  refine ⟨?_, ?_⟩
  · simp [convertPool.assertion, h64]
  · simp [convertPool, hvalid, h64]

theorem ValidWalk_valid (bc : Credits.BlockChain) :
    ∀ (pools : List csdb.Pool) (curr : csdb.Pool), ValidWalk bc curr pools →
      ∀ p ∈ pools, p.is_valid = true := by
  intro pools
  induction pools with
  | nil => intro curr _ p hp; simp at hp
  | cons q qs ih =>
    intro curr hw p hp
    obtain ⟨-, hv, hrest⟩ := hw
    rcases List.mem_cons.1 hp with rfl | hmem
    · exact hv
    · exact ih _ hrest p hmem

/-- C11: for a chain of `n` pools whose sequence numbers are below `2^63` and
an empty pool cache, for every offset and limit in 0..100, `PoolListGet`
returns exactly the converted pools at positions `min(n, offset)` up to but
excluding `min(n, offset + limit)`, counted from the head along previous-hash
links; hence the result is empty when `limit = 0` or `offset ≥ n`.  On every
pool of the chain the assertion of `convertPool` holds and the pool number of
the converted pool is the sequence number. -/
theorem PoolListGet_window (lib : Lib) (bc : Credits.BlockChain) (h : APIHandler)
    (pools : List csdb.Pool) (offset limit : Int)
    (hcache : h.poolCache = Map.empty)
    (hw : ValidWalk bc (bc.loadBlock bc.getLastHash) pools)
    (hsize : bc.getSize = pools.length)
    (hseq : ∀ p ∈ pools, p.sequence < 2 ^ 63)
    (ho : 0 ≤ offset ∧ offset ≤ 100) (hl : 0 ≤ limit ∧ limit ≤ 100) :
    (APIHandler.PoolListGet lib bc h offset limit).1.pools =
        ((pools.take (min pools.length (offset + limit).toNat)).drop
          (min pools.length offset.toNat)).map (convertPool lib) ∧
      (∀ p ∈ pools, convertPool.assertion p = true ∧
        (convertPool lib p).poolNumber = p.sequence) ∧
      ((limit = 0 ∨ (pools.length : Int) ≤ offset) →
        (APIHandler.PoolListGet lib bc h offset limit).1.pools = []) := by
  obtain ⟨o, rfl⟩ := Int.eq_ofNat_of_zero_le ho.1
  obtain ⟨l, rfl⟩ := Int.eq_ofNat_of_zero_le hl.1
  have ho2 : o ≤ 100 := by exact_mod_cast ho.2
  have hl2 : l ≤ 100 := by exact_mod_cast hl.2
  have hno : ¬ ((o : Int) > 100) := by omega
  have hnl : ¬ ((l : Int) > 100) := by omega
  have hu1 : toUInt64 ((o : Int) + (l : Int)) = o + l := by
    unfold toUInt64
    omega
  have hu2 : toUInt64 (o : Int) = o := by
    unfold toUInt64
    omega
  have key : (APIHandler.PoolListGet lib bc h (o : Int) (l : Int)).1.pools =
      ((pools.take (min pools.length (o + l))).drop (min pools.length o)).map
        (convertPool lib) := by
    simp only [APIHandler.PoolListGet, hno, hnl, if_false, hsize, hu1, hcache]
    have hr : pools.length - (pools.length - min pools.length (o + l)) ≤ pools.length := by
      omega
    rw [PoolListGet.loop_of_misses lib bc _ _ _ _ _ _ _ pools hw hr
      (by intro x v hx; simp [Map.empty] at hx)]
    simp only [List.nil_append, hu2]
    have e1 : pools.length - min pools.length (o + l) +
        (pools.length - (pools.length - min pools.length (o + l))) -
        (pools.length - min pools.length o) = min pools.length o := by
      omega
    have e2 : pools.length - (pools.length - min pools.length (o + l)) =
        min pools.length (o + l) := by
      omega
    rw [e1, e2]
  refine ⟨?_, ?_, ?_⟩
  · rw [key]
    rfl
  · intro p hp
    exact convertPool_poolNumber lib p (ValidWalk_valid bc pools _ hw p hp) (hseq p hp)
  · intro hcase
    rw [key]
    have hle : min pools.length (o + l) ≤ min pools.length o := by
      rcases hcase with h0 | hn
      · have : l = 0 := by exact_mod_cast h0
        subst this
        simp
      · have : pools.length ≤ o := by exact_mod_cast hn
        omega
    rw [List.drop_eq_nil_of_le (by simp; omega)]
    rfl

/-- C11 on the two-pool ledger, for offset 1 and limit 1: the call returns
the genesis pool, with pool number 0. -/
theorem PoolListGet_window_witness :
    APIHandler.fresh.poolCache = Map.empty ∧
    ValidWalk demoChain (demoChain.loadBlock demoChain.getLastHash) [demoPool2, demoPool1] ∧
    demoChain.getSize = [demoPool2, demoPool1].length ∧
    (∀ p ∈ [demoPool2, demoPool1], p.sequence < 2 ^ 63) ∧
    ((0 : Int) ≤ 1 ∧ (1 : Int) ≤ 100) ∧ ((0 : Int) ≤ 1 ∧ (1 : Int) ≤ 100) ∧
    ((APIHandler.PoolListGet demoLib demoChain APIHandler.fresh 1 1).1.pools =
        (([demoPool2, demoPool1].take
          (min [demoPool2, demoPool1].length ((1 : Int) + 1).toNat)).drop
          (min [demoPool2, demoPool1].length (1 : Int).toNat)).map (convertPool demoLib) ∧
      (∀ p ∈ [demoPool2, demoPool1], convertPool.assertion p = true ∧
        (convertPool demoLib p).poolNumber = p.sequence) ∧
      (((1 : Int) = 0 ∨ ([demoPool2, demoPool1].length : Int) ≤ 1) →
        (APIHandler.PoolListGet demoLib demoChain APIHandler.fresh 1 1).1.pools = [])) ∧
    (APIHandler.PoolListGet demoLib demoChain APIHandler.fresh 1 1).1.pools =
      [{ hash := "h1", prevHash := "", time := 0, transactionsCount := 1, poolNumber := 0 }] :=
  ⟨rfl, demoChain_walk, rfl, by decide, by decide, by decide,
    PoolListGet_window demoLib demoChain APIHandler.fresh [demoPool2, demoPool1] 1 1 rfl
      demoChain_walk rfl (by decide) (by decide) (by decide),
    by decide⟩

/-! ## Refresh of the index: idempotence and monotonicity -/

/-- A refresh over a chain that reaches the checkpoint returns; its result is
the scan of the new pools, newest-first, with the checkpoint at the head. -/
theorem update_smart_caches_eq_foldl (lib : Lib) (bc : Credits.BlockChain) (fuel : Nat)
    (h : APIHandler) (pools : List csdb.Pool)
    (hwalk : IndexWalk bc h.last_seen_contract_block bc.getLastHash pools)
    (hfuel : pools.length < fuel) :
    APIHandler.update_smart_caches lib bc fuel h =
      some { h with
        smart_origin := ((newestFirst pools).foldl (update_smart_caches.visit lib)
          { poss := Map.empty, state_updated := fun _ => false,
            smart_origin := h.smart_origin, smart_state := h.smart_state,
            deployed_by_creator := h.deployed_by_creator }).smart_origin
        smart_state := ((newestFirst pools).foldl (update_smart_caches.visit lib)
          { poss := Map.empty, state_updated := fun _ => false,
            smart_origin := h.smart_origin, smart_state := h.smart_state,
            deployed_by_creator := h.deployed_by_creator }).smart_state
        deployed_by_creator := ((newestFirst pools).foldl (update_smart_caches.visit lib)
          { poss := Map.empty, state_updated := fun _ => false,
            smart_origin := h.smart_origin, smart_state := h.smart_state,
            deployed_by_creator := h.deployed_by_creator }).deployed_by_creator
        last_seen_contract_block := bc.getLastHash } := by
  unfold APIHandler.update_smart_caches
  simp only []
  rw [update_smart_caches.walk_eq_foldl lib bc _ pools fuel _ _ hwalk hfuel]

/-- C12: calling `update_smart_caches` twice in a row with no block appended
in between leaves the index (origin map, state map, per-deployer lists and
checkpoint) after the second call identical to the index after the first. -/
theorem update_smart_caches_idempotent (lib : Lib) (bc : Credits.BlockChain)
    (fuel fuel2 : Nat) (h : APIHandler) (pools : List csdb.Pool)
    (hwalk : IndexWalk bc h.last_seen_contract_block bc.getLastHash pools)
    (hfuel : pools.length < fuel) (hfuel2 : 0 < fuel2) :
    ∃ h1, APIHandler.update_smart_caches lib bc fuel h = some h1 ∧
      APIHandler.update_smart_caches lib bc fuel2 h1 = some h1 := by
  refine ⟨_, update_smart_caches_eq_foldl lib bc fuel h pools hwalk hfuel, ?_⟩
  obtain ⟨f, rfl⟩ : ∃ f, fuel2 = f + 1 := ⟨fuel2 - 1, by omega⟩
  simp [APIHandler.update_smart_caches, update_smart_caches.walk]

/-- C12 on the vault ledger, from the fresh handler. -/
theorem update_smart_caches_idempotent_witness :
    IndexWalk vaultChain APIHandler.fresh.last_seen_contract_block vaultChain.getLastHash
      [vaultPool2, vaultPool1] ∧
    [vaultPool2, vaultPool1].length < 3 ∧ 0 < 1 ∧
    ∃ h1, APIHandler.update_smart_caches demoLib vaultChain 3 APIHandler.fresh = some h1 ∧
      APIHandler.update_smart_caches demoLib vaultChain 1 h1 = some h1 :=
  ⟨vaultChain_indexWalk, by decide, by decide,
    update_smart_caches_idempotent demoLib vaultChain 3 1 APIHandler.fresh
      [vaultPool2, vaultPool1] vaultChain_indexWalk (by decide) (by decide)⟩

theorem update_smart_caches.visit_state_updated (lib : Lib) (s : SmartScan)
    (tr : csdb.Transaction) (A : api.Address) :
    (update_smart_caches.visit lib s tr).state_updated A =
      (s.state_updated A || isStateFor lib A tr) := by
  unfold update_smart_caches.visit isStateFor
  by_cases hs : is_smart tr = true
  · by_cases hd : is_smart_deploy (fetch_smart lib tr) = true
    · simp [hs, hd]
    · by_cases hu : s.state_updated (fetch_smart lib tr).address = true
      · by_cases ha : (fetch_smart lib tr).address = A
        · subst ha
          simp [hs, hd, hu]
        · simp [hs, hd, hu, ha]
      · by_cases ha : A = (fetch_smart lib tr).address
        · subst ha
          simp [hs, hd, hu]
        · have ha2 : ¬ (fetch_smart lib tr).address = A := fun h => ha h.symm
          simp [hs, hd, hu, ha, ha2]
  · simp [hs]

theorem update_smart_caches.visit_state (lib : Lib) (s : SmartScan) (tr : csdb.Transaction)
    (A : api.Address) :
    (update_smart_caches.visit lib s tr).smart_state A =
      if isStateFor lib A tr = true ∧ s.state_updated A = false then some tr.id
      else s.smart_state A := by
  unfold update_smart_caches.visit isStateFor
  by_cases hs : is_smart tr = true
  · by_cases hd : is_smart_deploy (fetch_smart lib tr) = true
    · simp [hs, hd]
    · by_cases hu : s.state_updated (fetch_smart lib tr).address = true
      · by_cases ha : (fetch_smart lib tr).address = A
        · subst ha
          simp [hs, hd, hu]
        · simp [hs, hd, hu, ha]
      · by_cases ha : A = (fetch_smart lib tr).address
        · subst ha
          simp [hs, hd, hu, Map.insert]
        · have ha2 : ¬ (fetch_smart lib tr).address = A := fun h => ha h.symm
          simp [hs, hd, hu, ha, ha2, Map.insert]
  · simp [hs]

/-- After a scan the state entry of `A` is the id of the first state-carrying
transaction for `A` in scan order, unless `A` was already updated in this pass
or no such transaction was met. -/
theorem update_smart_caches.foldl_state (lib : Lib) (A : api.Address) :
    ∀ (ts : List csdb.Transaction) (s : SmartScan),
      (ts.foldl (update_smart_caches.visit lib) s).smart_state A =
        if s.state_updated A = true then s.smart_state A
        else match ts.find? (isStateFor lib A) with
          | some t => some t.id
          | none => s.smart_state A := by
  intro ts
  induction ts with
  | nil => intro s; simp
  | cons t ts ih =>
    intro s
    simp only [List.foldl_cons]
    rw [ih, update_smart_caches.visit_state_updated, update_smart_caches.visit_state]
    by_cases hu : s.state_updated A = true
    · simp [hu]
    · by_cases ht : isStateFor lib A t = true
      · simp [hu, ht, List.find?_cons]
      · simp [hu, ht, List.find?_cons]

theorem insertIdx_eq_take_cons_drop {α : Type} (a : α) :
    ∀ (l : List α) (k : Nat), k ≤ l.length →
      l.insertIdx k a = l.take k ++ a :: l.drop k := by
  intro l
  induction l with
  | nil =>
    intro k hk
    have : k = 0 := by simpa using hk
    subst this
    simp
  | cons x xs ih =>
    intro k hk
    cases k with
    | zero => simp
    | succ k =>
      rw [List.insertIdx_succ_cons, ih k (by simpa using hk)]
      simp

theorem update_smart_caches.visit_deployed (lib : Lib) (s : SmartScan)
    (tr : csdb.Transaction) (D : csdb.Address) :
    ((update_smart_caches.visit lib s tr).deployed_by_creator D).getD [] =
        (if isDeployBy lib D tr = true then
          ((s.deployed_by_creator D).getD []).insertIdx ((s.poss D).getD 0) tr.id
        else (s.deployed_by_creator D).getD []) ∧
      ((update_smart_caches.visit lib s tr).poss D).getD 0 =
        (if isDeployBy lib D tr = true then (s.poss D).getD 0 + 1 else (s.poss D).getD 0) := by
  unfold update_smart_caches.visit isDeployBy
  by_cases hs : is_smart tr = true
  · by_cases hd : is_smart_deploy (fetch_smart lib tr) = true
    · by_cases ha : tr.source = D
      · subst ha
        have hnil : (default : List csdb.TransactionID) = [] := rfl
        cases hp : s.poss tr.source <;> cases hl : s.deployed_by_creator tr.source <;>
          simp [hs, hd, hp, hl, Map.insert, Map.index, hnil]
      · have ha2 : ¬ D = tr.source := fun h => ha h.symm
        cases hp : s.poss tr.source <;> cases hl : s.deployed_by_creator tr.source <;>
          simp [hs, hd, hp, hl, ha, ha2, Map.insert, Map.index]
    · simp only [hs, hd, if_true, Bool.false_eq_true, if_false, Bool.and_false,
        Bool.false_and]
      split_ifs <;> simp
  · simp [hs]

/-- After a scan the list of deployer `D` holds the ids of the deploy
transactions of `D` met by the scan, in scan order, inserted at the position
the scan started with. -/
theorem update_smart_caches.foldl_deployed (lib : Lib) (D : csdb.Address) :
    ∀ (ts : List csdb.Transaction) (s : SmartScan),
      (s.poss D).getD 0 ≤ ((s.deployed_by_creator D).getD []).length →
      ((ts.foldl (update_smart_caches.visit lib) s).deployed_by_creator D).getD [] =
        ((s.deployed_by_creator D).getD []).take ((s.poss D).getD 0) ++
          (ts.filter (isDeployBy lib D)).map (fun t => t.id) ++
          ((s.deployed_by_creator D).getD []).drop ((s.poss D).getD 0) := by
  intro ts
  induction ts with
  | nil => intro s _; simp
  | cons t ts ih =>
    intro s hk
    simp only [List.foldl_cons]
    obtain ⟨hl, hp⟩ := update_smart_caches.visit_deployed lib s t D
    by_cases ht : isDeployBy lib D t = true
    · simp only [ht, if_true] at hl hp
      rw [insertIdx_eq_take_cons_drop _ _ _ hk] at hl
      rw [ih _ (by rw [hl, hp]; simp; omega), hl, hp]
      simp only [List.filter_cons, ht, if_true, List.map_cons]
      have h1 : (List.take ((s.poss D).getD 0) ((s.deployed_by_creator D).getD [])).length =
          (s.poss D).getD 0 := by
        simp [List.length_take, hk]
      rw [List.take_append_eq_append_take, List.drop_append_eq_append_drop, h1]
      simp [List.take_take]
    · simp only [ht, Bool.false_eq_true, if_false] at hl hp
      rw [ih _ (by rw [hl, hp]; exact hk), hl, hp]
      simp [List.filter_cons, ht]

theorem update_smart_caches.walk_some_eq_foldl (lib : Lib) (bc : Credits.BlockChain)
    (stop : csdb.PoolHash) :
    ∀ (pools : List csdb.Pool) (fuel : Nat) (curr_ph : csdb.PoolHash) (s r : SmartScan),
      IndexWalk bc stop curr_ph pools →
      update_smart_caches.walk lib bc stop fuel curr_ph s = some r →
      r = (newestFirst pools).foldl (update_smart_caches.visit lib) s := by
  intro pools
  induction pools with
  | nil =>
    intro fuel curr_ph s r hw hr
    cases fuel with
    | zero => simp [update_smart_caches.walk] at hr
    | succ fuel =>
      simp only [IndexWalk] at hw
      simp only [update_smart_caches.walk, hw, ne_eq, not_true_eq_false, if_false,
        Option.some.injEq] at hr
      simp [newestFirst, hr]
  | cons p ps ih =>
    intro fuel curr_ph s r hw hr
    cases fuel with
    | zero => simp [update_smart_caches.walk] at hr
    | succ fuel =>
      obtain ⟨hne, hload, hrest⟩ := hw
      simp only [update_smart_caches.walk, hne, ne_eq, not_false_eq_true, if_true, hload]
        at hr
      rw [ih fuel _ _ _ hrest hr, newestFirst_cons, List.foldl_append]

/-- A refresh that returns over a chain that reaches the checkpoint has scanned
the new pools newest-first and has set the checkpoint to the head. -/
theorem update_smart_caches_some_eq_foldl (lib : Lib) (bc : Credits.BlockChain) (fuel : Nat)
    (h h1 : APIHandler) (pools : List csdb.Pool)
    (hwalk : IndexWalk bc h.last_seen_contract_block bc.getLastHash pools)
    (hcall : APIHandler.update_smart_caches lib bc fuel h = some h1) :
    h1 = { h with
        smart_origin := ((newestFirst pools).foldl (update_smart_caches.visit lib)
          { poss := Map.empty, state_updated := fun _ => false,
            smart_origin := h.smart_origin, smart_state := h.smart_state,
            deployed_by_creator := h.deployed_by_creator }).smart_origin
        smart_state := ((newestFirst pools).foldl (update_smart_caches.visit lib)
          { poss := Map.empty, state_updated := fun _ => false,
            smart_origin := h.smart_origin, smart_state := h.smart_state,
            deployed_by_creator := h.deployed_by_creator }).smart_state
        deployed_by_creator := ((newestFirst pools).foldl (update_smart_caches.visit lib)
          { poss := Map.empty, state_updated := fun _ => false,
            smart_origin := h.smart_origin, smart_state := h.smart_state,
            deployed_by_creator := h.deployed_by_creator }).deployed_by_creator
        last_seen_contract_block := bc.getLastHash } := by
  unfold APIHandler.update_smart_caches at hcall
  simp only [] at hcall
  cases hw : update_smart_caches.walk lib bc h.last_seen_contract_block fuel bc.getLastHash
      { poss := Map.empty, state_updated := fun _ => false, smart_origin := h.smart_origin,
        smart_state := h.smart_state, deployed_by_creator := h.deployed_by_creator } with
  | none => simp [hw] at hcall
  | some r =>
    have hr := update_smart_caches.walk_some_eq_foldl lib bc _ pools fuel _ _ r hwalk hw
    simp only [hw, Option.some.injEq] at hcall
    rw [← hcall, hr]

/-- C13: a call of `update_smart_caches` over a chain that reaches the
checkpoint returns; afterwards the checkpoint is the chain head observed at the
start of the call, every address that was a key of the origin or state map is
still a key, and every transaction reference of a per-deployer list is still in
that list. -/
theorem update_smart_caches_monotone (lib : Lib) (bc : Credits.BlockChain) (fuel : Nat)
    (h : APIHandler) (pools : List csdb.Pool)
    (hwalk : IndexWalk bc h.last_seen_contract_block bc.getLastHash pools)
    (hfuel : pools.length < fuel) :
    ∃ h1, APIHandler.update_smart_caches lib bc fuel h = some h1 ∧
      h1.last_seen_contract_block = bc.getLastHash ∧
      (∀ A, (h.smart_origin A).isSome = true → (h1.smart_origin A).isSome = true) ∧
      (∀ A, (h.smart_state A).isSome = true → (h1.smart_state A).isSome = true) ∧
      (∀ D id, id ∈ (h.deployed_by_creator D).getD [] →
        id ∈ (h1.deployed_by_creator D).getD []) := by
  refine ⟨_, update_smart_caches_eq_foldl lib bc fuel h pools hwalk hfuel, rfl, ?_, ?_, ?_⟩
  · intro A hA
    simp only []
    rw [update_smart_caches.foldl_origin]
    cases (newestFirst pools).reverse.find? (isDeployFor lib A) with
    | none => exact hA
    | some t => rfl
  · intro A hA
    simp only []
    rw [update_smart_caches.foldl_state]
    simp only [Bool.false_eq_true, if_false]
    cases (newestFirst pools).find? (isStateFor lib A) with
    | none => exact hA
    | some t => rfl
  · intro D id hid
    simp only []
    rw [update_smart_caches.foldl_deployed lib D _ _ (by simp [Map.empty])]
    simp only [Map.empty, Option.getD_none, List.take_zero, List.nil_append, List.drop_zero,
      List.mem_append]
    exact Or.inr hid

/-- The index reached by refreshes over the chain `pools`: the state entry of
an address is its newest state-carrying transaction, and the list of a
deployer holds its deploy transactions newest-first. -/
theorem Refreshed.index (lib : Lib) (pools : List csdb.Pool) (h : APIHandler)
    (hreached : Refreshed lib pools h) :
    (∀ A, h.smart_state A =
        ((newestFirst pools).find? (isStateFor lib A)).map (fun t => t.id)) ∧
      (∀ D, (h.deployed_by_creator D).getD [] =
        ((newestFirst pools).filter (isDeployBy lib D)).map (fun t => t.id)) := by
  induction hreached with
  | start h horigin hstate hdeployed hcheckpoint =>
    simp [newestFirst, hstate, hdeployed, Map.empty]
  | call old new bc fuel h h1 hreached hwalk hcall ih =>
    have hnf : newestFirst (new ++ old) = newestFirst new ++ newestFirst old := by
      simp [newestFirst]
    have hh1 := update_smart_caches_some_eq_foldl lib bc fuel h h1 new hwalk hcall
    subst hh1
    refine ⟨?_, ?_⟩
    · intro A
      simp only []
      rw [update_smart_caches.foldl_state, hnf, List.find?_append]
      simp only [Bool.false_eq_true, if_false, ih.1 A]
      cases (newestFirst new).find? (isStateFor lib A) <;> simp
    · intro D
      simp only []
      rw [update_smart_caches.foldl_deployed lib D _ _ (by simp [Map.empty]), hnf]
      simp [Map.empty, ih.2 D]

/-- The origin entries of the index reached by refreshes over the chain
`pools`: an address with a deploy transaction in the chain has the id of one
of its deploy transactions as origin entry, an address without has none. -/
theorem Refreshed.origin (lib : Lib) (pools : List csdb.Pool) (h : APIHandler)
    (hreached : Refreshed lib pools h) (A : api.Address) :
    (hasDeploy lib pools A →
        ∃ t ∈ newestFirst pools, isDeployFor lib A t = true ∧ h.smart_origin A = some t.id) ∧
      (¬ hasDeploy lib pools A → h.smart_origin A = none) := by
  induction hreached with
  | start h horigin hstate hdeployed hcheckpoint =>
    refine ⟨?_, ?_⟩
    · rintro ⟨p, hp, -⟩
      simp at hp
    · intro _
      rw [horigin]
      rfl
  | call old new bc fuel h h1 hreached hwalk hcall ih =>
    have hnf : newestFirst (new ++ old) = newestFirst new ++ newestFirst old := by
      simp [newestFirst]
    have hh1 := update_smart_caches_some_eq_foldl lib bc fuel h h1 new hwalk hcall
    have ho : h1.smart_origin A =
        match (newestFirst new).reverse.find? (isDeployFor lib A) with
        | some t => some t.id
        | none => h.smart_origin A := by
      rw [hh1]
      exact update_smart_caches.foldl_origin lib A _ _
    have hsplit : hasDeploy lib (new ++ old) A ↔ hasDeploy lib new A ∨ hasDeploy lib old A := by
      unfold hasDeploy
      constructor
      · rintro ⟨p, hp, t, ht, hd⟩
        rcases List.mem_append.1 hp with hpn | hpo
        · exact Or.inl ⟨p, hpn, t, ht, hd⟩
        · exact Or.inr ⟨p, hpo, t, ht, hd⟩
      · rintro (⟨p, hp, t, ht, hd⟩ | ⟨p, hp, t, ht, hd⟩)
        · exact ⟨p, List.mem_append.2 (Or.inl hp), t, ht, hd⟩
        · exact ⟨p, List.mem_append.2 (Or.inr hp), t, ht, hd⟩
    cases hfind : (newestFirst new).reverse.find? (isDeployFor lib A) with
    | some u =>
      rw [hfind] at ho
      have hu : isDeployFor lib A u = true := List.find?_some hfind
      have humem : u ∈ newestFirst new := by
        have := List.mem_of_find?_eq_some hfind
        simpa using this
      refine ⟨?_, ?_⟩
      · intro _
        exact ⟨u, by rw [hnf]; exact List.mem_append.2 (Or.inl humem), hu, ho⟩
      · intro hno
        obtain ⟨q, hq, huq⟩ := (mem_newestFirst new u).1 humem
        exact absurd (hsplit.2 (Or.inl ⟨q, hq, u, huq, hu⟩)) hno
    | none =>
      rw [hfind] at ho
      have hnew : ¬ hasDeploy lib new A := by
        rintro ⟨p, hp, t, ht, hd⟩
        rw [List.find?_eq_none] at hfind
        have hmem : t ∈ (newestFirst new).reverse := by
          rw [List.mem_reverse, mem_newestFirst]
          exact ⟨p, hp, ht⟩
        exact absurd hd (hfind t hmem)
      refine ⟨?_, ?_⟩
      · intro hd
        rcases hsplit.1 hd with hn | hold
        · exact absurd hn hnew
        · obtain ⟨t, ht, hdt, hot⟩ := ih.1 hold
          exact ⟨t, by rw [hnf]; exact List.mem_append.2 (Or.inr ht), hdt, by rw [ho, hot]⟩
      · intro hno
        rw [ho]
        exact ih.2 (fun hold => hno (hsplit.2 (Or.inr hold)))

theorem vaultAppended_indexWalk :
    IndexWalk vaultChain vaultGenesisIndexed.last_seen_contract_block vaultChain.getLastHash
      [vaultPool2] := by
  decide

/-- C13 on the vault ledger, for the refresh after the second pool was
appended. -/
theorem update_smart_caches_monotone_witness :
    IndexWalk vaultChain vaultGenesisIndexed.last_seen_contract_block vaultChain.getLastHash
      [vaultPool2] ∧
    [vaultPool2].length < 2 ∧
    ∃ h1, APIHandler.update_smart_caches demoLib vaultChain 2 vaultGenesisIndexed = some h1 ∧
      h1.last_seen_contract_block = vaultChain.getLastHash ∧
      (∀ A, (vaultGenesisIndexed.smart_origin A).isSome = true →
        (h1.smart_origin A).isSome = true) ∧
      (∀ A, (vaultGenesisIndexed.smart_state A).isSome = true →
        (h1.smart_state A).isSome = true) ∧
      (∀ D id, id ∈ (vaultGenesisIndexed.deployed_by_creator D).getD [] →
        id ∈ (h1.deployed_by_creator D).getD []) :=
  ⟨vaultAppended_indexWalk, by decide,
    update_smart_caches_monotone demoLib vaultChain 2 vaultGenesisIndexed [vaultPool2]
      vaultAppended_indexWalk (by decide)⟩

/-- C15 (counterexample): on the safe ledger alice deploys `vault` in the
genesis pool and `safe` in the head pool; after a refresh from the empty index
her list holds the newer deploy first, and `SmartContractAddressesListGet`
returns `safe` before `vault`. -/
theorem deployed_by_creator_not_oldest_first :
    IndexWalk safeChain "" safeChain.getLastHash [safePool2, safePool1] ∧
    (APIHandler.update_smart_caches demoLib safeChain 3 APIHandler.fresh).map
      (fun h => h.deployed_by_creator "alice") = some (some [safeTx2.id, safeTx1.id]) ∧
    (APIHandler.SmartContractAddressesListGet demoLib safeChain 3 APIHandler.fresh
      "alice").map (fun r => r.1.addressesList) = some ["safe", "vault"] := by
  decide

theorem Map.index_fst {K V : Type} [DecidableEq K] [Inhabited V] (m : Map K V) (k : K) :
    (Map.index m k).1 = (m k).getD default := by
  unfold Map.index
  cases m k <;> rfl

theorem get_mapped_deployer_smart_reached {β : Type} (lib : Lib) (bc : Credits.BlockChain)
    (fuel : Nat) (h : APIHandler) (old new : List csdb.Pool) (deployer : csdb.Address)
    (mapper : api.SmartContract → β)
    (hreached : Refreshed lib old h)
    (hwalk : IndexWalk bc h.last_seen_contract_block bc.getLastHash new)
    (hfuel : new.length < fuel)
    (hload : ∀ p ∈ new ++ old, ∀ t ∈ p.transactions, bc.loadTransaction t.id = t) :
    ∃ r, APIHandler.get_mapped_deployer_smart lib bc fuel h deployer mapper [] = some r ∧
      r.1 = ((newestFirst (new ++ old)).filter (isDeployBy lib deployer)).map
        (fun t => mapper (fetch_smart lib t)) := by
  have hcall := update_smart_caches_eq_foldl lib bc fuel h new hwalk hfuel
  have hidx := (Refreshed.index lib (new ++ old) _
    (Refreshed.call old new bc fuel h _ hreached hwalk hcall)).2 deployer
  unfold APIHandler.get_mapped_deployer_smart
  rw [hcall]
  refine ⟨_, rfl, ?_⟩
  have hlist : (Map.index
      ((newestFirst new).foldl (update_smart_caches.visit lib)
        { poss := Map.empty, state_updated := fun _ => false,
          smart_origin := h.smart_origin, smart_state := h.smart_state,
          deployed_by_creator := h.deployed_by_creator }).deployed_by_creator deployer).1 =
      ((newestFirst (new ++ old)).filter (isDeployBy lib deployer)).map (fun t => t.id) := by
    rw [Map.index_fst]
    exact hidx
  simp only [List.nil_append, hlist, List.map_map]
  apply List.map_congr_left
  intro t ht
  have htm : t ∈ newestFirst (new ++ old) := List.mem_of_mem_filter ht
  obtain ⟨p, hp, htp⟩ := (mem_newestFirst _ t).1 htm
  simp [hload p hp t htp]

/-- C15 (amended): along every sequence of `update_smart_caches` calls
interleaved with block appends from an empty index, the list
`deployed_by_creator[D]` holds the deploy transactions of `D` newest first,
within one refresh pass and across passes, before and after the next refresh
over the pools appended since; `SmartContractsListGet` and
`SmartContractAddressesListGet` return the contracts and the addresses in
that order. -/
theorem deployed_by_creator_newest_first (lib : Lib) (bc : Credits.BlockChain) (fuel : Nat)
    (h : APIHandler) (old new : List csdb.Pool) (D : csdb.Address) (deployer : api.Address)
    (hreached : Refreshed lib old h)
    (hwalk : IndexWalk bc h.last_seen_contract_block bc.getLastHash new)
    (hfuel : new.length < fuel)
    (hload : ∀ p ∈ new ++ old, ∀ t ∈ p.transactions, bc.loadTransaction t.id = t) :
    (h.deployed_by_creator D).getD [] =
        ((newestFirst old).filter (isDeployBy lib D)).map (fun t => t.id) ∧
      (∃ h1, APIHandler.update_smart_caches lib bc fuel h = some h1 ∧
        (h1.deployed_by_creator D).getD [] =
          ((newestFirst (new ++ old)).filter (isDeployBy lib D)).map (fun t => t.id)) ∧
      (∃ r, APIHandler.SmartContractsListGet lib bc fuel h deployer = some r ∧
        r.1.status = SetResponseStatus APIRequestStatusType.SUCCESS "" ∧
        r.1.smartContractsList =
          ((newestFirst (new ++ old)).filter
            (isDeployBy lib (lib.getAddressFromKey deployer))).map (fetch_smart lib)) ∧
      (∃ r, APIHandler.SmartContractAddressesListGet lib bc fuel h deployer = some r ∧
        r.1.status = SetResponseStatus APIRequestStatusType.SUCCESS "" ∧
        r.1.addressesList =
          ((newestFirst (new ++ old)).filter
            (isDeployBy lib (lib.getAddressFromKey deployer))).map
              (fun t => (fetch_smart lib t).address)) := by
  refine ⟨(Refreshed.index lib old h hreached).2 D, ?_, ?_, ?_⟩
  · obtain ⟨h1, hrefresh⟩ : ∃ h1, APIHandler.update_smart_caches lib bc fuel h = some h1 :=
      ⟨_, update_smart_caches_eq_foldl lib bc fuel h new hwalk hfuel⟩
    exact ⟨h1, hrefresh, (Refreshed.index lib (new ++ old) h1
      (Refreshed.call old new bc fuel h h1 hreached hwalk hrefresh)).2 D⟩
  · obtain ⟨r, hr, hlist⟩ := get_mapped_deployer_smart_reached lib bc fuel h old new
      (lib.getAddressFromKey deployer) (fun smart => smart) hreached hwalk hfuel hload
    unfold APIHandler.SmartContractsListGet
    simp only [hr]
    exact ⟨_, rfl, rfl, hlist⟩
  · obtain ⟨r, hr, hlist⟩ := get_mapped_deployer_smart_reached lib bc fuel h old new
      (lib.getAddressFromKey deployer) (fun sc => sc.address) hreached hwalk hfuel hload
    unfold APIHandler.SmartContractAddressesListGet
    simp only [hr]
    exact ⟨_, rfl, rfl, hlist⟩

theorem estateGenesis_reached : Refreshed demoLib [estatePool1] estateGenesisIndexed :=
  Refreshed.call [] [estatePool1] estateGenesisChain 2 APIHandler.fresh estateGenesisIndexed
    (Refreshed.start APIHandler.fresh rfl rfl rfl rfl) (by decide) rfl

/-- C15 (amended) on the estate ledger, for alice.  A first refresh indexed
her deploy of the genesis pool; the head pool, appended since, holds two more
deploys by her.  Her list after the next refresh holds the two deploys of the
head pool, the later one first, in front of the deploy of the genesis pool,
and `SmartContractAddressesListGet` returns the addresses in that order. -/
theorem deployed_by_creator_newest_first_witness :
    Refreshed demoLib [estatePool1] estateGenesisIndexed ∧
    IndexWalk estateChain estateGenesisIndexed.last_seen_contract_block
      estateChain.getLastHash [estatePool2] ∧
    [estatePool2].length < 2 ∧
    (∀ p ∈ [estatePool2] ++ [estatePool1], ∀ t ∈ p.transactions,
      estateChain.loadTransaction t.id = t) ∧
    ((estateGenesisIndexed.deployed_by_creator "alice").getD [] =
        ((newestFirst [estatePool1]).filter (isDeployBy demoLib "alice")).map
          (fun t => t.id) ∧
      (∃ h1, APIHandler.update_smart_caches demoLib estateChain 2 estateGenesisIndexed =
          some h1 ∧
        (h1.deployed_by_creator "alice").getD [] =
          ((newestFirst ([estatePool2] ++ [estatePool1])).filter
            (isDeployBy demoLib "alice")).map (fun t => t.id)) ∧
      (∃ r, APIHandler.SmartContractsListGet demoLib estateChain 2 estateGenesisIndexed
          "alice" = some r ∧
        r.1.status = SetResponseStatus APIRequestStatusType.SUCCESS "" ∧
        r.1.smartContractsList =
          ((newestFirst ([estatePool2] ++ [estatePool1])).filter
            (isDeployBy demoLib (demoLib.getAddressFromKey "alice"))).map
              (fetch_smart demoLib)) ∧
      (∃ r, APIHandler.SmartContractAddressesListGet demoLib estateChain 2
          estateGenesisIndexed "alice" = some r ∧
        r.1.status = SetResponseStatus APIRequestStatusType.SUCCESS "" ∧
        r.1.addressesList =
          ((newestFirst ([estatePool2] ++ [estatePool1])).filter
            (isDeployBy demoLib (demoLib.getAddressFromKey "alice"))).map
              (fun t => (fetch_smart demoLib t).address))) ∧
    (newestFirst ([estatePool2] ++ [estatePool1])).filter (isDeployBy demoLib "alice") =
      [estateTx3, estateTx2, estateTx1] ∧
    (APIHandler.update_smart_caches demoLib estateChain 2 estateGenesisIndexed).map
      (fun h => h.deployed_by_creator "alice") =
        some (some [estateTx3.id, estateTx2.id, estateTx1.id]) ∧
    (APIHandler.SmartContractAddressesListGet demoLib estateChain 2 estateGenesisIndexed
      "alice").map (fun r => r.1.addressesList) = some [excludedTarget, "safe", "vault"] :=
  ⟨estateGenesis_reached, by decide, by decide, by decide,
    deployed_by_creator_newest_first demoLib estateChain 2 estateGenesisIndexed [estatePool1]
      [estatePool2] "alice" "alice" estateGenesis_reached (by decide) (by decide) (by decide),
    by decide, by decide, by decide⟩

/-! ## Contract lookup -/

/-- C16 (counterexample): on the two-pool ledger, which holds no contract,
`SmartContractGet` for `vault` returns the empty contract with status
FAILURE, not SUCCESS. -/
theorem SmartContractGet_absent_failure_example :
    (APIHandler.update_smart_caches demoLib demoChain 3 APIHandler.fresh).map
      (fun h => h.smart_origin "vault") = some none ∧
    (APIHandler.SmartContractGet demoLib demoChain 3 APIHandler.fresh "vault").map
      (fun r => r.1) = some ⟨SetResponseStatus APIRequestStatusType.FAILURE "", default⟩ ∧
    SetResponseStatus APIRequestStatusType.FAILURE "" ≠
      SetResponseStatus APIRequestStatusType.SUCCESS "" := by
  decide

/-- C16 (amended): on every chain and for every address `A`,
`SmartContractGet(A)` refreshes the index and returns the contract fetched
through the origin entry of `A`; the status is SUCCESS exactly when that
contract has a non-empty address and FAILURE exactly when its address is
empty.  For an address without origin entry the payload is the empty contract
and the status is FAILURE; an address has no origin entry when the index was
built by refreshes from an empty index and the chain holds no deploy
transaction for it. -/
theorem SmartContractGet_absent (lib : Lib) (bc : Credits.BlockChain) (fuel : Nat)
    (h : APIHandler) (pools : List csdb.Pool) (A : api.Address)
    (hwalk : IndexWalk bc h.last_seen_contract_block bc.getLastHash pools)
    (hfuel : pools.length < fuel)
    (hdefault : lib.transaction_is_valid (bc.loadTransaction default) = false) :
    ∃ h1 r, APIHandler.update_smart_caches lib bc fuel h = some h1 ∧
      APIHandler.SmartContractGet lib bc fuel h A = some r ∧
      r.1.smartContract = originMetadata lib bc h1 A ∧
      (r.1.status = SetResponseStatus APIRequestStatusType.SUCCESS "" ↔
        r.1.smartContract.address ≠ "") ∧
      (r.1.status = SetResponseStatus APIRequestStatusType.FAILURE "" ↔
        r.1.smartContract.address = "") ∧
      (h1.smart_origin A = none →
        r.1.smartContract = default ∧
        r.1.status = SetResponseStatus APIRequestStatusType.FAILURE "") ∧
      (∀ old, Refreshed lib old h → ¬ hasDeploy lib (pools ++ old) A →
        h1.smart_origin A = none) := by
  obtain ⟨h1, hrefresh⟩ : ∃ h1, APIHandler.update_smart_caches lib bc fuel h = some h1 :=
    ⟨_, update_smart_caches_eq_foldl lib bc fuel h pools hwalk hfuel⟩
  have hget : APIHandler.SmartContractGet lib bc fuel h A =
      some ({ smartContract := originMetadata lib bc h1 A
              status := SetResponseStatus
                (if (originMetadata lib bc h1 A).address ≠ "" then APIRequestStatusType.SUCCESS
                 else APIRequestStatusType.FAILURE) "" },
            { h1 with smart_origin := (Map.index h1.smart_origin A).2 }) := by
    unfold APIHandler.SmartContractGet
    simp only [hrefresh]
    rfl
  have hsf := SetResponseStatus_success_ne_failure
  refine ⟨h1, _, hrefresh, hget, rfl, ?_, ?_, ?_, ?_⟩
  · by_cases ha : (originMetadata lib bc h1 A).address = ""
    · simp only [ha, ne_eq, not_true_eq_false, if_false, iff_false]
      exact fun hc => hsf hc.symm
    · simp [ha]
  · by_cases ha : (originMetadata lib bc h1 A).address = ""
    · simp [ha]
    · simp only [ha, ne_eq, not_false_eq_true, if_true, iff_false]
      exact hsf
  · intro habsent
    have hmeta : originMetadata lib bc h1 A = default := by
      simp only [originMetadata, Map.index, habsent, fetch_smart, hdefault, Bool.false_eq_true,
        if_false]
    refine ⟨hmeta, ?_⟩
    show SetResponseStatus
      (if (originMetadata lib bc h1 A).address ≠ "" then APIRequestStatusType.SUCCESS
       else APIRequestStatusType.FAILURE) "" = _
    rw [hmeta]
    rfl
  · intro old hreached hno
    exact (Refreshed.origin lib (pools ++ old) h1
      (Refreshed.call old pools bc fuel h h1 hreached hwalk hrefresh) A).2 hno

/-- C16 (amended) on the two-pool ledger, which holds no contract, for
`vault`: the payload is empty and the status is FAILURE; and on the vault
ledger, where `vault` is deployed: the status is SUCCESS. -/
theorem SmartContractGet_absent_witness :
    IndexWalk demoChain APIHandler.fresh.last_seen_contract_block demoChain.getLastHash
      [demoPool2, demoPool1] ∧
    [demoPool2, demoPool1].length < 3 ∧
    demoLib.transaction_is_valid (demoChain.loadTransaction default) = false ∧
    (∃ h1 r, APIHandler.update_smart_caches demoLib demoChain 3 APIHandler.fresh = some h1 ∧
      APIHandler.SmartContractGet demoLib demoChain 3 APIHandler.fresh "vault" = some r ∧
      r.1.smartContract = originMetadata demoLib demoChain h1 "vault" ∧
      (r.1.status = SetResponseStatus APIRequestStatusType.SUCCESS "" ↔
        r.1.smartContract.address ≠ "") ∧
      (r.1.status = SetResponseStatus APIRequestStatusType.FAILURE "" ↔
        r.1.smartContract.address = "") ∧
      (h1.smart_origin "vault" = none →
        r.1.smartContract = default ∧
        r.1.status = SetResponseStatus APIRequestStatusType.FAILURE "") ∧
      (∀ old, Refreshed demoLib old APIHandler.fresh →
        ¬ hasDeploy demoLib ([demoPool2, demoPool1] ++ old) "vault" → h1.smart_origin "vault" = none)) ∧
    (APIHandler.update_smart_caches demoLib demoChain 3 APIHandler.fresh).map
      (fun h => h.smart_origin "vault") = some none ∧
    (∃ h1 r, APIHandler.update_smart_caches demoLib vaultChain 3 APIHandler.fresh = some h1 ∧
      APIHandler.SmartContractGet demoLib vaultChain 3 APIHandler.fresh "vault" = some r ∧
      r.1.smartContract = originMetadata demoLib vaultChain h1 "vault" ∧
      (r.1.status = SetResponseStatus APIRequestStatusType.SUCCESS "" ↔
        r.1.smartContract.address ≠ "") ∧
      (r.1.status = SetResponseStatus APIRequestStatusType.FAILURE "" ↔
        r.1.smartContract.address = "") ∧
      (h1.smart_origin "vault" = none →
        r.1.smartContract = default ∧
        r.1.status = SetResponseStatus APIRequestStatusType.FAILURE "") ∧
      (∀ old, Refreshed demoLib old APIHandler.fresh →
        ¬ hasDeploy demoLib ([vaultPool2, vaultPool1] ++ old) "vault" → h1.smart_origin "vault" = none)) ∧
    (APIHandler.SmartContractGet demoLib vaultChain 3 APIHandler.fresh "vault").map
      (fun r => (r.1.status, r.1.smartContract.address)) =
        some (SetResponseStatus APIRequestStatusType.SUCCESS "", "vault") :=
  ⟨by decide, by decide, rfl,
    SmartContractGet_absent demoLib demoChain 3 APIHandler.fresh [demoPool2, demoPool1] "vault"
      (by decide) (by decide) rfl,
    by decide,
    SmartContractGet_absent demoLib vaultChain 3 APIHandler.fresh [vaultPool2, vaultPool1]
      "vault" vaultChain_indexWalk (by decide) rfl,
    by decide⟩

/-! ## Refresh over a ledger with a missing pool -/

theorem brokenChain_walk_from_empty (stop : csdb.PoolHash) (hstop : stop ≠ "") :
    ∀ (fuel : Nat) (s : SmartScan),
      update_smart_caches.walk demoLib brokenChain stop fuel "" s = none := by
  intro fuel
  induction fuel with
  | zero => intro s; rfl
  | succ fuel ih =>
    intro s
    have hne : ("" : csdb.PoolHash) ≠ stop := fun h => hstop h.symm
    simp only [update_smart_caches.walk, hne, ne_eq, not_false_eq_true, if_true]
    exact ih _

/-- C17 (the code at the failing input): on the broken ledger the pool `b1`
before the head cannot be loaded.  A refresh from the unset checkpoint still
records the deploy of the head pool and moves the checkpoint to the head; a
refresh from the checkpoint `b0` never returns, whatever the fuel. -/
theorem update_smart_caches_missing_pool :
    (brokenChain.loadBlock "b1").is_valid = false ∧
    (APIHandler.update_smart_caches demoLib brokenChain 3 APIHandler.fresh).map
      (fun h => (h.last_seen_contract_block, h.smart_origin "vault")) =
        some ("b2", some ⟨"b2", 0⟩) ∧
    ∀ fuel, APIHandler.update_smart_caches demoLib brokenChain fuel
      { APIHandler.fresh with last_seen_contract_block := "b0" } = none := by
  refine ⟨by decide, by decide, ?_⟩
  intro fuel
  have hwalk : ∀ s, update_smart_caches.walk demoLib brokenChain "b0" fuel "b2" s = none := by
    intro s
    cases fuel with
    | zero => rfl
    | succ fuel =>
      cases fuel with
      | zero => rfl
      | succ fuel =>
        have h2 : ("b2" : csdb.PoolHash) ≠ "b0" := by decide
        have h1 : (brokenChain.loadBlock "b2").previous_hash ≠ "b0" := by decide
        have hprev : (brokenChain.loadBlock (brokenChain.loadBlock "b2").previous_hash).previous_hash
            = "" := by decide
        simp only [update_smart_caches.walk, h2, h1, ne_eq, not_false_eq_true, if_true, hprev]
        exact brokenChain_walk_from_empty "b0" (by decide) fuel _
  simp only [APIHandler.update_smart_caches]
  rw [show brokenChain.getLastHash = "b2" from rfl, hwalk]

/-! ## The transactions of a smart flow -/

/-- The accepted smart flow in detail: the metadata `net` embedded in the
intent transaction, the intent and state-commit transactions and the executor
call. -/
theorem TransactionFlow_smart_accept_detail (lib : Lib) (bc : Credits.BlockChain)
    (solver : Credits.ISolver) (exec : executor.ContractExecutor) (fuel : Nat)
    (h h1 : APIHandler) (transaction : api.Transaction)
    (htarget : transaction.target ≠ excludedTarget)
    (hsmart : transaction.smartContract.address ≠ "")
    (hrefresh : APIHandler.update_smart_caches lib bc fuel h = some h1)
    (hagree : (originMetadata lib bc h1 transaction.target).address = "" ↔
      requestIsDeploy transaction) :
    ∃ out intent commit net,
      APIHandler.TransactionFlow lib bc solver exec fuel h transaction = some out ∧
      out.result.status = SetResponseStatus APIRequestStatusType.SUCCESS "" ∧
      intent =
        { (default : csdb.Transaction) with
          amount := csdb.Amount.ofInt 1
          balance := bc.getBalance (lib.getAddressFromKey transaction.source)
          currency := ⟨"CS"⟩
          source := lib.getAddressFromKey transaction.source
          target := lib.getAddressFromKey transaction.target
          user_field0 := csdb.UserField.string (serialize lib net) } ∧
      (out.effects =
        [Effect.send_wallet_transaction intent (solver.send_wallet_transaction intent),
         Effect.executeByteCode net.address
           (originMetadata lib bc h1 transaction.target).byteCode net.contractState
           (if net.method = "" then "initialize" else net.method) net.params
           (exec.executeByteCode net.address
             (originMetadata lib bc h1 transaction.target).byteCode net.contractState
             (if net.method = "" then "initialize" else net.method) net.params),
         Effect.send_wallet_transaction commit (solver.send_wallet_transaction commit)] ∨
       out.effects =
        [Effect.send_wallet_transaction intent (solver.send_wallet_transaction intent),
         Effect.open_transport,
         Effect.executeByteCode net.address
           (originMetadata lib bc h1 transaction.target).byteCode net.contractState
           (if net.method = "" then "initialize" else net.method) net.params
           (exec.executeByteCode net.address
             (originMetadata lib bc h1 transaction.target).byteCode net.contractState
             (if net.method = "" then "initialize" else net.method) net.params),
         Effect.send_wallet_transaction commit (solver.send_wallet_transaction commit)]) ∧
      commit =
        { intent with
          user_field0 := csdb.UserField.string (serialize lib
            { (default : api.SmartContract) with
              contractState := (exec.executeByteCode net.address
                (originMetadata lib bc h1 transaction.target).byteCode net.contractState
                (if net.method = "" then "initialize" else net.method)
                net.params).contractState
              method := net.method
              params := net.params
              address := net.address }) } ∧
      net.address = transaction.target ∧
      net.hashState = transaction.smartContract.hashState ∧
      net.method = transaction.smartContract.method ∧
      net.params = transaction.smartContract.params ∧
      net.contractState = (stateMetadata lib bc h1 transaction.target).contractState ∧
      net.byteCode =
        (if requestIsDeploy transaction then transaction.smartContract.byteCode
         else (stateMetadata lib bc h1 transaction.target).byteCode) := by
  have hdec : decide ((originMetadata lib bc h1 transaction.target).address = "") =
      decide (requestIsDeploy transaction) := by
    simpa using hagree
  unfold originMetadata at hdec
  simp only [APIHandler.TransactionFlow, htarget, if_false, ne_eq, hsmart, not_false_eq_true,
    decide_True, if_true, hrefresh]
  have hin := is_smart_deploy_input transaction
  simp only [ne_eq] at hin
  rw [hin, if_pos hdec]
  by_cases ht : h1.transport_opened = true
  · simp only [ht, if_true, List.append_nil, List.singleton_append]
    refine ⟨_, _, _, _, rfl, rfl, rfl, Or.inl rfl, rfl, rfl, ?_, ?_, ?_, ?_, ?_⟩
    all_goals
      by_cases hm : transaction.smartContract.method = ""
      · by_cases hd : requestIsDeploy transaction <;> simp [hm, hd, stateMetadata]
      · have hd : ¬ requestIsDeploy transaction := fun hd => hm hd.1
        simp [hm, hd, stateMetadata]
  · simp only [ht, Bool.false_eq_true, if_false, List.singleton_append, List.cons_append,
      List.nil_append]
    refine ⟨_, _, _, _, rfl, rfl, rfl, Or.inr rfl, rfl, rfl, ?_, ?_, ?_, ?_, ?_⟩
    all_goals
      by_cases hm : transaction.smartContract.method = ""
      · by_cases hd : requestIsDeploy transaction <;> simp [hm, hd, stateMetadata]
      · have hd : ¬ requestIsDeploy transaction := fun hd => hm hd.1
        simp [hm, hd, stateMetadata]

/-- A smart request answered with SUCCESS has a target other than the excluded
key, its refresh returned, and its classification agrees with the index. -/
theorem TransactionFlow_success_cases (lib : Lib) (bc : Credits.BlockChain)
    (solver : Credits.ISolver) (exec : executor.ContractExecutor) (fuel : Nat)
    (h : APIHandler) (transaction : api.Transaction) (out : FlowOutcome)
    (hsmart : transaction.smartContract.address ≠ "")
    (hflow : APIHandler.TransactionFlow lib bc solver exec fuel h transaction = some out)
    (hsuccess : out.result.status = SetResponseStatus APIRequestStatusType.SUCCESS "") :
    transaction.target ≠ excludedTarget ∧
      ∃ h1, APIHandler.update_smart_caches lib bc fuel h = some h1 ∧
        ((originMetadata lib bc h1 transaction.target).address = "" ↔
          requestIsDeploy transaction) := by
  by_cases htarget : transaction.target = excludedTarget
  · simp only [APIHandler.TransactionFlow, htarget, if_true, Option.some.injEq] at hflow
    subst hflow
    have hne : (default : api.TransactionFlowResult).status ≠
        SetResponseStatus APIRequestStatusType.SUCCESS "" := by decide
    exact absurd hsuccess hne
  · refine ⟨htarget, ?_⟩
    cases hrefresh : APIHandler.update_smart_caches lib bc fuel h with
    | none =>
      simp [APIHandler.TransactionFlow, htarget, hsmart, hrefresh] at hflow
    | some h1 =>
      refine ⟨h1, rfl, ?_⟩
      by_contra hagree
      obtain ⟨out1, hout, hstatus, -⟩ := TransactionFlow_smart_reject lib bc solver exec
        fuel h h1 transaction htarget hsmart hrefresh hagree
      rw [hflow] at hout
      cases hout
      rw [hsuccess] at hstatus
      exact absurd hstatus SetResponseStatus_success_ne_failure

theorem submissions_of_flow (intent commit : csdb.Transaction) (a b : Bool) (e : Effect)
    (es : List Effect)
    (he : ∃ address byteCode contractState method params api_resp,
      e = Effect.executeByteCode address byteCode contractState method params api_resp)
    (hes : es = [Effect.send_wallet_transaction intent a, e,
        Effect.send_wallet_transaction commit b] ∨
      es = [Effect.send_wallet_transaction intent a, Effect.open_transport, e,
        Effect.send_wallet_transaction commit b]) :
    submissions es = [intent, commit] ∧ executorCalls es = 1 ∧ e ∈ es ∧
      dispatches es = [Effect.send_wallet_transaction intent a, e,
        Effect.send_wallet_transaction commit b] := by
  obtain ⟨x1, x2, x3, x4, x5, x6, rfl⟩ := he
  rcases hes with rfl | rfl <;> simp [submissions, executorCalls, dispatches]

/-- C18: for every smart request accepted by `TransactionFlow`, the second
(state-commit) transaction submitted equals the first (intent) transaction in
source, target, amount, currency and balance and differs only in user-field
slot 0, which holds the serialization of metadata whose address, method and
params are those of the intent metadata, whose contract-state blob is the
blob returned by the executor and whose byte-code is empty. -/
theorem TransactionFlow_state_commit (lib : Lib) (bc : Credits.BlockChain)
    (solver : Credits.ISolver) (exec : executor.ContractExecutor) (fuel : Nat)
    (h : APIHandler) (transaction : api.Transaction) (out : FlowOutcome)
    (hsmart : transaction.smartContract.address ≠ "")
    (hflow : APIHandler.TransactionFlow lib bc solver exec fuel h transaction = some out)
    (hsuccess : out.result.status = SetResponseStatus APIRequestStatusType.SUCCESS "") :
    ∃ intent commit net state address byteCode contractState method params,
      submissions out.effects = [intent, commit] ∧
      Effect.executeByteCode address byteCode contractState method params
        (exec.executeByteCode address byteCode contractState method params) ∈ out.effects ∧
      intent.user_field0 = csdb.UserField.string (serialize lib net) ∧
      commit.user_field0 = csdb.UserField.string (serialize lib state) ∧
      commit = { intent with user_field0 := commit.user_field0 } ∧
      commit.source = intent.source ∧ commit.target = intent.target ∧
      commit.amount = intent.amount ∧ commit.currency = intent.currency ∧
      commit.balance = intent.balance ∧
      state.address = net.address ∧ state.method = net.method ∧ state.params = net.params ∧
      state.contractState =
        (exec.executeByteCode address byteCode contractState method params).contractState ∧
      state.byteCode = "" := by
  obtain ⟨htarget, h1, hrefresh, hagree⟩ := TransactionFlow_success_cases lib bc solver exec
    fuel h transaction out hsmart hflow hsuccess
  obtain ⟨out1, intent, commit, net, hout, -, hintent, heff, hcommit, -⟩ :=
    TransactionFlow_smart_accept_detail lib bc solver exec fuel h h1 transaction htarget hsmart
      hrefresh hagree
  rw [hflow] at hout
  cases hout
  obtain ⟨hsub, -, hmem, -⟩ := submissions_of_flow intent commit _ _ _ out.effects
    ⟨_, _, _, _, _, _, rfl⟩ heff
  refine ⟨intent, commit, net,
    { (default : api.SmartContract) with
      contractState := (exec.executeByteCode net.address
        (originMetadata lib bc h1 transaction.target).byteCode net.contractState
        (if net.method = "" then "initialize" else net.method) net.params).contractState
      method := net.method
      params := net.params
      address := net.address },
    net.address, (originMetadata lib bc h1 transaction.target).byteCode, net.contractState,
    (if net.method = "" then "initialize" else net.method), net.params,
    hsub, hmem, ?_, ?_, ?_, ?_, ?_, ?_, ?_, ?_, rfl, rfl, rfl, rfl, rfl⟩
  · rw [hintent]
  all_goals rw [hcommit]

/-- C18 on the vault ledger, for a call of `put` on `vault`. -/
theorem TransactionFlow_state_commit_witness :
    invokeVault.smartContract.address ≠ "" ∧
    APIHandler.TransactionFlow demoLib vaultChain acceptingSolver demoExecutor 3
      APIHandler.fresh invokeVault = some invokeVaultOutcome ∧
    invokeVaultOutcome.result.status = SetResponseStatus APIRequestStatusType.SUCCESS "" ∧
    ∃ intent commit net state address byteCode contractState method params,
      submissions invokeVaultOutcome.effects = [intent, commit] ∧
      Effect.executeByteCode address byteCode contractState method params
        (demoExecutor.executeByteCode address byteCode contractState method params) ∈
          invokeVaultOutcome.effects ∧
      intent.user_field0 = csdb.UserField.string (serialize demoLib net) ∧
      commit.user_field0 = csdb.UserField.string (serialize demoLib state) ∧
      commit = { intent with user_field0 := commit.user_field0 } ∧
      commit.source = intent.source ∧ commit.target = intent.target ∧
      commit.amount = intent.amount ∧ commit.currency = intent.currency ∧
      commit.balance = intent.balance ∧
      state.address = net.address ∧ state.method = net.method ∧ state.params = net.params ∧
      state.contractState =
        (demoExecutor.executeByteCode address byteCode contractState method
          params).contractState ∧
      state.byteCode = "" :=
  ⟨by decide, invokeVault_flow, rfl,
    TransactionFlow_state_commit demoLib vaultChain acceptingSolver demoExecutor 3
      APIHandler.fresh invokeVault invokeVaultOutcome (by decide) invokeVault_flow rfl⟩

/-- C19: for every smart request accepted by `TransactionFlow`, the executor
is invoked exactly once, with the target address, the byte-code of the
metadata at the target's origin entry of the index, the contract-state blob of
the metadata at the target's state entry (empty when there is no state
entry), the request's method name or "initialize" when it is empty, and the
request's parameters. -/
theorem TransactionFlow_executor_call (lib : Lib) (bc : Credits.BlockChain)
    (solver : Credits.ISolver) (exec : executor.ContractExecutor) (fuel : Nat)
    (h : APIHandler) (transaction : api.Transaction) (out : FlowOutcome)
    (hsmart : transaction.smartContract.address ≠ "")
    (hflow : APIHandler.TransactionFlow lib bc solver exec fuel h transaction = some out)
    (hsuccess : out.result.status = SetResponseStatus APIRequestStatusType.SUCCESS "")
    (hdefault : lib.transaction_is_valid (bc.loadTransaction default) = false) :
    ∃ h1 intent commit, APIHandler.update_smart_caches lib bc fuel h = some h1 ∧
      executorCalls out.effects = 1 ∧
      dispatches out.effects =
        [Effect.send_wallet_transaction intent (solver.send_wallet_transaction intent),
         Effect.executeByteCode transaction.target
           (originMetadata lib bc h1 transaction.target).byteCode
           (stateMetadata lib bc h1 transaction.target).contractState
           (if transaction.smartContract.method = "" then "initialize"
            else transaction.smartContract.method)
           transaction.smartContract.params
           (exec.executeByteCode transaction.target
             (originMetadata lib bc h1 transaction.target).byteCode
             (stateMetadata lib bc h1 transaction.target).contractState
             (if transaction.smartContract.method = "" then "initialize"
              else transaction.smartContract.method)
             transaction.smartContract.params),
         Effect.send_wallet_transaction commit (solver.send_wallet_transaction commit)] ∧
      (h1.smart_state transaction.target = none →
        (stateMetadata lib bc h1 transaction.target).contractState = "") := by
  obtain ⟨htarget, h1, hrefresh, hagree⟩ := TransactionFlow_success_cases lib bc solver exec
    fuel h transaction out hsmart hflow hsuccess
  obtain ⟨out1, intent, commit, net, hout, -, -, heff, -, haddr, -, hmethod, hparams,
    hstate, -⟩ :=
    TransactionFlow_smart_accept_detail lib bc solver exec fuel h h1 transaction htarget hsmart
      hrefresh hagree
  rw [hflow] at hout
  cases hout
  rw [haddr, hmethod, hparams, hstate] at heff
  obtain ⟨-, hcalls, -, hdisp⟩ := submissions_of_flow intent commit _ _ _ out.effects
    ⟨_, _, _, _, _, _, rfl⟩ heff
  refine ⟨h1, intent, commit, hrefresh, hcalls, hdisp, ?_⟩
  intro hnone
  simp only [stateMetadata, Map.index, hnone, fetch_smart, hdefault]
  rfl

/-- C19 on the vault ledger, for a call of `put` on `vault`. -/
theorem TransactionFlow_executor_call_witness :
    invokeVault.smartContract.address ≠ "" ∧
    APIHandler.TransactionFlow demoLib vaultChain acceptingSolver demoExecutor 3
      APIHandler.fresh invokeVault = some invokeVaultOutcome ∧
    invokeVaultOutcome.result.status = SetResponseStatus APIRequestStatusType.SUCCESS "" ∧
    demoLib.transaction_is_valid (vaultChain.loadTransaction default) = false ∧
    ∃ h1 intent commit,
      APIHandler.update_smart_caches demoLib vaultChain 3 APIHandler.fresh = some h1 ∧
      executorCalls invokeVaultOutcome.effects = 1 ∧
      dispatches invokeVaultOutcome.effects =
        [Effect.send_wallet_transaction intent
           (acceptingSolver.send_wallet_transaction intent),
         Effect.executeByteCode invokeVault.target
           (originMetadata demoLib vaultChain h1 invokeVault.target).byteCode
           (stateMetadata demoLib vaultChain h1 invokeVault.target).contractState
           (if invokeVault.smartContract.method = "" then "initialize"
            else invokeVault.smartContract.method)
           invokeVault.smartContract.params
           (demoExecutor.executeByteCode invokeVault.target
             (originMetadata demoLib vaultChain h1 invokeVault.target).byteCode
             (stateMetadata demoLib vaultChain h1 invokeVault.target).contractState
             (if invokeVault.smartContract.method = "" then "initialize"
              else invokeVault.smartContract.method)
             invokeVault.smartContract.params),
         Effect.send_wallet_transaction commit
           (acceptingSolver.send_wallet_transaction commit)] ∧
      (h1.smart_state invokeVault.target = none →
        (stateMetadata demoLib vaultChain h1 invokeVault.target).contractState = "") :=
  ⟨by decide, invokeVault_flow, rfl, rfl,
    TransactionFlow_executor_call demoLib vaultChain acceptingSolver demoExecutor 3
      APIHandler.fresh invokeVault invokeVaultOutcome (by decide) invokeVault_flow rfl rfl⟩

/-- In an index reached by refreshes over `pools`, every transaction referenced
by the state map carries metadata with empty byte-code, on a ledger that
returns each chain transaction for its id. -/
theorem Refreshed.state_byteCode (lib : Lib) (bc : Credits.BlockChain)
    (pools : List csdb.Pool) (h : APIHandler) (hreached : Refreshed lib pools h)
    (hload : ∀ p ∈ pools, ∀ t ∈ p.transactions, bc.loadTransaction t.id = t)
    (A : api.Address) (id : csdb.TransactionID) (hid : h.smart_state A = some id) :
    (fetch_smart lib (bc.loadTransaction id)).byteCode = "" := by
  rw [(Refreshed.index lib pools h hreached).1 A] at hid
  cases hfind : (newestFirst pools).find? (isStateFor lib A) with
  | none => simp [hfind] at hid
  | some t =>
    simp only [hfind, Option.map_some', Option.some.injEq] at hid
    have hst : isStateFor lib A t = true := List.find?_some hfind
    have hmem : t ∈ newestFirst pools := List.mem_of_find?_eq_some hfind
    obtain ⟨p, hp, htp⟩ := (mem_newestFirst pools t).1 hmem
    rw [← hid, hload p hp t htp]
    simp only [isStateFor, is_smart_deploy, Bool.and_eq_true, Bool.not_eq_true',
      decide_eq_false_iff_not, ne_eq, not_not, decide_eq_true_eq] at hst
    exact hst.1.2

/-- C20: in every index built by `update_smart_caches` from an empty index
over a chain, every transaction referenced by the state map carries metadata
with empty byte-code; so for every accepted invocation (empty request
byte-code or non-empty method) the metadata in user-field slot 0 of the intent
transaction has the target as address, the request's state-hash, method and
params, and empty byte-code, and the amount of the intent transaction is 1. -/
theorem TransactionFlow_invocation_intent (lib : Lib) (bc : Credits.BlockChain)
    (solver : Credits.ISolver) (exec : executor.ContractExecutor) (fuel : Nat)
    (h : APIHandler) (old new : List csdb.Pool) (transaction : api.Transaction)
    (out : FlowOutcome)
    (hreached : Refreshed lib old h)
    (hwalk : IndexWalk bc h.last_seen_contract_block bc.getLastHash new)
    (hload : ∀ p ∈ new ++ old, ∀ t ∈ p.transactions, bc.loadTransaction t.id = t)
    (hdefault : lib.transaction_is_valid (bc.loadTransaction default) = false)
    (hsmart : transaction.smartContract.address ≠ "")
    (hinvoke : transaction.smartContract.byteCode = "" ∨
      transaction.smartContract.method ≠ "")
    (hflow : APIHandler.TransactionFlow lib bc solver exec fuel h transaction = some out)
    (hsuccess : out.result.status = SetResponseStatus APIRequestStatusType.SUCCESS "") :
    ∃ h1, APIHandler.update_smart_caches lib bc fuel h = some h1 ∧
      (∀ A id, h1.smart_state A = some id →
        (fetch_smart lib (bc.loadTransaction id)).byteCode = "") ∧
      ∃ intent commit net, submissions out.effects = [intent, commit] ∧
        intent.user_field0 = csdb.UserField.string (serialize lib net) ∧
        net.address = transaction.target ∧
        net.hashState = transaction.smartContract.hashState ∧
        net.method = transaction.smartContract.method ∧
        net.params = transaction.smartContract.params ∧
        net.byteCode = "" ∧
        intent.amount = csdb.Amount.ofInt 1 := by
  obtain ⟨htarget, h1, hrefresh, hagree⟩ := TransactionFlow_success_cases lib bc solver exec
    fuel h transaction out hsmart hflow hsuccess
  have hreached1 : Refreshed lib (new ++ old) h1 :=
    Refreshed.call old new bc fuel h h1 hreached hwalk hrefresh
  have hstate := Refreshed.state_byteCode lib bc (new ++ old) h1 hreached1 hload
  obtain ⟨out1, intent, commit, net, hout, -, hintent, heff, -, haddr, hhash, hmethod,
    hparams, -, hbyte⟩ :=
    TransactionFlow_smart_accept_detail lib bc solver exec fuel h h1 transaction htarget hsmart
      hrefresh hagree
  rw [hflow] at hout
  cases hout
  obtain ⟨hsub, -, -, -⟩ := submissions_of_flow intent commit _ _ _ out.effects
    ⟨_, _, _, _, _, _, rfl⟩ heff
  refine ⟨h1, hrefresh, hstate, intent, commit, net, hsub, ?_, haddr, hhash, hmethod, hparams,
    ?_, ?_⟩
  · rw [hintent]
  · have hnd : ¬ requestIsDeploy transaction := by
      rintro ⟨hm, hb⟩
      rcases hinvoke with hb0 | hm0
      · exact hb hb0
      · exact hm0 hm
    rw [hbyte, if_neg hnd]
    cases hentry : h1.smart_state transaction.target with
    | none =>
      simp only [stateMetadata, Map.index, hentry, fetch_smart, hdefault]
      rfl
    | some id =>
      simp only [stateMetadata, Map.index, hentry]
      exact hstate transaction.target id hentry
  · rw [hintent]

/-- C20 on the vault ledger, for a call of `put` on `vault`. -/
theorem TransactionFlow_invocation_intent_witness :
    Refreshed demoLib [] APIHandler.fresh ∧
    IndexWalk vaultChain APIHandler.fresh.last_seen_contract_block vaultChain.getLastHash
      [vaultPool2, vaultPool1] ∧
    (∀ p ∈ [vaultPool2, vaultPool1] ++ [], ∀ t ∈ p.transactions,
      vaultChain.loadTransaction t.id = t) ∧
    demoLib.transaction_is_valid (vaultChain.loadTransaction default) = false ∧
    invokeVault.smartContract.address ≠ "" ∧
    (invokeVault.smartContract.byteCode = "" ∨ invokeVault.smartContract.method ≠ "") ∧
    APIHandler.TransactionFlow demoLib vaultChain acceptingSolver demoExecutor 3
      APIHandler.fresh invokeVault = some invokeVaultOutcome ∧
    invokeVaultOutcome.result.status = SetResponseStatus APIRequestStatusType.SUCCESS "" ∧
    ∃ h1, APIHandler.update_smart_caches demoLib vaultChain 3 APIHandler.fresh = some h1 ∧
      (∀ A id, h1.smart_state A = some id →
        (fetch_smart demoLib (vaultChain.loadTransaction id)).byteCode = "") ∧
      ∃ intent commit net, submissions invokeVaultOutcome.effects = [intent, commit] ∧
        intent.user_field0 = csdb.UserField.string (serialize demoLib net) ∧
        net.address = invokeVault.target ∧
        net.hashState = invokeVault.smartContract.hashState ∧
        net.method = invokeVault.smartContract.method ∧
        net.params = invokeVault.smartContract.params ∧
        net.byteCode = "" ∧
        intent.amount = csdb.Amount.ofInt 1 :=
  ⟨Refreshed.start APIHandler.fresh rfl rfl rfl rfl, vaultChain_indexWalk, by decide, rfl,
    by decide, by decide, invokeVault_flow, rfl,
    TransactionFlow_invocation_intent demoLib vaultChain acceptingSolver demoExecutor 3
      APIHandler.fresh [] [vaultPool2, vaultPool1] invokeVault invokeVaultOutcome
      (Refreshed.start APIHandler.fresh rfl rfl rfl rfl) vaultChain_indexWalk (by decide) rfl
      (by decide) (by decide) invokeVault_flow rfl⟩

/-! ## Termination of the refresh walk -/

/-- The walk of `update_smart_caches` scans the pools it loads, newest-first,
and returns exactly when the loop that loads them does. -/
theorem update_smart_caches.walk_eq_visits (lib : Lib) (bc : Credits.BlockChain)
    (stop : csdb.PoolHash) :
    ∀ (fuel : Nat) (curr_ph : csdb.PoolHash) (s : SmartScan),
      update_smart_caches.walk lib bc stop fuel curr_ph s =
        (update_smart_caches.visits bc stop fuel curr_ph).map
          (fun ps => (newestFirst ps).foldl (update_smart_caches.visit lib) s) := by
  intro fuel
  induction fuel with
  | zero => intro curr_ph s; rfl
  | succ fuel ih =>
    intro curr_ph s
    by_cases hc : curr_ph = stop
    · simp [update_smart_caches.walk, update_smart_caches.visits, hc, newestFirst]
    · simp only [update_smart_caches.walk, update_smart_caches.visits, hc, ne_eq,
        not_false_eq_true, if_true, ih, Option.map_map]
      congr 1
      funext ps
      simp [newestFirst_cons, List.foldl_append]

theorem IndexWalk_unique (bc : Credits.BlockChain) (stop : csdb.PoolHash) :
    ∀ (l1 l2 : List csdb.Pool) (h : csdb.PoolHash),
      IndexWalk bc stop h l1 → IndexWalk bc stop h l2 → l1 = l2 := by
  intro l1
  induction l1 with
  | nil =>
    intro l2 h h1 h2
    cases l2 with
    | nil => rfl
    | cons q qs =>
      simp only [IndexWalk] at h1
      exact absurd h1 h2.1
  | cons p ps ih =>
    intro l2 h h1 h2
    obtain ⟨hne, hload, hrest⟩ := h1
    cases l2 with
    | nil =>
      simp only [IndexWalk] at h2
      exact absurd h2 hne
    | cons q qs =>
      obtain ⟨-, hload2, hrest2⟩ := h2
      have hpq : p = q := by rw [← hload, ← hload2]
      subst hpq
      rw [ih qs _ hrest hrest2]

/-- Every hash of a chain starts a walk that is no longer than the chain. -/
theorem IndexWalk_of_mem_chainHashes (bc : Credits.BlockChain) (stop : csdb.PoolHash) :
    ∀ (pools : List csdb.Pool) (h x : csdb.PoolHash),
      IndexWalk bc stop h pools → x ∈ chainHashes h pools →
      ∃ qs, IndexWalk bc stop x qs ∧ qs.length ≤ pools.length := by
  intro pools
  induction pools with
  | nil => intro h x _ hx; simp [chainHashes] at hx
  | cons p ps ih =>
    intro h x hw hx
    simp only [chainHashes, List.mem_cons] at hx
    rcases hx with rfl | hx
    · exact ⟨p :: ps, hw, le_refl _⟩
    · obtain ⟨qs, hqs, hlen⟩ := ih _ x hw.2.2 hx
      exact ⟨qs, hqs, by simp only [List.length_cons]; omega⟩

/-- The pools of a finite chain are loaded under pairwise distinct hashes. -/
theorem chainHashes_nodup (bc : Credits.BlockChain) (stop : csdb.PoolHash) :
    ∀ (pools : List csdb.Pool) (h : csdb.PoolHash),
      IndexWalk bc stop h pools → (chainHashes h pools).Nodup := by
  intro pools
  induction pools with
  | nil => intro h _; simp [chainHashes]
  | cons p ps ih =>
    intro h hw
    simp only [chainHashes, List.nodup_cons]
    refine ⟨?_, ih _ hw.2.2⟩
    intro hmem
    obtain ⟨qs, hqs, hlen⟩ := IndexWalk_of_mem_chainHashes bc stop ps _ h hw.2.2 hmem
    have := IndexWalk_unique bc stop qs (p :: ps) h hqs hw
    rw [this] at hlen
    simp at hlen

/-- From the head of a chain that ends at the empty hash, the loop that stops
at a checkpoint on the chain loads the pools before the first position of the
checkpoint, and nothing else. -/
theorem update_smart_caches.visits_of_chain (bc : Credits.BlockChain)
    (checkpoint : csdb.PoolHash) :
    ∀ (pools : List csdb.Pool) (fuel : Nat) (h : csdb.PoolHash),
      IndexWalk bc "" h pools → pools.length < fuel →
      (checkpoint = "" ∨ checkpoint ∈ chainHashes h pools) →
      ∃ k, k ≤ pools.length ∧ (checkpoint = "" → k = pools.length) ∧
        (checkpoint ≠ "" → (chainHashes h pools)[k]? = some checkpoint) ∧
        update_smart_caches.visits bc checkpoint fuel h = some (pools.take k) ∧
        IndexWalk bc checkpoint h (pools.take k) := by
  intro pools
  induction pools with
  | nil =>
    intro fuel h hw hf hcp
    cases fuel with
    | zero => simp at hf
    | succ fuel =>
      simp only [IndexWalk] at hw
      have hc : checkpoint = "" := by
        rcases hcp with hc | hc
        · exact hc
        · simp [chainHashes] at hc
      subst hw
      refine ⟨0, le_refl _, fun _ => rfl, fun hne => absurd hc hne, ?_, ?_⟩
      · simp [update_smart_caches.visits, hc]
      · simp [IndexWalk, hc]
  | cons p ps ih =>
    intro fuel h hw hf hcp
    cases fuel with
    | zero => simp at hf
    | succ fuel =>
      obtain ⟨hne, hload, hrest⟩ := hw
      have hf2 : ps.length < fuel := by simpa using hf
      by_cases hc : h = checkpoint
      · subst hc
        refine ⟨0, Nat.zero_le _, fun he => absurd he hne, fun _ => by simp [chainHashes],
          ?_, ?_⟩
        · simp [update_smart_caches.visits]
        · simp [IndexWalk]
      · have hcp2 : checkpoint = "" ∨ checkpoint ∈ chainHashes p.previous_hash ps := by
          rcases hcp with hcp | hcp
          · exact Or.inl hcp
          · simp only [chainHashes, List.mem_cons] at hcp
            rcases hcp with hcp | hcp
            · exact absurd hcp.symm hc
            · exact Or.inr hcp
        obtain ⟨k, hk, hk0, hkc, hvis, hwalk⟩ := ih fuel _ hrest hf2 hcp2
        refine ⟨k + 1, by simpa using hk, fun he => by simp [hk0 he],
          fun hn => by simpa [chainHashes] using hkc hn, ?_, ?_⟩
        · simp [update_smart_caches.visits, hc, hload, hvis]
        · exact ⟨hc, hload, hwalk⟩

/-- C21: for every finite chain whose genesis pool has the empty hash as
previous hash, and every checkpoint that is unset (the empty hash) or the hash
of a pool on the previous-hash path from the head, `update_smart_caches`
terminates, and it loads exactly the pools strictly newer than the checkpoint
(all pools when the checkpoint is unset), each once, from the head backward:
the pools are loaded under pairwise distinct hashes, the checkpoint stands at
position `k` of these hashes, and the pools loaded are the first `k` of the
chain. -/
theorem update_smart_caches_terminates (lib : Lib) (bc : Credits.BlockChain) (fuel : Nat)
    (h : APIHandler) (pools : List csdb.Pool)
    (hchain : IndexWalk bc "" bc.getLastHash pools) (hfuel : pools.length < fuel)
    (hcheckpoint : h.last_seen_contract_block = "" ∨
      h.last_seen_contract_block ∈ chainHashes bc.getLastHash pools) :
    (chainHashes bc.getLastHash pools).Nodup ∧
      ∃ k h1, k ≤ pools.length ∧
        (h.last_seen_contract_block = "" → k = pools.length) ∧
        (h.last_seen_contract_block ≠ "" →
          (chainHashes bc.getLastHash pools)[k]? = some h.last_seen_contract_block) ∧
        update_smart_caches.visits bc h.last_seen_contract_block fuel bc.getLastHash =
          some (pools.take k) ∧
        (∀ s, update_smart_caches.walk lib bc h.last_seen_contract_block fuel bc.getLastHash s =
          some ((newestFirst (pools.take k)).foldl (update_smart_caches.visit lib) s)) ∧
        APIHandler.update_smart_caches lib bc fuel h = some h1 ∧
        h1.last_seen_contract_block = bc.getLastHash := by
  refine ⟨chainHashes_nodup bc "" pools _ hchain, ?_⟩
  obtain ⟨k, hk, hk0, hkc, hvis, hwalk⟩ := update_smart_caches.visits_of_chain bc
    h.last_seen_contract_block pools fuel _ hchain hfuel hcheckpoint
  have hlen : (pools.take k).length < fuel := by
    simp only [List.length_take]
    omega
  refine ⟨k, _, hk, hk0, hkc, hvis, ?_,
    update_smart_caches_eq_foldl lib bc fuel h (pools.take k) hwalk hlen, rfl⟩
  intro s
  rw [update_smart_caches.walk_eq_visits, hvis]
  rfl

/-- C21 on the vault ledger, with the checkpoint at the genesis pool. -/
theorem update_smart_caches_terminates_witness :
    IndexWalk vaultChain "" vaultChain.getLastHash [vaultPool2, vaultPool1] ∧
    [vaultPool2, vaultPool1].length < 3 ∧
    (vaultGenesisIndexed.last_seen_contract_block = "" ∨
      vaultGenesisIndexed.last_seen_contract_block ∈
        chainHashes vaultChain.getLastHash [vaultPool2, vaultPool1]) ∧
    ((chainHashes vaultChain.getLastHash [vaultPool2, vaultPool1]).Nodup ∧
      ∃ k h1, k ≤ [vaultPool2, vaultPool1].length ∧
        (vaultGenesisIndexed.last_seen_contract_block = "" →
          k = [vaultPool2, vaultPool1].length) ∧
        (vaultGenesisIndexed.last_seen_contract_block ≠ "" →
          (chainHashes vaultChain.getLastHash [vaultPool2, vaultPool1])[k]? =
            some vaultGenesisIndexed.last_seen_contract_block) ∧
        update_smart_caches.visits vaultChain vaultGenesisIndexed.last_seen_contract_block 3
          vaultChain.getLastHash = some ([vaultPool2, vaultPool1].take k) ∧
        (∀ s, update_smart_caches.walk demoLib vaultChain
            vaultGenesisIndexed.last_seen_contract_block 3 vaultChain.getLastHash s =
          some ((newestFirst ([vaultPool2, vaultPool1].take k)).foldl
            (update_smart_caches.visit demoLib) s)) ∧
        APIHandler.update_smart_caches demoLib vaultChain 3 vaultGenesisIndexed = some h1 ∧
        h1.last_seen_contract_block = vaultChain.getLastHash) :=
  ⟨vaultChain_indexWalk, by decide, by decide,
    update_smart_caches_terminates demoLib vaultChain 3 vaultGenesisIndexed
      [vaultPool2, vaultPool1] vaultChain_indexWalk (by decide) (by decide)⟩

/-! ## Deploy/invoke exclusivity on a refreshed index -/

/-- When no call raises, the flow with exceptions is the flow `TransactionFlow`. -/
theorem TransactionFlow.raising_of_returns (lib : Lib) (bc : Credits.BlockChain)
    (solver : Credits.ISolver) (exec : executor.ContractExecutor) (fuel : Nat)
    (h : APIHandler) (transaction : api.Transaction) :
    APIHandler.TransactionFlow.raising lib bc solver exec (fun _ => false) fuel h transaction =
      (APIHandler.TransactionFlow lib bc solver exec fuel h transaction).map
        (fun out => { outcome := out, raised := none }) := by
  unfold APIHandler.TransactionFlow.raising APIHandler.TransactionFlow
  by_cases htarget : transaction.target = excludedTarget
  · simp [htarget]
  · by_cases hsmart : transaction.smartContract.address = ""
    · simp [htarget, hsmart]
    · cases hrefresh : APIHandler.update_smart_caches lib bc fuel h with
      | none => simp [htarget, hsmart, hrefresh]
      | some h1 =>
        simp only [htarget, hsmart, hrefresh, if_false, ne_eq, not_false_eq_true, decide_True,
          if_true, Bool.false_eq_true, Bool.and_false]
        split_ifs <;> rfl

theorem TransactionFlowResult_default_ne_failure :
    (default : api.TransactionFlowResult).status ≠
      SetResponseStatus APIRequestStatusType.FAILURE "" := by
  decide

/-- The flow with exceptions for a smart request that passes the conflict
check: the run is cut at the first call that raises, with the result record
untouched; when every call returns it ends with SUCCESS after the
state-commit submission. -/
theorem TransactionFlow.raising_accept (lib : Lib) (bc : Credits.BlockChain)
    (solver : Credits.ISolver) (exec : executor.ContractExecutor) (raises : FlowCall → Bool)
    (fuel : Nat) (h h1 : APIHandler) (transaction : api.Transaction)
    (htarget : transaction.target ≠ excludedTarget)
    (hsmart : transaction.smartContract.address ≠ "")
    (hrefresh : APIHandler.update_smart_caches lib bc fuel h = some h1)
    (hagree : (originMetadata lib bc h1 transaction.target).address = "" ↔
      requestIsDeploy transaction) :
    ∃ run out intent commit,
      APIHandler.TransactionFlow.raising lib bc solver exec raises fuel h transaction =
        some run ∧
      APIHandler.TransactionFlow lib bc solver exec fuel h transaction = some out ∧
      submissions out.effects = [intent, commit] ∧
      run.outcome.result.status ≠ SetResponseStatus APIRequestStatusType.FAILURE "" ∧
      (raises FlowCall.send_transaction = true →
        run.raised = some FlowCall.send_transaction ∧ run.outcome.result = default ∧
        submissions run.outcome.effects = [] ∧ executorCalls run.outcome.effects = 0) ∧
      (raises FlowCall.send_transaction = false →
        (h1.transport_opened = false ∧ raises FlowCall.transport_open = true) →
        run.raised = some FlowCall.transport_open ∧ run.outcome.result = default ∧
        submissions run.outcome.effects = [intent] ∧ executorCalls run.outcome.effects = 0) ∧
      (raises FlowCall.send_transaction = false →
        ¬ (h1.transport_opened = false ∧ raises FlowCall.transport_open = true) →
        raises FlowCall.executeByteCode = true →
        run.raised = some FlowCall.executeByteCode ∧ run.outcome.result = default ∧
        submissions run.outcome.effects = [intent] ∧ executorCalls run.outcome.effects = 0) ∧
      (raises FlowCall.send_transaction = false →
        ¬ (h1.transport_opened = false ∧ raises FlowCall.transport_open = true) →
        raises FlowCall.executeByteCode = false →
        raises FlowCall.send_contract_redeploy_tr = true →
        run.raised = some FlowCall.send_contract_redeploy_tr ∧ run.outcome.result = default ∧
        submissions run.outcome.effects = [intent] ∧ executorCalls run.outcome.effects = 1) ∧
      (raises FlowCall.send_transaction = false →
        ¬ (h1.transport_opened = false ∧ raises FlowCall.transport_open = true) →
        raises FlowCall.executeByteCode = false →
        raises FlowCall.send_contract_redeploy_tr = false →
        run.raised = none ∧
        run.outcome.result.status = SetResponseStatus APIRequestStatusType.SUCCESS "" ∧
        submissions run.outcome.effects = [intent, commit] ∧
        executorCalls run.outcome.effects = 1) := by
  have hdec : decide ((originMetadata lib bc h1 transaction.target).address = "") =
      decide (requestIsDeploy transaction) := by
    simpa using hagree
  unfold originMetadata at hdec
  have hin := is_smart_deploy_input transaction
  simp only [ne_eq] at hin
  simp only [APIHandler.TransactionFlow.raising, APIHandler.TransactionFlow, htarget, if_false,
    ne_eq, hsmart, not_false_eq_true, decide_True, if_true, hrefresh]
  rw [hin, if_pos hdec, if_pos hdec]
  cases ht : h1.transport_opened <;> cases h1c : raises FlowCall.send_transaction <;>
    cases h2c : raises FlowCall.transport_open <;>
    cases h3c : raises FlowCall.executeByteCode <;>
    cases h4c : raises FlowCall.send_contract_redeploy_tr <;>
    exact ⟨_, _, _, _, rfl, rfl, rfl,
      by first | exact TransactionFlowResult_default_ne_failure
               | exact SetResponseStatus_success_ne_failure,
      by simp [submissions, executorCalls],
      by simp [submissions, executorCalls], by simp [submissions, executorCalls],
      by simp [submissions, executorCalls], by simp [submissions, executorCalls]⟩

/-- The flow with exceptions for a smart request that fails the conflict
check: no call is made, so none raises, and the status is FAILURE. -/
theorem TransactionFlow.raising_reject (lib : Lib) (bc : Credits.BlockChain)
    (solver : Credits.ISolver) (exec : executor.ContractExecutor) (raises : FlowCall → Bool)
    (fuel : Nat) (h h1 : APIHandler) (transaction : api.Transaction)
    (htarget : transaction.target ≠ excludedTarget)
    (hsmart : transaction.smartContract.address ≠ "")
    (hrefresh : APIHandler.update_smart_caches lib bc fuel h = some h1)
    (hconflict : ¬ ((originMetadata lib bc h1 transaction.target).address = "" ↔
      requestIsDeploy transaction)) :
    ∃ run, APIHandler.TransactionFlow.raising lib bc solver exec raises fuel h transaction =
        some run ∧
      run.raised = none ∧
      run.outcome.result.status = SetResponseStatus APIRequestStatusType.FAILURE "" ∧
      run.outcome.effects = [] := by
  have hdec : ¬ (decide ((originMetadata lib bc h1 transaction.target).address = "") =
      decide (requestIsDeploy transaction)) := by
    intro hd
    exact hconflict (by simpa using hd)
  unfold originMetadata at hdec
  simp only [APIHandler.TransactionFlow.raising, htarget, if_false, ne_eq, hsmart,
    not_false_eq_true, decide_True, if_true, hrefresh]
  have hin := is_smart_deploy_input transaction
  simp only [ne_eq] at hin
  rw [hin, if_neg hdec]
  exact ⟨_, rfl, rfl, rfl, rfl⟩

/-- C8 (counterexample): on the vault ledger, when the phase-1 submission of
`invokeVault` raises, and likewise when the executor call raises, the flow
halts at that call with the status record untouched: the status is not
FAILURE. -/
theorem TransactionFlow_failure_not_reported :
    (APIHandler.TransactionFlow.raising demoLib vaultChain acceptingSolver demoExecutor
        submissionRaises 3 APIHandler.fresh invokeVault).map
        (fun run => (run.raised, run.outcome.result.status, run.outcome.effects)) =
      some (some FlowCall.send_transaction, ⟨0, ""⟩, []) ∧
    (APIHandler.TransactionFlow.raising demoLib vaultChain acceptingSolver demoExecutor
        executorRaises 3 APIHandler.fresh invokeVault).map
        (fun run => (run.raised, run.outcome.result.status, run.outcome.effects)) =
      some (some FlowCall.executeByteCode, ⟨0, ""⟩,
        [Effect.send_wallet_transaction invokeVaultIntent true, Effect.open_transport]) ∧
    (⟨0, ""⟩ : api.APIResponse) ≠ SetResponseStatus APIRequestStatusType.FAILURE "" := by
  decide

/-- C8 (amended): `TransactionFlow` sets FAILURE in the conflict check only
and inspects no outcome of a submission or of the executor call.  For a smart
request that passes the conflict check: when the phase-1 submission raises,
the flow halts there, the executor is not invoked, nothing is submitted and
the status record is left untouched; when the opening of the transport or the
executor call raises, the flow halts there, no state-commit transaction is
submitted and the status record is left untouched, and so it is when the
state-commit submission raises; when every call returns, then whatever the
solver and the executor return, the state-commit transaction is submitted and
the status is SUCCESS. -/
theorem TransactionFlow_downstream_unchecked (lib : Lib) (bc : Credits.BlockChain)
    (solver : Credits.ISolver) (exec : executor.ContractExecutor) (raises : FlowCall → Bool)
    (fuel : Nat) (h : APIHandler) (pools : List csdb.Pool) (transaction : api.Transaction)
    (htarget : transaction.target ≠ excludedTarget)
    (hsmart : transaction.smartContract.address ≠ "")
    (hwalk : IndexWalk bc h.last_seen_contract_block bc.getLastHash pools)
    (hfuel : pools.length < fuel) :
    ∃ h1 run, APIHandler.update_smart_caches lib bc fuel h = some h1 ∧
      APIHandler.TransactionFlow.raising lib bc solver exec raises fuel h transaction =
        some run ∧
      (run.outcome.result.status = SetResponseStatus APIRequestStatusType.FAILURE "" ↔
        ¬ ((originMetadata lib bc h1 transaction.target).address = "" ↔
            (transaction.smartContract.method = "" ∧
              transaction.smartContract.byteCode ≠ ""))) ∧
      (((originMetadata lib bc h1 transaction.target).address = "" ↔
          (transaction.smartContract.method = "" ∧
            transaction.smartContract.byteCode ≠ "")) →
        ∃ out intent commit,
          APIHandler.TransactionFlow lib bc solver exec fuel h transaction = some out ∧
          submissions out.effects = [intent, commit] ∧
          (raises FlowCall.send_transaction = true →
            run.raised = some FlowCall.send_transaction ∧ run.outcome.result = default ∧
            submissions run.outcome.effects = [] ∧ executorCalls run.outcome.effects = 0) ∧
          (raises FlowCall.send_transaction = false →
            (h.transport_opened = false ∧ raises FlowCall.transport_open = true) →
            run.raised = some FlowCall.transport_open ∧ run.outcome.result = default ∧
            submissions run.outcome.effects = [intent] ∧
            executorCalls run.outcome.effects = 0) ∧
          (raises FlowCall.send_transaction = false →
            ¬ (h.transport_opened = false ∧ raises FlowCall.transport_open = true) →
            raises FlowCall.executeByteCode = true →
            run.raised = some FlowCall.executeByteCode ∧ run.outcome.result = default ∧
            submissions run.outcome.effects = [intent] ∧
            executorCalls run.outcome.effects = 0) ∧
          (raises FlowCall.send_transaction = false →
            ¬ (h.transport_opened = false ∧ raises FlowCall.transport_open = true) →
            raises FlowCall.executeByteCode = false →
            raises FlowCall.send_contract_redeploy_tr = true →
            run.raised = some FlowCall.send_contract_redeploy_tr ∧
            run.outcome.result = default ∧
            submissions run.outcome.effects = [intent] ∧
            executorCalls run.outcome.effects = 1) ∧
          (raises FlowCall.send_transaction = false →
            ¬ (h.transport_opened = false ∧ raises FlowCall.transport_open = true) →
            raises FlowCall.executeByteCode = false →
            raises FlowCall.send_contract_redeploy_tr = false →
            run.raised = none ∧
            run.outcome.result.status = SetResponseStatus APIRequestStatusType.SUCCESS "" ∧
            submissions run.outcome.effects = [intent, commit] ∧
            executorCalls run.outcome.effects = 1)) := by
  obtain ⟨h1, hrefresh⟩ : ∃ h1, APIHandler.update_smart_caches lib bc fuel h = some h1 :=
    ⟨_, update_smart_caches_eq_foldl lib bc fuel h pools hwalk hfuel⟩
  have hopened : h1.transport_opened = h.transport_opened := by
    rw [update_smart_caches_some_eq_foldl lib bc fuel h h1 pools hwalk hrefresh]
  by_cases hagree : (originMetadata lib bc h1 transaction.target).address = "" ↔
      requestIsDeploy transaction
  · obtain ⟨run, out, intent, commit, hrun, hout, hsub, hstatus, hcases⟩ :=
      TransactionFlow.raising_accept lib bc solver exec raises fuel h h1 transaction htarget
        hsmart hrefresh hagree
    rw [hopened] at hcases
    refine ⟨h1, run, hrefresh, hrun, ?_, ?_⟩
    · constructor
      · intro hfail
        exact absurd hfail hstatus
      · intro hne
        exact absurd hagree hne
    · intro _
      exact ⟨out, intent, commit, hout, hsub, hcases⟩
  · obtain ⟨run, hrun, -, hstatus, -⟩ :=
      TransactionFlow.raising_reject lib bc solver exec raises fuel h h1 transaction htarget
        hsmart hrefresh hagree
    refine ⟨h1, run, hrefresh, hrun, ?_, ?_⟩
    · constructor
      · intro _
        exact hagree
      · intro _
        exact hstatus
    · intro hyes
      exact absurd hyes hagree

/-- C8 (amended) on the vault ledger, for a call of `put` on `vault` with a
solver that refuses every transaction and an executor that answers with an
error code: when the executor call raises, the flow halts after the intent
submission and the opening of the transport, with the status record
untouched; when every call returns, the state-commit transaction is submitted
and the status is SUCCESS. -/
theorem TransactionFlow_downstream_unchecked_witness :
    invokeVault.target ≠ excludedTarget ∧ invokeVault.smartContract.address ≠ "" ∧
    IndexWalk vaultChain APIHandler.fresh.last_seen_contract_block vaultChain.getLastHash
      [vaultPool2, vaultPool1] ∧
    [vaultPool2, vaultPool1].length < 3 ∧
    (∃ h1 run, APIHandler.update_smart_caches demoLib vaultChain 3 APIHandler.fresh = some h1 ∧
      APIHandler.TransactionFlow.raising demoLib vaultChain refusingSolver failingExecutor
        executorRaises 3 APIHandler.fresh invokeVault = some run ∧
      (run.outcome.result.status = SetResponseStatus APIRequestStatusType.FAILURE "" ↔
        ¬ ((originMetadata demoLib vaultChain h1 invokeVault.target).address = "" ↔
            (invokeVault.smartContract.method = "" ∧
              invokeVault.smartContract.byteCode ≠ ""))) ∧
      (((originMetadata demoLib vaultChain h1 invokeVault.target).address = "" ↔
          (invokeVault.smartContract.method = "" ∧
            invokeVault.smartContract.byteCode ≠ "")) →
        ∃ out intent commit,
          APIHandler.TransactionFlow demoLib vaultChain refusingSolver failingExecutor 3
            APIHandler.fresh invokeVault = some out ∧
          submissions out.effects = [intent, commit] ∧
          (executorRaises FlowCall.send_transaction = true →
            run.raised = some FlowCall.send_transaction ∧ run.outcome.result = default ∧
            submissions run.outcome.effects = [] ∧ executorCalls run.outcome.effects = 0) ∧
          (executorRaises FlowCall.send_transaction = false →
            (APIHandler.fresh.transport_opened = false ∧
              executorRaises FlowCall.transport_open = true) →
            run.raised = some FlowCall.transport_open ∧ run.outcome.result = default ∧
            submissions run.outcome.effects = [intent] ∧
            executorCalls run.outcome.effects = 0) ∧
          (executorRaises FlowCall.send_transaction = false →
            ¬ (APIHandler.fresh.transport_opened = false ∧
              executorRaises FlowCall.transport_open = true) →
            executorRaises FlowCall.executeByteCode = true →
            run.raised = some FlowCall.executeByteCode ∧ run.outcome.result = default ∧
            submissions run.outcome.effects = [intent] ∧
            executorCalls run.outcome.effects = 0) ∧
          (executorRaises FlowCall.send_transaction = false →
            ¬ (APIHandler.fresh.transport_opened = false ∧
              executorRaises FlowCall.transport_open = true) →
            executorRaises FlowCall.executeByteCode = false →
            executorRaises FlowCall.send_contract_redeploy_tr = true →
            run.raised = some FlowCall.send_contract_redeploy_tr ∧
            run.outcome.result = default ∧
            submissions run.outcome.effects = [intent] ∧
            executorCalls run.outcome.effects = 1) ∧
          (executorRaises FlowCall.send_transaction = false →
            ¬ (APIHandler.fresh.transport_opened = false ∧
              executorRaises FlowCall.transport_open = true) →
            executorRaises FlowCall.executeByteCode = false →
            executorRaises FlowCall.send_contract_redeploy_tr = false →
            run.raised = none ∧
            run.outcome.result.status = SetResponseStatus APIRequestStatusType.SUCCESS "" ∧
            submissions run.outcome.effects = [intent, commit] ∧
            executorCalls run.outcome.effects = 1))) ∧
    (APIHandler.TransactionFlow.raising demoLib vaultChain refusingSolver failingExecutor
        executorRaises 3 APIHandler.fresh invokeVault).map
        (fun run => (run.raised, run.outcome.result.status, run.outcome.effects)) =
      some (some FlowCall.executeByteCode, ⟨0, ""⟩,
        [Effect.send_wallet_transaction invokeVaultIntent false, Effect.open_transport]) ∧
    (APIHandler.TransactionFlow.raising demoLib vaultChain refusingSolver failingExecutor
        (fun _ => false) 3 APIHandler.fresh invokeVault).map
        (fun run => (run.raised, run.outcome.result.status, run.outcome.effects)) =
      some (none, SetResponseStatus APIRequestStatusType.SUCCESS "",
        [Effect.send_wallet_transaction invokeVaultIntent false,
         Effect.open_transport,
         Effect.executeByteCode "vault" "cafe" "" "put" [] ⟨1, "execution failed", "x"⟩,
         Effect.send_wallet_transaction
           { invokeVaultIntent with user_field0 := csdb.UserField.string "call:vault/x" }
           false]) :=
  ⟨by decide, by decide, vaultChain_indexWalk, by decide,
    TransactionFlow_downstream_unchecked demoLib vaultChain refusingSolver failingExecutor
      executorRaises 3 APIHandler.fresh [vaultPool2, vaultPool1] invokeVault (by decide)
      (by decide) vaultChain_indexWalk (by decide),
    by decide, by decide⟩
